import Mathlib

/-!
# Data_Analysis_Assistant: profiling and cleaning engine of `chatBot.jsx`

A shallow embedding of the dataset profiler (`performBasicAnalysis`,
`calculateMedian`), the cleaning planner (`generateCleaningPlan`), the
cleaning executor (`performDataCleaning`) and the cleaning report
(`generateCleaningReport`) of
`src/data-analysis_Agent/src/components/chatBot.jsx`, of the type detection
`detectDataType` of `csvuploader.jsx` and of the chart data preparation
`chartData` of `charts.jsx`, together with the part of the JavaScript value
semantics these functions rely on.

## Conventions of the embedding

* A JavaScript number is a `JSNum`: a finite value, carried as the exact
  rational it denotes, or `NaN`, `+Infinity`, `-Infinity`.  Arithmetic
  (`fadd`, `fmul`, `fdiv`) is IEEE-754 binary64 arithmetic: the exact result
  rounded to nearest, ties to even, by `fl64`.  The sign of zero is not
  represented (`-0` is identified with `0`).
* A JavaScript object with string keys is an `Obj`: the list of its own
  properties in the order `Object.keys` enumerates them (array-index keys in
  ascending numeric order first, then the other keys in insertion order).
  The properties that an object inherits from `Object.prototype` are represented
  where the program uses values of cells as property keys, in the counting
  object of the profiler (`countStep`); `Object.prototype` is taken to be as the
  language defines it.  Column names are own properties of the rows.
* `JSON.stringify(row)` is used by the source only as a set key; it is
  represented by `jsonKey`, a normal form that identifies two rows exactly when
  their serialisations are the same text.
* A function that can throw returns an `Option`: `performDataCleaning` is `none`
  when reading `analysis.columnAnalysis[column].mean` fails because the profile
  has no entry for the column.
* The human readable `description` string of a plan is display only and is not
  part of the embedding.  The cleaning report is the list of its lines, each
  with the values it prints, so that the locale of `toLocaleString` plays no
  part.
* `Array.prototype.sort` is stable; it is represented by insertion sort with the
  relation "the comparator does not ask for a swap".
-/

namespace DataAnalysis

/-! ## Numbers -/

/-- JavaScript number: a finite value (as the exact rational it denotes), NaN or an infinity. -/
inductive JSNum where
  | fin (q : ℚ)
  | nan
  | posInf
  | negInf
  deriving DecidableEq

/-- Auxiliary loop of `natLog2`, by halving. -/
def natLog2Aux : Nat → Nat → Nat
  | 0, _ => 0
  | fuel + 1, n => if n < 2 then 0 else natLog2Aux fuel (n / 2) + 1

/-- Position of the leading bit of a natural number (`0` for `0`). -/
def natLog2 (n : Nat) : Nat := natLog2Aux n n

/-- Binary exponent of a positive rational: the `e` with `2^e ≤ a < 2^(e+1)`. -/
def ilog2 (a : ℚ) : Int :=
  let e0 : Int := (natLog2 a.num.natAbs : Int) - (natLog2 a.den : Int)
  if (2 : ℚ) ^ e0 ≤ a then e0 else e0 - 1

/-- Round a non-negative rational to the nearest integer, ties to the even one. -/
def roundHalfEven (m : ℚ) : Int :=
  let f : Int := Rat.floor m
  let d : ℚ := m - f
  if d < 1 / 2 then f
  else if 1 / 2 < d then f + 1
  else if f % 2 = 0 then f else f + 1

/-- Rounding of an exact real result to binary64 (round to nearest, ties to even),
with gradual underflow below `2^-1022` and overflow to an infinity from `2^1024`. -/
def fl64 (q : ℚ) : JSNum :=
  if q = 0 then .fin 0
  else
    let a : ℚ := |q|
    let p : Int := max (ilog2 a) (-1022) - 52
    let v : ℚ := (roundHalfEven (a / (2 : ℚ) ^ p) : ℚ) * (2 : ℚ) ^ p
    if (2 : ℚ) ^ (1024 : Int) ≤ v then (if q < 0 then .negInf else .posInf)
    else .fin (if q < 0 then -v else v)

/-- JavaScript `a + b` on numbers. -/
def fadd : JSNum → JSNum → JSNum
  | .fin a, .fin b => fl64 (a + b)
  | .nan, _ => .nan
  | _, .nan => .nan
  | .posInf, .negInf => .nan
  | .negInf, .posInf => .nan
  | .posInf, _ => .posInf
  | .negInf, _ => .negInf
  | .fin _, .posInf => .posInf
  | .fin _, .negInf => .negInf

/-- Sign of a number that is not NaN: `1`, `0` or `-1`. -/
def JSNum.sign : JSNum → Int
  | .fin q => if 0 < q then 1 else if q < 0 then -1 else 0
  | .posInf => 1
  | .negInf => -1
  | .nan => 0

/-- JavaScript `a * b` on numbers. -/
def fmul : JSNum → JSNum → JSNum
  | .fin a, .fin b => fl64 (a * b)
  | .nan, _ => .nan
  | _, .nan => .nan
  | a, b =>
    -- at least one factor is infinite
    if a.sign * b.sign = 0 then .nan
    else if 0 < a.sign * b.sign then .posInf else .negInf

/-- JavaScript `a / b` on numbers. -/
def fdiv : JSNum → JSNum → JSNum
  | .nan, _ => .nan
  | _, .nan => .nan
  | .fin a, .fin b =>
    if b = 0 then
      (if a = 0 then .nan else if 0 < a then .posInf else .negInf)
    else fl64 (a / b)
  | .fin _, _ => .fin 0
  | a, .fin b =>
    if 0 ≤ b then a else (match a with | .posInf => .negInf | _ => .posInf)
  | _, _ => .nan

/-- JavaScript `a > b` on numbers (false when either side is NaN). -/
def JSNum.gt : JSNum → JSNum → Bool
  | .fin a, .fin b => decide (b < a)
  | .nan, _ => false
  | _, .nan => false
  | .posInf, .posInf => false
  | .posInf, _ => true
  | .negInf, _ => false
  | .fin _, .posInf => false
  | .fin _, .negInf => true

/-- JavaScript global `isNaN` on a number. -/
def JSNum.isNaN : JSNum → Bool
  | .nan => true
  | _ => false

/-- JavaScript global `isFinite` on a number. -/
def JSNum.isFinite : JSNum → Bool
  | .fin _ => true
  | _ => false

/-- The number literal `0.7`: the binary64 value nearest to seven tenths. -/
def lit07 : ℚ := 6305039478318694 / 9007199254740992

/-- JavaScript comparator `(a, b) => a - b` does not ask for a swap: the difference is not
positive (a NaN difference counts as zero).  For finite operands the binary64 difference has the
sign of the exact difference. -/
def JSNum.subNotPos : JSNum → JSNum → Bool
  | .fin a, .fin b => decide (a ≤ b)
  | .nan, _ => true
  | _, .nan => true
  | .posInf, .posInf => true
  | .negInf, .negInf => true
  | .posInf, _ => false
  | .negInf, _ => true
  | .fin _, .posInf => true
  | .fin _, .negInf => false

/-- A natural number (an array length or a counter) as a JavaScript number. -/
def JSNum.ofNat (n : Nat) : JSNum := .fin (n : ℚ)

/-! ## Strings and numbers -/

/-- White space and line terminators that `Number(string)` and `parseFloat` strip. -/
def isStrWhiteSpace (c : Char) : Bool :=
  let n := c.toNat
  n = 9 || n = 10 || n = 11 || n = 12 || n = 13 || n = 32 || n = 160 || n = 5760 ||
  (8192 ≤ n && n ≤ 8202) || n = 8232 || n = 8233 || n = 8239 || n = 8287 || n = 12288 ||
  n = 65279

/-- Decimal digit test. -/
def isDecDigit (c : Char) : Bool := 48 ≤ c.toNat && c.toNat ≤ 57

/-- Value of a digit character in a radix up to 16, if it is one. -/
def radixDigit (radix : Nat) (c : Char) : Option Nat :=
  let n := c.toNat
  let d : Option Nat :=
    if 48 ≤ n && n ≤ 57 then some (n - 48)
    else if 97 ≤ n && n ≤ 102 then some (n - 87)
    else if 65 ≤ n && n ≤ 70 then some (n - 55)
    else none
  d.bind (fun v => if v < radix then some v else none)

/-- Value of a sequence of decimal digits. -/
def digitsVal (ds : List Char) : Nat :=
  ds.foldl (fun acc c => 10 * acc + (c.toNat - 48)) 0

/-- Value of a non-empty sequence of digits of the given radix. -/
def radixVal (radix : Nat) (ds : List Char) : Option Nat :=
  if ds.isEmpty then none
  else ds.foldl (fun acc c => acc.bind (fun a => (radixDigit radix c).map (fun d => radix * a + d)))
    (some 0)

/-- Result of reading an unsigned decimal literal: an exact value or `Infinity`. -/
inductive Magnitude where
  | exact (q : ℚ)
  | infinite
  deriving DecidableEq

/-- Optional exponent part `e`, sign, digits at the head of the input: the exponent and the
rest, or `none` when there is no complete exponent part. -/
def readExponent : List Char → Option (Int × List Char)
  | c :: rest =>
    if c = 'e' || c = 'E' then
      let signed : Bool × List Char :=
        match rest with
        | '+' :: r => (false, r)
        | '-' :: r => (true, r)
        | r => (false, r)
      let ds := signed.2.takeWhile isDecDigit
      if ds.isEmpty then none
      else
        let e : Int := (digitsVal ds : Int)
        some (if signed.1 then -e else e, signed.2.dropWhile isDecDigit)
    else none
  | [] => none

/-- Longest prefix of the input that is a `StrUnsignedDecimalLiteral`: its value and the
unread rest. -/
def readUnsignedDecimal (cs : List Char) : Option (Magnitude × List Char) :=
  if "Infinity".data.isPrefixOf cs then some (.infinite, cs.drop 8)
  else
    let ip := cs.takeWhile isDecDigit
    let r1 := cs.dropWhile isDecDigit
    let frac : List Char × List Char :=
      match r1 with
      | '.' :: r => (r.takeWhile isDecDigit, r.dropWhile isDecDigit)
      | _ => ([], r1)
    let fp := frac.1
    if ip.isEmpty && fp.isEmpty then none
    else
      -- a lone point after the integer digits belongs to the literal
      let r2 := frac.2
      let mant : ℚ := (digitsVal (ip ++ fp) : ℚ)
      match readExponent r2 with
      | some (e, r3) => some (.exact (mant * (10 : ℚ) ^ (e - (fp.length : Int))), r3)
      | none => some (.exact (mant * (10 : ℚ) ^ (-(fp.length : Int))), r2)

/-- Longest prefix that is a `StrDecimalLiteral` (optional sign, unsigned literal): the number
it denotes and the unread rest. -/
def readDecimal (cs : List Char) : Option (JSNum × List Char) :=
  let signed : Bool × List Char :=
    match cs with
    | '+' :: r => (false, r)
    | '-' :: r => (true, r)
    | r => (false, r)
  match readUnsignedDecimal signed.2 with
  | some (.infinite, rest) => some (if signed.1 then .negInf else .posInf, rest)
  | some (.exact q, rest) => some (fl64 (if signed.1 then -q else q), rest)
  | none => none

/-- Non-decimal integer literal `0x..`, `0o..`, `0b..` (the whole input). -/
def readNonDecimal : List Char → Option JSNum
  | '0' :: c :: ds =>
    let radix : Option Nat :=
      if c = 'x' || c = 'X' then some 16
      else if c = 'o' || c = 'O' then some 8
      else if c = 'b' || c = 'B' then some 2
      else none
    radix.bind (fun r => (radixVal r ds).map (fun n => fl64 (n : ℚ)))
  | _ => none

/-- `StringToNumber`: the number a string coerces to. -/
def stringToNumber (s : String) : JSNum :=
  let cs := ((s.data.dropWhile isStrWhiteSpace).reverse.dropWhile isStrWhiteSpace).reverse
  if cs.isEmpty then .fin 0
  else
    match readNonDecimal cs with
    | some n => n
    | none =>
      match readDecimal cs with
      | some (n, []) => n
      | _ => .nan

/-- JavaScript `parseFloat` on a string. -/
def parseFloat (s : String) : JSNum :=
  match readDecimal (s.data.dropWhile isStrWhiteSpace) with
  | some (n, _) => n
  | none => .nan

/-- Auxiliary loop of `natLog10`, by division by ten. -/
def natLog10Aux : Nat → Nat → Nat
  | 0, _ => 0
  | fuel + 1, n => if n < 10 then 0 else natLog10Aux fuel (n / 10) + 1

/-- Number of decimal digits of a natural number, less one (`0` for `0`). -/
def natLog10 (n : Nat) : Nat := natLog10Aux n n

/-- Decimal exponent of a positive rational: the `e` with `10^e ≤ a < 10^(e+1)`. -/
def ilog10 (a : ℚ) : Int :=
  let e0 : Int := (natLog10 a.num.natAbs : Int) - (natLog10 a.den : Int)
  if (10 : ℚ) ^ e0 ≤ a then e0 else e0 - 1

/-- Decimal digits of a natural number. -/
def natRepr (n : Nat) : List Char := Nat.toDigits 10 n

/-- The decimal `s × 10^(n-k)` with `k` digits that reads back as the positive number `x`, if
there is one: the pair `(s, n)`.  Of two such decimals the nearer to `x` is taken. -/
def digitsCandidate (x : ℚ) (n : Int) (k : Nat) : Option (Nat × Int) :=
  let scale : ℚ := (10 : ℚ) ^ (n - (k : Int))
  let t : ℚ := x / scale
  let lo : Int := Rat.floor t
  let hi : Int := lo + 1
  let okLo : Bool := decide (fl64 ((lo : ℚ) * scale) = .fin x)
  let okHi : Bool := decide (fl64 ((hi : ℚ) * scale) = .fin x)
  let pick : Option Int :=
    if okLo && okHi then
      (if t - lo < hi - t then some lo
       else if hi - t < t - lo then some hi
       else if lo % 2 = 0 then some lo else some hi)
    else if okLo then some lo
    else if okHi then some hi
    else none
  pick.map (fun c => if c.toNat = 10 ^ k then (10 ^ (k - 1), n + 1) else (c.toNat, n))

/-- Shortest decimal that reads back as the positive number `x`, searched among one to
seventeen digits; a value that is no binary64 number gets its seventeen nearest digits. -/
def shortestDigits (x : ℚ) : Nat × Int :=
  let n : Int := ilog10 x + 1
  match (List.range 17).findSome? (fun i => digitsCandidate x n (i + 1)) with
  | some r => r
  | none =>
    let c : Nat := (roundHalfEven (x / (10 : ℚ) ^ (n - 17))).toNat
    if c = 10 ^ 17 then (10 ^ 16, n + 1) else (c, n)

/-- Layout of the digits `ds` of a number with decimal exponent `n`, as `Number::toString`
prescribes. -/
def layoutDigits (ds : List Char) (n : Int) : List Char :=
  let k : Int := (ds.length : Int)
  if k ≤ n ∧ n ≤ 21 then ds ++ List.replicate (n - k).toNat '0'
  else if 0 < n ∧ n ≤ 21 then ds.take n.toNat ++ '.' :: ds.drop n.toNat
  else if -6 < n ∧ n ≤ 0 then '0' :: '.' :: (List.replicate (-n).toNat '0' ++ ds)
  else
    let e : Int := n - 1
    let es : List Char := (if e < 0 then '-' else '+') :: natRepr e.natAbs
    match ds with
    | [] => []
    | [d] => d :: 'e' :: es
    | d :: rest => d :: '.' :: (rest ++ 'e' :: es)

/-- `Number::toString` in radix ten: the string form of a number. -/
def numToString : JSNum → String
  | .nan => "NaN"
  | .posInf => "Infinity"
  | .negInf => "-Infinity"
  | .fin q =>
    if q = 0 then "0"
    else
      let r := shortestDigits |q|
      let body := layoutDigits (natRepr r.1) r.2
      String.mk (if q < 0 then '-' :: body else body)

/-- `Number.prototype.toFixed(f)`: the number with exactly `f` decimals, rounding half
away from zero; from `10^21` on it is the plain string form. -/
def toFixed (x : JSNum) (f : Nat) : String :=
  match x with
  | .fin q =>
    if (10 : ℚ) ^ 21 ≤ |q| then numToString x
    else
      let n : Nat := (Rat.floor (|q| * (10 : ℚ) ^ f + 1 / 2)).toNat
      let m : List Char := natRepr n
      let padded : List Char := List.replicate (f + 1 - m.length) '0' ++ m
      let body : List Char :=
        if f = 0 then m
        else padded.take (padded.length - f) ++ '.' :: padded.drop (padded.length - f)
      String.mk (if q < 0 then '-' :: body else body)
  | other => numToString other

/-! ## Values -/

/-- Scalar JavaScript value of a table cell. -/
inductive Value where
  | null
  | undefined
  | bool (b : Bool)
  | num (n : JSNum)
  | str (s : String)
  deriving DecidableEq

/-- JavaScript `Number(v)`. -/
def toNumber : Value → JSNum
  | .null => .fin 0
  | .undefined => .nan
  | .bool b => if b then .fin 1 else .fin 0
  | .num n => n
  | .str s => stringToNumber s

/-- JavaScript truthiness of a value. -/
def toBoolean : Value → Bool
  | .null => false
  | .undefined => false
  | .bool b => b
  | .num (.fin q) => decide (q ≠ 0)
  | .num .nan => false
  | .num _ => true
  | .str s => decide (s ≠ "")

/-- JavaScript `String(v)`, also the property key a value is turned into. -/
def toStr : Value → String
  | .null => "null"
  | .undefined => "undefined"
  | .bool b => if b then "true" else "false"
  | .num n => numToString n
  | .str s => s

/-- JavaScript `v == null`: the value is `null` or `undefined`. -/
def isNullish : Value → Bool
  | .null => true
  | .undefined => true
  | _ => false

/-- The profiler's test `val != null && val !== ''`. -/
def isPresent (v : Value) : Bool := !isNullish v && decide (v ≠ .str "")

/-- JavaScript `a ?? b`. -/
def nullishCoalesce (a b : Value) : Value := if isNullish a then b else a

/-- JavaScript `a || b`. -/
def logicalOr (a b : Value) : Value := if toBoolean a then a else b

/-! ## Objects, rows and datasets -/

/-- Object with string keys: its own properties in enumeration order. -/
abbrev Obj (α : Type) := List (String × α)

/-- The array index a property key denotes, if it is the canonical decimal form of an
integer below `2^32 - 1`. -/
def arrayIndex (k : String) : Option Nat :=
  let cs := k.data
  if cs.isEmpty || !cs.all isDecDigit then none
  else if decide (1 < cs.length) && decide (cs.head? = some '0') then none
  else if digitsVal cs < 4294967295 then some (digitsVal cs) else none

/-- Enumeration order of two distinct keys when the first is created after the second:
a new key goes in front of an old one exactly when it is an array index and the old one is a
larger index or no index. -/
def keyBefore (k old : String) : Bool :=
  match arrayIndex k, arrayIndex old with
  | some i, some j => decide (i < j)
  | some _, none => true
  | none, _ => false

/-- Property read `o[k]` (`none` stands for `undefined`: no such own property). -/
def objGet {α : Type} : Obj α → String → Option α
  | [], _ => none
  | (k', v) :: o, k => if k' = k then some v else objGet o k

/-- Overwrite the value of an existing key, in place. -/
def objReplace {α : Type} : Obj α → String → α → Obj α
  | [], _, _ => []
  | (k', v') :: o, k, v => if k' = k then (k', v) :: o else (k', v') :: objReplace o k v

/-- Create a key that the object does not have yet. -/
def objInsertNew {α : Type} : Obj α → String → α → Obj α
  | [], k, v => [(k, v)]
  | (k', v') :: o, k, v =>
    if keyBefore k k' then (k, v) :: (k', v') :: o else (k', v') :: objInsertNew o k v

/-- Property write `o[k] = v`. -/
def objSet {α : Type} (o : Obj α) (k : String) (v : α) : Obj α :=
  if (objGet o k).isSome then objReplace o k v else objInsertNew o k v

/-- Object without the key `k` (rest destructuring). -/
def objErase {α : Type} (o : Obj α) (k : String) : Obj α :=
  o.filter (fun e => decide (e.1 ≠ k))

/-- `Object.keys(o)`. -/
def objKeys {α : Type} (o : Obj α) : List String := o.map (fun e => e.1)

/-- Row of a dataset: column name to cell value. -/
abbrev Row := Obj Value

/-- Dataset: the rows in order. -/
abbrev Dataset := List Row

/-- Cell read `row[col]`. -/
def rowGet (row : Row) (col : String) : Value := (objGet row col).getD .undefined

/-- Elements of `[...new Set(values)]`: the distinct values, first occurrences in order. -/
def uniqueValues (values : List Value) : List Value :=
  values.foldl (fun acc v => if v ∈ acc then acc else acc ++ [v]) []

/-! ## Profiler -/

/-- Column type assigned by the profiler. -/
inductive ColType where
  | numeric
  | categorical
  deriving DecidableEq

/-- Value of a property of the counting object `valueCounts`: the number of occurrences
counted, or a text. The object starts as `{}` and so inherits from `Object.prototype`: a count
that starts from an inherited function `f` is the text `String(f) + "1"`, and every further
occurrence appends another `"1"`. The text of a built-in function differs between engines in
its white space and is not spelled out: `text name ones` stands for
`String(Object.prototype[name])` followed by `ones` characters `1`. -/
inductive Count where
  | number (n : Nat)
  | text (name : String) (ones : Nat)
  deriving DecidableEq

/-- Numerals denote counts that are numbers. -/
instance (n : Nat) : OfNat Count n := ⟨.number n⟩

/-- Entry of `columnAnalysis`.  A statistic the source does not set is `undefined`
(`none` for `topValues`). -/
structure ColumnProfile where
  type : ColType
  totalCount : Nat
  nonNullCount : Nat
  nullCount : Nat
  nullPercentage : String
  uniqueCount : Nat
  uniquePercentage : String
  min : Value
  max : Value
  mean : Value
  median : Value
  topValues : Option (List (String × Count))
  deriving DecidableEq

/-- Result of `performBasicAnalysis`. -/
structure Profile where
  rowCount : Nat
  columnCount : Nat
  columns : List String
  columnAnalysis : Obj ColumnProfile
  numericColumns : List String
  categoricalColumns : List String
  deriving DecidableEq

/-- JavaScript `Math.min` of two numbers. -/
def min2 (a b : JSNum) : JSNum :=
  if a.isNaN || b.isNaN then .nan else if a.gt b then b else a

/-- JavaScript `Math.max` of two numbers. -/
def max2 (a b : JSNum) : JSNum :=
  if a.isNaN || b.isNaN then .nan else if b.gt a then b else a

/-- JavaScript `Math.min(...xs)`. -/
def mathMin (xs : List JSNum) : JSNum := xs.foldl min2 .posInf

/-- JavaScript `Math.max(...xs)`. -/
def mathMax (xs : List JSNum) : JSNum := xs.foldl max2 .negInf

/-- Array read `xs[i]` inside an arithmetic expression: an absent element is `undefined`,
which arithmetic turns into NaN. -/
def numAt (xs : List JSNum) (i : Nat) : JSNum := (xs.get? i).getD .nan

/-- Source function `calculateMedian` (chatBot.jsx, lines 114-118). -/
def calculateMedian (numbers : List JSNum) : JSNum :=
  let sorted := numbers.insertionSort (fun a b => a.subNotPos b = true)
  let mid := sorted.length / 2
  if sorted.length % 2 ≠ 0 then numAt sorted mid
  else fdiv (fadd (numAt sorted (mid - 1)) (numAt sorted mid)) (.fin 2)

/-- The names of the properties of `Object.prototype` whose value is a function. Every object
created by `{}` inherits them, together with the accessor `__proto__`. -/
def objectPrototypeFunctions : List String :=
  ["constructor", "__defineGetter__", "__defineSetter__", "hasOwnProperty",
   "__lookupGetter__", "__lookupSetter__", "isPrototypeOf", "propertyIsEnumerable",
   "toString", "valueOf", "toLocaleString"]

/-- The expression `(c || 0) + 1` on a count read from an own property: a number is
incremented, a text (which is not empty, so truthy) gets `"1"` appended. -/
def Count.succ : Count → Count
  | .number n => .number (n + 1)
  | .text name ones => .text name (ones + 1)

/-- The comparator `([,a], [,b]) => b - a` is not positive, so asks for no swap: both counts
are numbers and `b ≤ a`, or one is a text and the difference is NaN. -/
def Count.subNotPos (b a : Count) : Bool :=
  match b, a with
  | .number m, .number n => decide (m ≤ n)
  | _, _ => true

/-- Body of the reduction: `acc[val] = (acc[val] || 0) + 1` for the property key `k` of `val`.
An own property is counted up. Without an own property the read finds what `Object.prototype`
has: for `__proto__` the prototype itself, and the write, which goes to the inherited setter
with a text, changes nothing; for the name of an inherited function that function, and the
write creates the own property with the text of the function followed by `1`; for any other
key `undefined`, and the write creates the own property with the count 1. -/
def countStep (acc : Obj Count) (k : String) : Obj Count :=
  match objGet acc k with
  | some c => objSet acc k c.succ
  | none =>
    if k = "__proto__" then acc
    else if k ∈ objectPrototypeFunctions then objSet acc k (.text k 1)
    else objSet acc k (.number 1)

/-- The reduction `values.reduce((acc, val) => { acc[val] = (acc[val] || 0) + 1; ... }, {})`. -/
def valueCounts (values : List Value) : Obj Count :=
  values.foldl (fun acc val => countStep acc (toStr val)) []

/-- `Object.entries(valueCounts).sort(([,a], [,b]) => b - a).slice(0, 5)`; the sort is stable.
(When a count is a text the comparator answers NaN for it and the order is then up to the
engine; the insertion sort takes NaN as "no swap".) -/
def topValuesOf (values : List Value) : List (String × Count) :=
  ((valueCounts values).insertionSort (fun x y => y.2.subNotPos x.2 = true)).take 5

/-- Body of the `columns.forEach` loop of `performBasicAnalysis` (lines 68-101): the entry
stored in `columnAnalysis[col]`. -/
def analyzeColumn (data : Dataset) (col : String) : ColumnProfile :=
  let rowCount := data.length
  let values := (data.map (fun row => rowGet row col)).filter isPresent
  let uniq := uniqueValues values
  let nonNullCount := values.length
  let nullCount := rowCount - nonNullCount
  let numericValues := (values.map toNumber).filter (fun val => !val.isNaN && val.isFinite)
  let isNumeric : Bool :=
    (JSNum.ofNat numericValues.length).gt (fmul (JSNum.ofNat values.length) (.fin lit07))
  let info : ColumnProfile :=
    { type := if isNumeric then .numeric else .categorical
      totalCount := rowCount
      nonNullCount := nonNullCount
      nullCount := nullCount
      nullPercentage :=
        toFixed (fmul (fdiv (JSNum.ofNat nullCount) (JSNum.ofNat rowCount)) (.fin 100)) 1
      uniqueCount := uniq.length
      uniquePercentage :=
        toFixed (fmul (fdiv (JSNum.ofNat uniq.length) (JSNum.ofNat nonNullCount)) (.fin 100)) 1
      min := .undefined
      max := .undefined
      mean := .undefined
      median := .undefined
      topValues := none }
  if isNumeric && decide (0 < numericValues.length) then
    { info with
      min := .num (mathMin numericValues)
      max := .num (mathMax numericValues)
      mean := .str (toFixed
        (fdiv (numericValues.foldl fadd (.fin 0)) (JSNum.ofNat numericValues.length)) 2)
      median := .num (calculateMedian numericValues) }
  else
    { info with topValues := some (topValuesOf values) }

/-- Source function `performBasicAnalysis` (chatBot.jsx, lines 60-112) on an array of rows;
`none` is the `null` it returns for an empty dataset. -/
def performBasicAnalysis (data : Dataset) : Option Profile :=
  match data with
  | [] => none
  | first :: _ =>
    let columns := objKeys first
    let columnAnalysis : Obj ColumnProfile :=
      columns.foldl (fun acc col => objSet acc col (analyzeColumn data col)) []
    some
      { rowCount := data.length
        columnCount := columns.length
        columns := columns
        columnAnalysis := columnAnalysis
        numericColumns := columns.filter (fun col =>
          decide ((objGet columnAnalysis col).map (fun i => i.type) = some .numeric))
        categoricalColumns := columns.filter (fun col =>
          decide ((objGet columnAnalysis col).map (fun i => i.type) = some .categorical)) }

/-! ## Cleaning planner -/

/-- Fill strategy of a `fill_numeric` operation. -/
inductive Strategy where
  | mean
  | median
  deriving DecidableEq

/-- Cleaning operation, by its `type` tag. -/
inductive Operation where
  | remove_column (column : String)
  | fill_numeric (column : String) (strategy : Strategy) (value : Value)
  | fill_categorical (column : String) (value : Value)
  | remove_duplicates
  | clean_numeric (column : String)
  deriving DecidableEq

/-- Cleaning plan: the ordered operations. -/
structure CleaningPlan where
  operations : List Operation
  deriving DecidableEq

/-- Property read `info[strategy]`. -/
def strategyValue (info : ColumnProfile) : Strategy → Value
  | .mean => info.mean
  | .median => info.median

/-- The expression `info.topValues?.[0]?.[0]`. -/
def firstTopValue (info : ColumnProfile) : Value :=
  match info.topValues with
  | some ((k, _) :: _) => .str k
  | _ => .undefined

/-- Body of the `columnsWithNulls.forEach` loop of `generateCleaningPlan` (lines 394-407):
the operation pushed for one column. -/
def planColumn (col : String) (info : ColumnProfile) : Operation :=
  if (parseFloat info.nullPercentage).gt (.fin 80) then .remove_column col
  else if info.type = .numeric then
    let strategy : Strategy :=
      if (parseFloat info.nullPercentage).gt (.fin 30) then .median else .mean
    .fill_numeric col strategy (strategyValue info strategy)
  else
    let mostCommon := logicalOr (firstTopValue info) (.str "Unknown")
    .fill_categorical col mostCommon

/-- Source function `generateCleaningPlan` (chatBot.jsx, lines 382-421). -/
def generateCleaningPlan (analysis : Profile) : CleaningPlan :=
  let columnsWithNulls := analysis.columnAnalysis.filter (fun e => decide (0 < e.2.nullCount))
  { operations :=
      columnsWithNulls.map (fun e => planColumn e.1 e.2)
        ++ [Operation.remove_duplicates]
        ++ analysis.numericColumns.map (fun col => Operation.clean_numeric col) }

/-! ## Cleaning executor -/

/-- Normal form of a cell value under `JSON.stringify`: NaN and the infinities are written
`null`. -/
inductive JsonValue where
  | null
  | bool (b : Bool)
  | num (q : ℚ)
  | str (s : String)
  deriving DecidableEq

/-- What `JSON.stringify` writes for a cell; `none` for `undefined`, whose property is left
out of the text. -/
def jsonValue : Value → Option JsonValue
  | .undefined => none
  | .null => some .null
  | .bool b => some (.bool b)
  | .num (.fin q) => some (.num q)
  | .num _ => some .null
  | .str s => some (.str s)

/-- Row identity `JSON.stringify(row)`, up to the injective rendering of keys and values as
text. -/
def jsonKey (row : Row) : List (String × JsonValue) :=
  row.filterMap (fun e => (jsonValue e.2).map (fun j => (e.1, j)))

/-- State of the duplicate scan: the rows kept so far and the keys seen. -/
structure DedupState where
  uniqueData : List Row
  seen : List (List (String × JsonValue))

/-- One step of the `cleanedData.forEach` loop of `remove_duplicates` (lines 462-468). -/
def dedupStep (st : DedupState) (row : Row) : DedupState :=
  let key := jsonKey row
  if key ∈ st.seen then st
  else { uniqueData := st.uniqueData ++ [row], seen := st.seen ++ [key] }

/-- Rows left by the duplicate scan. -/
def removeDuplicates (data : Dataset) : Dataset :=
  (data.foldl dedupStep { uniqueData := [], seen := [] }).uniqueData

/-- Loop state of `performDataCleaning`. -/
structure CleaningState where
  cleanedData : Dataset
  operationResults : Obj Nat
  deriving DecidableEq

/-- The update `operationResults[type] = (operationResults[type] || 0) + 1`. -/
def bumpResult (results : Obj Nat) (type : String) : Obj Nat :=
  objSet results type ((objGet results type).getD 0 + 1)

/-- One iteration of the loop of `performDataCleaning` (lines 427-486); `none` when the
iteration throws (reading `.mean` of a column that `columnAnalysis` does not have). -/
def applyOperation (analysis : Profile) (st : CleaningState) :
    Operation → Option CleaningState
  | .remove_column column =>
    some
      { cleanedData := st.cleanedData.map (fun row => objErase row column)
        operationResults := bumpResult st.operationResults "remove_column" }
  | .fill_numeric column strategy _ =>
    match objGet analysis.columnAnalysis column with
    | none => none
    | some info =>
      let meanValue := info.mean
      let medianValue := info.median
      let fillValue := if strategy = .mean then meanValue else medianValue
      some
        { cleanedData := st.cleanedData.map (fun row =>
            objSet row column (nullishCoalesce (rowGet row column) fillValue))
          operationResults := bumpResult st.operationResults "fill_numeric" }
  | .fill_categorical column value =>
    some
      { cleanedData := st.cleanedData.map (fun row =>
          objSet row column (logicalOr (rowGet row column) value))
        operationResults := bumpResult st.operationResults "fill_categorical" }
  | .remove_duplicates =>
    let originalLength := st.cleanedData.length
    let uniqueData := removeDuplicates st.cleanedData
    some
      { cleanedData := uniqueData
        operationResults :=
          objSet st.operationResults "remove_duplicates" (originalLength - uniqueData.length) }
  | .clean_numeric column =>
    some
      { cleanedData := st.cleanedData.map (fun row =>
          objSet row column
            (if (toNumber (rowGet row column)).isNaN then rowGet row column
             else .num (toNumber (rowGet row column))))
        operationResults := bumpResult st.operationResults "clean_numeric" }

/-- The loop of `performDataCleaning` over the operations, from a given state. -/
def runOperations (analysis : Profile) : CleaningState → List Operation → Option CleaningState
  | st, [] => some st
  | st, op :: ops =>
    match applyOperation analysis st op with
    | none => none
    | some st1 => runOperations analysis st1 ops

/-- Source function `performDataCleaning` (chatBot.jsx, lines 423-489): the cleaned dataset,
or `none` when the run throws. -/
def performDataCleaning (data : Dataset) (analysis : Profile) (plan : CleaningPlan) :
    Option Dataset :=
  (runOperations analysis { cleanedData := data, operationResults := [] } plan.operations).map
    (fun st => st.cleanedData)

/-- The non-missing values of a column: `data.map(row => row[col])` filtered by
`val != null && val !== ''`. -/
def presentValues (data : Dataset) (col : String) : List Value :=
  (data.map (fun row => rowGet row col)).filter isPresent

/-! ## Vocabulary of the statements -/

/-- The column an operation works on (`remove_duplicates` has none). -/
def opColumn : Operation → Option String
  | .remove_column column => some column
  | .fill_numeric column _ _ => some column
  | .fill_categorical column _ => some column
  | .remove_duplicates => none
  | .clean_numeric column => some column

/-- The operation is one of those planned for a column with missing values. -/
def isNullHandling : Operation → Bool
  | .remove_column _ => true
  | .fill_numeric _ _ _ => true
  | .fill_categorical _ _ => true
  | _ => false

/-- The operation is a `fill_numeric` on the column. -/
def isFillNumericOn (col : String) : Operation → Bool
  | .fill_numeric column _ _ => decide (column = col)
  | _ => false

/-- The operation is a `fill_categorical` on the column. -/
def isFillCategoricalOn (col : String) : Operation → Bool
  | .fill_categorical column _ => decide (column = col)
  | _ => false

/-- The keys of an object are distinct and in enumeration order: no key stands behind a key
that it precedes in that order. -/
def keysOrdered (keys : List String) : Prop :=
  keys.Nodup ∧ keys.Pairwise (fun a b => keyBefore b a = false)

instance (keys : List String) : Decidable (keysOrdered keys) := by
  unfold keysOrdered
  exact inferInstance

/-! ## Example data and auxiliary definitions -/

/-- A column `v` with 63 numeric strings and 27 other strings: exactly seven tenths of its 90
values coerce to a number. -/
def seventyPercentDataset : Dataset :=
  List.replicate 63 [("v", Value.str "1")] ++ List.replicate 27 [("v", Value.str "n/a")]

/-- A profile with one categorical column, 85% of it missing. -/
def mostlyMissingProfile : Profile :=
  { rowCount := 20
    columnCount := 1
    columns := ["c"]
    columnAnalysis :=
      [("c",
        { type := .categorical, totalCount := 20, nonNullCount := 3, nullCount := 17
          nullPercentage := "85.0", uniqueCount := 1, uniquePercentage := "33.3"
          min := .undefined, max := .undefined, mean := .undefined, median := .undefined
          topValues := some [("a", 3)] })]
    numericColumns := []
    categoricalColumns := ["c"] }

/-- A profile with two numeric columns, half of the first and a tenth of the second
missing. -/
def numericGapsProfile : Profile :=
  { rowCount := 10
    columnCount := 2
    columns := ["u", "w"]
    columnAnalysis :=
      [("u",
        { type := .numeric, totalCount := 10, nonNullCount := 5, nullCount := 5
          nullPercentage := "50.0", uniqueCount := 5, uniquePercentage := "100.0"
          min := .num (.fin 1), max := .num (.fin 5), mean := .str "3.00"
          median := .num (.fin 3), topValues := none }),
       ("w",
        { type := .numeric, totalCount := 10, nonNullCount := 9, nullCount := 1
          nullPercentage := "10.0", uniqueCount := 9, uniquePercentage := "100.0"
          min := .num (.fin 1), max := .num (.fin 9), mean := .str "5.00"
          median := .num (.fin 5), topValues := none })]
    numericColumns := ["u", "w"]
    categoricalColumns := [] }

/-- A profile whose categorical column lists the empty string as its most frequent value. -/
def emptyTopValueProfile : Profile :=
  { rowCount := 4
    columnCount := 1
    columns := ["c"]
    columnAnalysis :=
      [("c",
        { type := .categorical, totalCount := 4, nonNullCount := 3, nullCount := 1
          nullPercentage := "25.0", uniqueCount := 2, uniquePercentage := "66.7"
          min := .undefined, max := .undefined, mean := .undefined, median := .undefined
          topValues := some [("", 2), ("b", 1)] })]
    numericColumns := []
    categoricalColumns := ["c"] }

/-- A profile with one categorical column, a quarter of it missing. -/
def categoricalGapsProfile : Profile :=
  { rowCount := 4
    columnCount := 1
    columns := ["c"]
    columnAnalysis :=
      [("c",
        { type := .categorical, totalCount := 4, nonNullCount := 3, nullCount := 1
          nullPercentage := "25.0", uniqueCount := 2, uniquePercentage := "66.7"
          min := .undefined, max := .undefined, mean := .undefined, median := .undefined
          topValues := some [("a", 2), ("b", 1)] })]
    numericColumns := []
    categoricalColumns := ["c"] }

/-- The dataset `[{x:"1",y:"a"}, {x:"",y:"a"}, {x:"3",y:null}]`. -/
def pipelineDataset : Dataset :=
  [[("x", .str "1"), ("y", .str "a")],
   [("x", .str ""), ("y", .str "a")],
   [("x", .str "3"), ("y", .null)]]

/-- The profile that the profiler computes for `pipelineDataset`. -/
def pipelineProfile : Profile :=
  { rowCount := 3
    columnCount := 2
    columns := ["x", "y"]
    columnAnalysis :=
      [("x",
        { type := .numeric, totalCount := 3, nonNullCount := 2, nullCount := 1
          nullPercentage := "33.3", uniqueCount := 2, uniquePercentage := "100.0"
          min := .num (.fin 1), max := .num (.fin 3), mean := .str "2.00"
          median := .num (.fin 2), topValues := none }),
       ("y",
        { type := .categorical, totalCount := 3, nonNullCount := 2, nullCount := 1
          nullPercentage := "33.3", uniqueCount := 1, uniquePercentage := "50.0"
          min := .undefined, max := .undefined, mean := .undefined, median := .undefined
          topValues := some [("a", 2)] })]
    numericColumns := ["x"]
    categoricalColumns := ["y"] }

/-- The dataset `[{a:1,b:2}, {a:1,b:2}, {a:3,b:4}]`. -/
def duplicateRowsDataset : Dataset :=
  [[("a", .num (.fin 1)), ("b", .num (.fin 2))],
   [("a", .num (.fin 1)), ("b", .num (.fin 2))],
   [("a", .num (.fin 3)), ("b", .num (.fin 4))]]

/-- The value `clean_numeric` stores for a cell:
`isNaN(Number(v)) ? v : Number(v)`. -/
def coerceNumeric (v : Value) : Value :=
  if (toNumber v).isNaN then v else .num (toNumber v)

/-- Source function `performBasicAnalysis` on an argument that may be absent (`null` or
`undefined`, here `none`): the test `!data || data.length === 0` returns `null` for it. -/
def performBasicAnalysisOpt : Option Dataset → Option Profile
  | none => none
  | some data => performBasicAnalysis data

/-- A dataset with one row, whose only column `c` is `null`. -/
def allNullDataset : Dataset := [[("c", .null)]]

/-- The dataset `[{a:"1",b:"u"}, {a:"2.5",b:"v"}]`. -/
def numericAndTextDataset : Dataset :=
  [[("a", .str "1"), ("b", .str "u")], [("a", .str "2.5"), ("b", .str "v")]]

/-- The change an operation makes to each row; `remove_duplicates` changes no row, and so
does a `fill_numeric` whose column the profile has no entry for (the run throws there). -/
def opRowMap (analysis : Profile) : Operation → Row → Row
  | .remove_column column => fun row => objErase row column
  | .fill_numeric column strategy _ => fun row =>
    match objGet analysis.columnAnalysis column with
    | none => row
    | some info => objSet row column (nullishCoalesce (rowGet row column)
        (strategyValue info strategy))
  | .fill_categorical column value => fun row =>
    objSet row column (logicalOr (rowGet row column) value)
  | .remove_duplicates => fun row => row
  | .clean_numeric column => fun row => objSet row column (coerceNumeric (rowGet row column))

/-- The changes of a list of operations to a row, one after the other. -/
def planRowMap (analysis : Profile) (ops : List Operation) (row : Row) : Row :=
  ops.foldl (fun r op => opRowMap analysis op r) row

/-- Every `fill_numeric` operation of the list works on a column that the profile has an
entry for. -/
def fillsProfiled (analysis : Profile) (ops : List Operation) : Prop :=
  ∀ c s v, Operation.fill_numeric c s v ∈ ops → (objGet analysis.columnAnalysis c).isSome = true

/-- A dataset whose row has neither of the columns `x` and `y` of `pipelineProfile`. -/
def otherColumnsDataset : Dataset := [[("z", .num (.fin 1))]]

/-- The counting object built from the property keys `ks` in turn:
`acc[k] = (acc[k] || 0) + 1`. -/
def tally (ks : List String) : Obj Nat :=
  ks.foldl (fun acc k => objSet acc k ((objGet acc k).getD 0 + 1)) []

/-- The distinct elements of a list in the order of their first occurrence. -/
def firstOccurrences (ks : List String) : List String :=
  ks.foldl (fun acc k => if k ∈ acc then acc else acc ++ [k]) []

/-- The string forms of the non-missing values of a column, in row order: the property keys
that the frequency count of the column writes. -/
def columnKeys (data : Dataset) (col : String) : List String :=
  (presentValues data col).map toStr

/-- A property key that is not an array index. -/
def plainKey (k : String) : Bool := (arrayIndex k).isNone

/-- The (value, count) pairs of a list of values in the order in which the values were first
encountered, sorted by descending count with a stable sort, cut to five entries. -/
def topValuesByEncounter (values : List Value) : List (String × Nat) :=
  (((firstOccurrences (values.map toStr)).map
      (fun k => (k, (values.map toStr).count k))).insertionSort (fun x y => y.2 ≤ x.2)).take 5

/-- The dataset `[{c:"x"},{c:7}]`. -/
def mixedKeysDataset : Dataset :=
  [[("c", .str "x")], [("c", .num (.fin 7))]]

/-- The dataset `[{c:"b"},{c:"a"},{c:"b"},{c:"c"}]`. -/
def plainKeysDataset : Dataset :=
  [[("c", .str "b")], [("c", .str "a")], [("c", .str "b")], [("c", .str "c")]]

/-- The dataset `[{a:"p",b:5},{a:"q",b:null},{a:"r",b:null},{a:"s",b:null},{a:"t",b:null},
{a:"u",b:null}]`: the numeric column `b` is missing in five of six rows. -/
def sparseNumericDataset : Dataset :=
  [[("a", .str "p"), ("b", .num (.fin 5))], [("a", .str "q"), ("b", .null)],
   [("a", .str "r"), ("b", .null)], [("a", .str "s"), ("b", .null)],
   [("a", .str "t"), ("b", .null)], [("a", .str "u"), ("b", .null)]]

/-- The dataset `[{x:1},{x:3},{x:null},{x:2}]`: the mean of the numeric column `x` is 2. -/
def meanFillDataset : Dataset :=
  [[("x", .num (.fin 1))], [("x", .num (.fin 3))], [("x", .null)], [("x", .num (.fin 2))]]

/-- The rows of a dataset have pairwise different serialisations. -/
def duplicateFree (data : Dataset) : Prop := (data.map jsonKey).Nodup

instance (data : Dataset) : Decidable (duplicateFree data) := by
  unfold duplicateFree
  exact inferInstance

/-- A column `v` with 7 numeric strings and 3 other strings. -/
def sevenOfTenDataset : Dataset :=
  List.replicate 7 [("v", Value.str "1")] ++ List.replicate 3 [("v", Value.str "n/a")]

/-- The dataset `[{"":0,"a":"x"}]`, as parsed from a CSV file whose first header cell is
empty. -/
def emptyHeaderDataset : Dataset := [[("", .num (.fin 0)), ("a", .str "x")]]

/-! ## Cleaning report -/

/-- One line of the cleaning report: each constructor stands for one `report += ...` of
`generateCleaningReport`, with the values that the template string prints. -/
inductive ReportLine where
  | resultsHeader
  | originalRows (count : Nat)
  | cleanedRows (count : Nat)
  | rowsRemoved (removed : Int) (percentage : String)
  | columnsRemoved (removedCols : Int)
  | operationsHeader
  | removedColumn (column : String)
  | filledNumeric (column : String) (strategy : Strategy)
  | filledCategorical (column : String) (value : String)
  | removedDuplicates
  | cleanedNumeric (column : String)
  deriving DecidableEq

/-- The expression `Object.keys(data[0] || {}).length`. -/
def firstRowKeyCount (data : Dataset) : Nat :=
  (objKeys (data.head?.getD [])).length

/-- Body of the `plan.operations.forEach` loop of `generateCleaningReport` (lines 510-528):
the line written for one operation. -/
def operationLine : Operation → ReportLine
  | .remove_column column => .removedColumn column
  | .fill_numeric column strategy _ => .filledNumeric column strategy
  | .fill_categorical column value => .filledCategorical column (toStr value)
  | .remove_duplicates => .removedDuplicates
  | .clean_numeric column => .cleanedNumeric column

/-- Source function `generateCleaningReport` (chatBot.jsx, lines 491-531): the lines of the
report in the order written. -/
def generateCleaningReport (originalData cleanedData : Dataset) (plan : CleaningPlan) :
    List ReportLine :=
  let report : List ReportLine :=
    [.resultsHeader, .originalRows originalData.length, .cleanedRows cleanedData.length]
  let report :=
    if originalData.length ≠ cleanedData.length then
      let removed : Int := (originalData.length : Int) - (cleanedData.length : Int)
      report ++ [.rowsRemoved removed
        (toFixed (fmul (fdiv (.fin removed) (JSNum.ofNat originalData.length)) (.fin 100)) 1)]
    else report
  let originalColumns := firstRowKeyCount originalData
  let cleanedColumns := firstRowKeyCount cleanedData
  let report :=
    if originalColumns ≠ cleanedColumns then
      let removedCols : Int := (originalColumns : Int) - (cleanedColumns : Int)
      report ++ [.columnsRemoved removedCols]
    else report
  let report := report ++ [.operationsHeader]
  plan.operations.foldl (fun report op => report ++ [operationLine op]) report

/-! ## Column type detection of the uploader (`csvuploader.jsx`) -/

/-- The test `value.match(/^\d{4}-\d{2}-\d{2}/)` on the characters of a string: four digits,
a hyphen, two digits, a hyphen and two digits at the start. -/
def matchIsoDatePrefix : List Char → Bool
  | y1 :: y2 :: y3 :: y4 :: '-' :: m1 :: m2 :: '-' :: d1 :: d2 :: _ =>
    isDecDigit y1 && isDecDigit y2 && isDecDigit y3 && isDecDigit y4 &&
    isDecDigit m1 && isDecDigit m2 && isDecDigit d1 && isDecDigit d2
  | _ => false

/-- The ways `\d{1,2}` can match at the start of a list of characters: what is left of the
list after one digit, and after two. -/
def afterOneOrTwoDigits : List Char → List (List Char)
  | c1 :: c2 :: rest =>
    (if isDecDigit c1 then [c2 :: rest] else []) ++
    (if isDecDigit c1 && isDecDigit c2 then [rest] else [])
  | [c1] => if isDecDigit c1 then [[]] else []
  | [] => []

/-- Whether `\d{1,2}\/\d{1,2}\/\d{4}` matches at the start of a list of characters. -/
def matchSlashDateAt (cs : List Char) : Bool :=
  (afterOneOrTwoDigits cs).any fun r1 =>
    match r1 with
    | '/' :: r2 =>
      (afterOneOrTwoDigits r2).any fun r3 =>
        match r3 with
        | '/' :: y1 :: y2 :: y3 :: y4 :: _ =>
          isDecDigit y1 && isDecDigit y2 && isDecDigit y3 && isDecDigit y4
        | _ => false
    | _ => false

/-- The test `value.match(/\d{1,2}\/\d{1,2}\/\d{4}/)` on the characters of a string: the
pattern matches somewhere in the string. -/
def matchSlashDate (cs : List Char) : Bool := cs.tails.any matchSlashDateAt

/-- The test `!isNaN(new Date(value).getTime())`. The time value of a string is what
`Date.parse` makes of it, which the language leaves to the engine for strings outside the
ISO format: `dateParses` says for which strings it is a time. A number is a time when it is
finite and at most 8.64e15 in absolute value; a boolean and `null` are turned into the
numbers 1 or 0; `undefined` gives no time. -/
def dateIsValid (dateParses : String → Bool) : Value → Bool
  | .str s => dateParses s
  | .num (.fin q) => decide (|q| ≤ 8640000000000000)
  | .num _ => false
  | .bool _ => true
  | .null => true
  | .undefined => false

/-- Source function `detectDataType` (csvuploader.jsx, lines 13-33); `none` when the call
throws a `TypeError`, which it does when it reaches `value.match` or `value.toLowerCase` with
a value that is not a string and so has no such method. The comparison of
`value.toLowerCase()` with `'true'` and `'false'` is made on the ASCII lower case, which gives
the same answer. -/
def detectDataType (dateParses : String → Bool) (value : Value) : Option String :=
  if value = .null ∨ value = .undefined ∨ value = .str "" then some "null"
  else if !(toNumber value).isNaN && !(parseFloat (toStr value)).isNaN then some "number"
  else
    match value with
    | .str s =>
      if dateIsValid dateParses value && (matchIsoDatePrefix s.data || matchSlashDate s.data)
      then some "date"
      else if s.toLower = "true" ∨ s.toLower = "false" then some "boolean"
      else some "text"
    | _ =>
      -- `value.match` is not a function, or else `value.toLowerCase` is not a function
      if dateIsValid dateParses value then none else none

/-- The names of the types that `detectDataType` returns. -/
def dataTypeNames : List String := ["null", "number", "date", "boolean", "text"]

/-! ## Chart data (`charts.jsx`) -/

/-- The expression `n || 0` on a number: `0` and `NaN` are falsy. -/
def numOrZero (n : JSNum) : JSNum := if toBoolean (.num n) then n else .fin 0

/-- Body of the `forEach` loop over the rows for the charts other than the pie chart
(charts.jsx, lines 294-304): the point pushed for a row, if one is. -/
def chartPoint (xAxis yAxis : String) (item : Row) : Option Row :=
  let xVal := rowGet item xAxis
  let yVal := toNumber (rowGet item yAxis)
  if !isNullish xVal && !yVal.isNaN && yVal.isFinite then
    some (objSet (objSet [] xAxis xVal) yAxis (.num yVal))
  else none

/-- The `useMemo` body that prepares `chartData` (charts.jsx, lines 269-307). The dataset is a
list, so that the test `!csvdata` for a missing dataset does not arise; an axis is unset when
it is the empty string. -/
def chartData (csvdata : Dataset) (xAxis yAxis selectedChart : String) : List Row :=
  if xAxis = "" ∨ yAxis = "" ∨ csvdata.length = 0 then []
  else
    let maxPoints := if selectedChart = "pie" then 10 else 1000
    let workingData := csvdata.take maxPoints
    if selectedChart = "pie" then
      let grouped : Obj JSNum :=
        workingData.foldl (fun grouped item =>
          let key := toStr (logicalOr (rowGet item xAxis) (.str "Unknown"))
          let value := numOrZero (toNumber (rowGet item yAxis))
          objSet grouped key (fadd (numOrZero ((objGet grouped key).getD (.fin 0))) value)) []
      ((grouped.map (fun e => ([("name", .str e.1), ("value", .num e.2)] : Row))).insertionSort
        (fun a b =>
          (toNumber (rowGet b "value")).subNotPos (toNumber (rowGet a "value")) = true)).take 8
    else
      workingData.foldl (fun result item =>
        match chartPoint xAxis yAxis item with
        | some point => result ++ [point]
        | none => result) []

/-- The dataset `[{x:"a",y:"1"},{x:null,y:2},{x:"b",y:"n/a"},{x:"c",y:3}]`. -/
def chartDataset : Dataset :=
  [[("x", .str "a"), ("y", .str "1")], [("x", .null), ("y", .num (.fin 2))],
   [("x", .str "b"), ("y", .str "n/a")], [("x", .str "c"), ("y", .num (.fin 3))]]

/-- A property key that a `{}` object inherits from `Object.prototype`. -/
def inheritedKey (k : String) : Bool :=
  decide (k = "__proto__") || decide (k ∈ objectPrototypeFunctions)

/-- The counting object after the property keys `ks` have been counted in turn. -/
def countKeys (ks : List String) : Obj Count := ks.foldl countStep []

/-- The dataset `[{c:"__proto__"},{c:null}]`. -/
def protoValueDataset : Dataset := [[("c", .str "__proto__")], [("c", .null)]]

/-- The embedding of a plain tally into the counting object: every count a number. -/
def numberCounts (o : Obj Nat) : Obj Count := o.map (fun e => (e.1, Count.number e.2))

/-! # Theorems -/

/-! ## Rounding -/

/-- With enough fuel the halving loop finds the leading bit. -/
theorem natLog2Aux_spec (fuel : Nat) : ∀ n, n ≤ fuel → 1 ≤ n →
    2 ^ natLog2Aux fuel n ≤ n ∧ n < 2 ^ (natLog2Aux fuel n + 1) := by
  induction fuel with
  | zero => intro n h0 h1; omega
  | succ fuel ih =>
    intro n hle h1
    by_cases h2 : n < 2
    · have : n = 1 := by omega
      subst this
      simp [natLog2Aux]
    · have hdiv : n / 2 ≤ fuel := by omega
      have hpos : 1 ≤ n / 2 := by omega
      obtain ⟨ha, hb⟩ := ih (n / 2) hdiv hpos
      simp only [natLog2Aux, h2, if_false]
      constructor
      · rw [pow_succ]
        omega
      · rw [pow_succ]
        omega

theorem natLog2_spec (n : Nat) (h : 1 ≤ n) :
    2 ^ natLog2 n ≤ n ∧ n < 2 ^ (natLog2 n + 1) :=
  natLog2Aux_spec n n (le_refl n) h

/-- Rounding to an integer moves a number by at most one half. -/
theorem roundHalfEven_error (m : ℚ) : |((roundHalfEven m : Int) : ℚ) - m| ≤ 1 / 2 := by
  have hfl : Rat.floor m = ⌊m⌋ := rfl
  have h1 : (⌊m⌋ : ℚ) ≤ m := Int.floor_le m
  have h2 : m < (⌊m⌋ : ℚ) + 1 := Int.lt_floor_add_one m
  simp only [roundHalfEven, hfl]
  rw [abs_le]
  split_ifs with ha hb hc
  · constructor <;> linarith
  · push_cast
    constructor <;> linarith
  · constructor <;> linarith
  · push_cast
    constructor <;> linarith

/-- The binary exponent assigned to a positive rational below `2^E` is at most `E`. -/
theorem ilog2_le (q : ℚ) (hq : 0 < q) (E : Int) (h : q < (2 : ℚ) ^ E) : ilog2 q ≤ E := by
  have hnumpos : 0 < q.num := Rat.num_pos.mpr hq
  have hnat : ((q.num.natAbs : Nat) : Int) = q.num := Int.natAbs_of_nonneg hnumpos.le
  have hn1 : 1 ≤ q.num.natAbs := by
    have : 0 < q.num.natAbs := Int.natAbs_pos.mpr (ne_of_gt hnumpos)
    omega
  have hd1 : 1 ≤ q.den := q.den_pos
  obtain ⟨hna, _⟩ := natLog2_spec q.num.natAbs hn1
  obtain ⟨_, hdb⟩ := natLog2_spec q.den hd1
  have hnumq : ((2 : ℚ) ^ natLog2 q.num.natAbs) ≤ (q.num : ℚ) := by
    have : ((2 ^ natLog2 q.num.natAbs : Nat) : ℚ) ≤ ((q.num.natAbs : Nat) : ℚ) := by
      exact_mod_cast hna
    have hc : ((q.num.natAbs : Nat) : ℚ) = (q.num : ℚ) := by
      simp [Nat.cast_natAbs, abs_of_pos hnumpos]
    rw [hc] at this
    simpa using this
  have hdenq : (q.den : ℚ) < (2 : ℚ) ^ (natLog2 q.den + 1) := by
    have : ((q.den : Nat) : ℚ) < ((2 ^ (natLog2 q.den + 1) : Nat) : ℚ) := by
      exact_mod_cast hdb
    simpa using this
  have hdenpos : (0 : ℚ) < (q.den : ℚ) := by exact_mod_cast q.den_pos
  have hqeq : q = (q.num : ℚ) / (q.den : ℚ) := (Rat.num_div_den q).symm
  have hlow : (2 : ℚ) ^ (((natLog2 q.num.natAbs : Nat) : Int) - ((natLog2 q.den : Nat) : Int) - 1)
      < q := by
    have h2 : (2 : ℚ) ^ (((natLog2 q.num.natAbs : Nat) : Int) - ((natLog2 q.den : Nat) : Int) - 1)
        = (2 : ℚ) ^ natLog2 q.num.natAbs / (2 : ℚ) ^ (natLog2 q.den + 1) := by
      have e : ((natLog2 q.num.natAbs : Nat) : Int) - ((natLog2 q.den : Nat) : Int) - 1
          = ((natLog2 q.num.natAbs : Nat) : Int) - ((natLog2 q.den + 1 : Nat) : Int) := by
        push_cast
        ring
      rw [e, zpow_sub₀ (by norm_num : (2 : ℚ) ≠ 0), zpow_natCast, zpow_natCast]
    rw [h2]
    have hp : (0 : ℚ) < (2 : ℚ) ^ (natLog2 q.den + 1) := by positivity
    have hp2 : (0 : ℚ) < (2 : ℚ) ^ natLog2 q.num.natAbs := by positivity
    calc (2 : ℚ) ^ natLog2 q.num.natAbs / (2 : ℚ) ^ (natLog2 q.den + 1)
        ≤ (q.num : ℚ) / (2 : ℚ) ^ (natLog2 q.den + 1) := by
          apply div_le_div_of_nonneg_right hnumq hp.le
      _ < (q.num : ℚ) / (q.den : ℚ) := by
          apply div_lt_div_of_pos_left _ hdenpos hdenq
          exact_mod_cast hnumpos
      _ = q := hqeq.symm
  have hlt := lt_trans hlow h
  rw [zpow_lt_zpow_iff_right₀ (by norm_num : (1 : ℚ) < 2)] at hlt
  simp only [ilog2]
  split_ifs <;> omega

/-- Rounding a positive rational below `2^E` to binary64 gives a finite number within half a
unit in the last place of `2^E`, as long as `2^E` is in the normal range. -/
theorem fl64_near (q : ℚ) (hq : 0 < q) (E : Int) (hE : q < (2 : ℚ) ^ E) (hlo : -1022 ≤ E)
    (hhi : E ≤ 1000) :
    ∃ v : ℚ, fl64 q = .fin v ∧ |v - q| ≤ (2 : ℚ) ^ (E - 53) := by
  have hp : max (ilog2 q) (-1022) - 52 ≤ E - 52 := by
    have := ilog2_le q hq E hE
    omega
  have hpow : (0 : ℚ) < (2 : ℚ) ^ (max (ilog2 q) (-1022) - 52) := by positivity
  have hpowle : (2 : ℚ) ^ (max (ilog2 q) (-1022) - 52) ≤ (2 : ℚ) ^ (E - 52) :=
    zpow_le_zpow_right₀ (by norm_num) hp
  have hround := roundHalfEven_error (q / (2 : ℚ) ^ (max (ilog2 q) (-1022) - 52))
  have herr : |((roundHalfEven (q / (2 : ℚ) ^ (max (ilog2 q) (-1022) - 52)) : Int) : ℚ)
      * (2 : ℚ) ^ (max (ilog2 q) (-1022) - 52) - q| ≤ (2 : ℚ) ^ (E - 53) := by
    have hsplit : ((roundHalfEven (q / (2 : ℚ) ^ (max (ilog2 q) (-1022) - 52)) : Int) : ℚ)
        * (2 : ℚ) ^ (max (ilog2 q) (-1022) - 52) - q
        = (((roundHalfEven (q / (2 : ℚ) ^ (max (ilog2 q) (-1022) - 52)) : Int) : ℚ)
            - q / (2 : ℚ) ^ (max (ilog2 q) (-1022) - 52))
          * (2 : ℚ) ^ (max (ilog2 q) (-1022) - 52) := by
      field_simp
    rw [hsplit, abs_mul, abs_of_pos hpow]
    have h53 : (2 : ℚ) ^ (E - 53) = 1 / 2 * (2 : ℚ) ^ (E - 52) := by
      have e : E - 52 = (E - 53) + 1 := by ring
      rw [e, zpow_add_one₀ (by norm_num : (2 : ℚ) ≠ 0)]
      ring
    rw [h53]
    exact mul_le_mul hround hpowle hpow.le (by norm_num)
  have hsmall : (2 : ℚ) ^ (E - 53) ≤ (2 : ℚ) ^ E :=
    zpow_le_zpow_right₀ (by norm_num) (by omega)
  have hbig : (2 : ℚ) ^ (E + 1) ≤ (2 : ℚ) ^ (1024 : Int) :=
    zpow_le_zpow_right₀ (by norm_num) (by omega)
  have htwo : (2 : ℚ) ^ (E + 1) = 2 * (2 : ℚ) ^ E := by
    rw [zpow_add_one₀ (by norm_num : (2 : ℚ) ≠ 0)]
    ring
  have hnov : ¬ (2 : ℚ) ^ (1024 : Int) ≤
      ((roundHalfEven (q / (2 : ℚ) ^ (max (ilog2 q) (-1022) - 52)) : Int) : ℚ)
        * (2 : ℚ) ^ (max (ilog2 q) (-1022) - 52) := by
    have := (abs_le.mp herr).2
    intro hc
    linarith
  refine ⟨_, ?_, herr⟩
  simp only [fl64, ne_of_gt hq, if_false, abs_of_pos hq, hnov, not_lt.mpr hq.le]

/-- The binary64 product `n * 0.7` decides like the exact product away from equality: a count
above seven tenths of `n` is above the product, a count below seven tenths is not. -/
theorem gt_seven_tenths (n k : Nat) (hn : n < 2 ^ 32) :
    (7 * n < 10 * k →
      (JSNum.ofNat k).gt (fmul (JSNum.ofNat n) (.fin lit07)) = true) ∧
    (10 * k < 7 * n →
      (JSNum.ofNat k).gt (fmul (JSNum.ofNat n) (.fin lit07)) = false) := by
  rcases Nat.eq_zero_or_pos n with h0 | hpos
  · subst h0
    have hz : fmul (JSNum.ofNat 0) (.fin lit07) = .fin 0 := by
      simp [fmul, JSNum.ofNat, fl64]
    rw [hz]
    constructor
    · intro h
      have hk : (0 : ℚ) < (k : ℚ) := by
        have : 0 < k := by omega
        exact_mod_cast this
      simp [JSNum.gt, JSNum.ofNat, hk]
    · intro h
      omega
  · have hnq : (1 : ℚ) ≤ (n : ℚ) := by exact_mod_cast hpos
    have hnq2 : (n : ℚ) < 4294967296 := by exact_mod_cast hn
    have hlit : lit07 = 7 / 10 - 1 / 22517998136852480 := by
      norm_num [lit07]
    have hq : 0 < (n : ℚ) * lit07 := by
      rw [hlit]
      nlinarith
    have hq2 : (n : ℚ) * lit07 < (2 : ℚ) ^ (32 : Int) := by
      rw [hlit]
      norm_num
      nlinarith
    obtain ⟨v, hv, herr⟩ := fl64_near ((n : ℚ) * lit07) hq 32 hq2 (by norm_num) (by norm_num)
    have hmul : fmul (JSNum.ofNat n) (.fin lit07) = .fin v := by
      simp only [fmul, JSNum.ofNat]
      exact hv
    have herr2 : |v - (n : ℚ) * lit07| ≤ 1 / 2097152 := by
      have : (2 : ℚ) ^ ((32 : Int) - 53) = 1 / 2097152 := by norm_num
      rw [this] at herr
      exact herr
    obtain ⟨hlo, hhi⟩ := abs_le.mp herr2
    rw [hmul]
    constructor
    · intro h
      have hk : (7 : ℚ) * n + 1 ≤ 10 * k := by exact_mod_cast h
      have : v < (k : ℚ) := by
        rw [hlit] at hhi
        nlinarith
      simp [JSNum.gt, JSNum.ofNat, this]
    · intro h
      have hk : (10 : ℚ) * k + 1 ≤ 7 * n := by exact_mod_cast h
      have : ¬ v < (k : ℚ) := by
        rw [hlit] at hlo
        intro hc
        nlinarith
      simp [JSNum.gt, JSNum.ofNat, this]

/-- At exactly seven tenths the rounding of the product decides: `7 > 10 * 0.7` is false,
`63 > 90 * 0.7` is true (the product is `62.99999999999999`). -/
theorem gt_seven_tenths_boundary :
    (JSNum.ofNat 7).gt (fmul (JSNum.ofNat 10) (.fin lit07)) = false ∧
    (JSNum.ofNat 63).gt (fmul (JSNum.ofNat 90) (.fin lit07)) = true ∧
    numToString (fmul (JSNum.ofNat 90) (.fin lit07)) = "62.99999999999999" := by
  decide!

/-! ## Objects: reading after writing -/

theorem objGet_objReplace_self {α : Type} (o : Obj α) (k : String) (v : α)
    (h : (objGet o k).isSome = true) : objGet (objReplace o k v) k = some v := by
  induction o with
  | nil => simp [objGet] at h
  | cons e o ih =>
    obtain ⟨k', v'⟩ := e
    by_cases hk : k' = k
    · simp [objReplace, objGet, hk]
    · simp only [objGet, hk, if_false] at h
      simp [objReplace, objGet, hk, ih h]

theorem objGet_objReplace_ne {α : Type} (o : Obj α) (k k' : String) (v : α) (h : k' ≠ k) :
    objGet (objReplace o k v) k' = objGet o k' := by
  induction o with
  | nil => simp [objReplace]
  | cons e o ih =>
    obtain ⟨k1, v1⟩ := e
    by_cases hk : k1 = k
    · have hne : ¬ k = k' := fun hh => h hh.symm
      simp [objReplace, objGet, hk, hne]
    · by_cases hk2 : k1 = k'
      · subst hk2
        simp [objReplace, objGet, hk]
      · simp [objReplace, objGet, hk, hk2, ih]

theorem objGet_objInsertNew_self {α : Type} (o : Obj α) (k : String) (v : α)
    (h : objGet o k = none) : objGet (objInsertNew o k v) k = some v := by
  induction o with
  | nil => simp [objInsertNew, objGet]
  | cons e o ih =>
    obtain ⟨k', v'⟩ := e
    by_cases hk : k' = k
    · simp [objGet, hk] at h
    · simp only [objGet, hk, if_false] at h
      by_cases hb : keyBefore k k' = true
      · simp [objInsertNew, objGet, hb]
      · simp [objInsertNew, objGet, hb, hk, ih h]

theorem objGet_objInsertNew_ne {α : Type} (o : Obj α) (k k' : String) (v : α) (h : k' ≠ k) :
    objGet (objInsertNew o k v) k' = objGet o k' := by
  have hne : ¬ k = k' := fun hh => h hh.symm
  induction o with
  | nil => simp [objInsertNew, objGet, hne]
  | cons e o ih =>
    obtain ⟨k1, v1⟩ := e
    by_cases hb : keyBefore k k1 = true
    · simp [objInsertNew, objGet, hb, hne]
    · by_cases hk2 : k1 = k'
      · subst hk2
        simp [objInsertNew, objGet, hb]
      · simp [objInsertNew, objGet, hb, hk2, ih]

/-- Reading the key just written gives the written value. -/
theorem objGet_objSet_self {α : Type} (o : Obj α) (k : String) (v : α) :
    objGet (objSet o k v) k = some v := by
  unfold objSet
  by_cases h : (objGet o k).isSome = true
  · simp only [h, if_true]
    exact objGet_objReplace_self o k v h
  · simp only [h, if_false]
    apply objGet_objInsertNew_self
    cases hg : objGet o k with
    | none => rfl
    | some x => simp [hg] at h

/-- Writing a key leaves every other key as it was. -/
theorem objGet_objSet_ne {α : Type} (o : Obj α) (k k' : String) (v : α) (h : k' ≠ k) :
    objGet (objSet o k v) k' = objGet o k' := by
  unfold objSet
  split
  · exact objGet_objReplace_ne o k k' v h
  · exact objGet_objInsertNew_ne o k k' v h

/-- Reading a key of an object built by writing `f col` for each column in turn. -/
theorem objGet_foldl_objSet {α : Type} (f : String → α) (cols : List String) (acc : Obj α)
    (c : String) :
    objGet (cols.foldl (fun acc col => objSet acc col (f col)) acc) c
      = if c ∈ cols then some (f c) else objGet acc c := by
  induction cols generalizing acc with
  | nil => simp
  | cons col cols ih =>
    rw [List.foldl_cons, ih]
    by_cases hc : c ∈ cols
    · simp [hc]
    · by_cases hcc : c = col
      · subst hcc
        simp [hc, objGet_objSet_self]
      · simp [hc, hcc, objGet_objSet_ne _ _ _ _ hcc]

/-- The profile entry of a column of the first row is the entry the loop body computes. -/
theorem performBasicAnalysis_columnAnalysis (first : Row) (rest : Dataset) (col : String)
    (hcol : col ∈ objKeys first) :
    ∃ p, performBasicAnalysis (first :: rest) = some p ∧
      objGet p.columnAnalysis col = some (analyzeColumn (first :: rest) col) := by
  refine ⟨_, rfl, ?_⟩
  simp only []
  rw [objGet_foldl_objSet (fun c => analyzeColumn (first :: rest) c)]
  simp [hcol]

/-! ## Profiler: type classification -/

/-- The filter `!isNaN(val) && isFinite(val)` keeps exactly the finite numbers. -/
theorem notNaN_and_isFinite (x : JSNum) : (!x.isNaN && x.isFinite) = x.isFinite := by
  cases x <;> rfl

/-- The `numericValues` of the source are as many as the non-missing values that coerce to a
finite number. -/
theorem numericValues_length (values : List Value) :
    ((values.map toNumber).filter (fun val => !val.isNaN && val.isFinite)).length
      = (values.filter (fun v => (toNumber v).isFinite)).length := by
  rw [List.filter_map, List.length_map]
  congr 1
  apply List.filter_congr
  intro v _
  simp [Function.comp, notNaN_and_isFinite]

/-- The type the loop body assigns is decided by the comparison
`numericValues.length > values.length * 0.7` alone. -/
theorem analyzeColumn_type (data : Dataset) (col : String) :
    (analyzeColumn data col).type =
      if (JSNum.ofNat ((presentValues data col).filter
            (fun v => (toNumber v).isFinite)).length).gt
          (fmul (JSNum.ofNat (presentValues data col).length) (.fin lit07)) = true
      then .numeric else .categorical := by
  simp only [analyzeColumn, presentValues, numericValues_length]
  split <;> simp

/-- C1, as the code has it. For a non-empty dataset and a column `col` of its first row, the
entry that `performBasicAnalysis` stores for `col` has type `numeric` if and only if the
number of non-missing values of the column (not `null`, `undefined` or the empty string) that
coerce to a finite number is greater than the product `values.length * 0.7` as the program
computes it, in binary64 arithmetic, and type `categorical` otherwise.  For an array (fewer
than `2^32` rows) this is the exact comparison with seven tenths whenever the count is not
exactly seven tenths of the non-missing values: more than seven tenths is `numeric`, fewer is
`categorical`.  At exactly seven tenths the rounding of the product decides. -/
theorem C1_numeric_iff_above_seventy_percent (first : Row) (rest : Dataset) (col : String)
    (hcol : col ∈ objKeys first) :
    ∃ p info, performBasicAnalysis (first :: rest) = some p ∧
      objGet p.columnAnalysis col = some info ∧
      (info.type = .numeric ↔
        (JSNum.ofNat ((presentValues (first :: rest) col).filter
            (fun v => (toNumber v).isFinite)).length).gt
          (fmul (JSNum.ofNat (presentValues (first :: rest) col).length) (.fin lit07)) = true) ∧
      (info.type = .categorical ↔
        ¬ (JSNum.ofNat ((presentValues (first :: rest) col).filter
            (fun v => (toNumber v).isFinite)).length).gt
          (fmul (JSNum.ofNat (presentValues (first :: rest) col).length) (.fin lit07)) = true) ∧
      ((first :: rest).length < 2 ^ 32 →
        (7 * (presentValues (first :: rest) col).length <
            10 * ((presentValues (first :: rest) col).filter
              (fun v => (toNumber v).isFinite)).length → info.type = .numeric) ∧
        (10 * ((presentValues (first :: rest) col).filter
              (fun v => (toNumber v).isFinite)).length <
            7 * (presentValues (first :: rest) col).length → info.type = .categorical)) := by
  obtain ⟨p, hp, hget⟩ := performBasicAnalysis_columnAnalysis first rest col hcol
  refine ⟨p, _, hp, hget, ?_, ?_, ?_⟩
  · rw [analyzeColumn_type]
    split <;> simp_all
  · rw [analyzeColumn_type]
    split <;> simp_all
  · intro hlen
    have hn : (presentValues (first :: rest) col).length < 2 ^ 32 := by
      have h1 : (presentValues (first :: rest) col).length
          ≤ ((first :: rest).map (fun row => rowGet row col)).length :=
        List.length_filter_le _ _
      rw [List.length_map] at h1
      omega
    obtain ⟨habove, hbelow⟩ := gt_seven_tenths (presentValues (first :: rest) col).length
      ((presentValues (first :: rest) col).filter (fun v => (toNumber v).isFinite)).length hn
    constructor
    · intro h
      rw [analyzeColumn_type, habove h]
      rfl
    · intro h
      rw [analyzeColumn_type, hbelow h]
      rfl

/-- C1 at column `x` of the dataset `[{x:"1",y:"a"}, {x:"",y:"a"}, {x:"3",y:null}]`: both
non-missing values coerce to a finite number, and `2 > 2 * 0.7`. -/
theorem C1_numeric_iff_above_seventy_percent_witness :
    "x" ∈ objKeys ([("x", .str "1"), ("y", .str "a")] : Row) ∧
    ∃ p info, performBasicAnalysis pipelineDataset = some p ∧
      objGet p.columnAnalysis "x" = some info ∧ info.type = .numeric := by
  refine ⟨by decide, ?_⟩
  obtain ⟨p, info, hp, hget, hnum, _, _⟩ :=
    C1_numeric_iff_above_seventy_percent [("x", .str "1"), ("y", .str "a")]
      [[("x", .str ""), ("y", .str "a")], [("x", .str "3"), ("y", .null)]] "x" (by decide)
  exact ⟨p, info, hp, hget, hnum.mpr (by decide!)⟩

/-- At exactly seven tenths the rounded product decides the type: with 63 of 90 values numeric
the column is `numeric`, because `90 * 0.7` is `62.99999999999999`. -/
theorem analyzeColumn_seventyPercentDataset :
    (analyzeColumn seventyPercentDataset "v").type = .numeric ∧
    (presentValues seventyPercentDataset "v").length = 90 ∧
    ((presentValues seventyPercentDataset "v").filter
      (fun v => (toNumber v).isFinite)).length = 63 := by
  decide!

/-- At exactly seven tenths the type does not follow the comparison with 0.7 times the number
of non-missing values. In the column `v` of `seventyPercentDataset` 63 of the 90 non-missing
values are numeric, which is 0.7 times 90 and not more, and the column is `numeric`. In the
column `v` of `sevenOfTenDataset` 7 of the 10 values are numeric, which is more than 10 times
the binary64 number that the literal `0.7` denotes, and the column is `categorical`. -/
theorem C1_exactly_seventy_percent_counterexample :
    (performBasicAnalysis seventyPercentDataset).bind
        (fun p => (objGet p.columnAnalysis "v").map (fun info => info.type))
      = some ColType.numeric ∧
    (presentValues seventyPercentDataset "v").length = 90 ∧
    ((presentValues seventyPercentDataset "v").filter
      (fun v => (toNumber v).isFinite)).length = 63 ∧
    (63 : ℚ) = 7 / 10 * 90 ∧
    (performBasicAnalysis sevenOfTenDataset).bind
        (fun p => (objGet p.columnAnalysis "v").map (fun info => info.type))
      = some ColType.categorical ∧
    (presentValues sevenOfTenDataset "v").length = 10 ∧
    ((presentValues sevenOfTenDataset "v").filter
      (fun v => (toNumber v).isFinite)).length = 7 ∧
    lit07 * 10 < (7 : ℚ) := by
  decide!

/-! ## Median -/

/-- Sorting finite numbers with the comparator `a - b` is sorting their values by `≤`. -/
theorem insertionSort_map_fin (qs : List ℚ) :
    (qs.map JSNum.fin).insertionSort (fun a b => a.subNotPos b = true)
      = (qs.insertionSort (· ≤ ·)).map JSNum.fin := by
  symm
  apply List.map_insertionSort
  intro a _ b _
  simp [JSNum.subNotPos]

theorem numAt_map_fin (qs : List ℚ) (i : Nat) (h : i < qs.length) :
    numAt (qs.map JSNum.fin) i = .fin (qs.getD i 0) := by
  simp [numAt, List.getD, List.get?_eq_get, h, List.getElem?_eq_getElem]

/-- The median of finite numbers in terms of their sorted values. -/
theorem calculateMedian_map_fin (qs : List ℚ) (hne : qs ≠ []) :
    calculateMedian (qs.map JSNum.fin) =
      if qs.length % 2 ≠ 0 then .fin ((qs.insertionSort (· ≤ ·)).getD (qs.length / 2) 0)
      else fdiv (fadd (.fin ((qs.insertionSort (· ≤ ·)).getD (qs.length / 2 - 1) 0))
        (.fin ((qs.insertionSort (· ≤ ·)).getD (qs.length / 2) 0))) (.fin 2) := by
  have hpos : 0 < qs.length := List.length_pos.mpr hne
  simp only [calculateMedian, insertionSort_map_fin, List.length_map, List.length_insertionSort]
  rw [numAt_map_fin _ _ (by rw [List.length_insertionSort]; omega),
    numAt_map_fin _ _ (by rw [List.length_insertionSort]; omega)]

/-- C2. For a non-empty list of (finite) numbers, `calculateMedian` returns the middle
element of the ascending-sorted list when the length is odd, and the mean `(a + b) / 2` of the
two central elements `a`, `b`, in binary64 arithmetic, when the length is even (exactly
`(a + b) / 2` whenever the sum and its half are binary64 numbers); the result is the same for
every reordering of the input; it is `2` for `[1,2,3]` and `2.5` for `[1,2,3,4]`.  Here
`sorted` is any ascending arrangement of the input. -/
theorem C2_calculateMedian_spec (qs sorted : List ℚ) (hne : qs ≠ [])
    (hperm : sorted.Perm qs) (hsorted : sorted.Sorted (· ≤ ·)) :
    (qs.length % 2 = 1 →
      calculateMedian (qs.map JSNum.fin) = .fin (sorted.getD (qs.length / 2) 0)) ∧
    (qs.length % 2 = 0 →
      calculateMedian (qs.map JSNum.fin) =
        fdiv (fadd (.fin (sorted.getD (qs.length / 2 - 1) 0))
          (.fin (sorted.getD (qs.length / 2) 0))) (.fin 2)) ∧
    (∀ ys : List ℚ, ys.Perm qs →
      calculateMedian (ys.map JSNum.fin) = calculateMedian (qs.map JSNum.fin)) ∧
    calculateMedian [.fin 1, .fin 2, .fin 3] = .fin 2 ∧
    calculateMedian [.fin 1, .fin 2, .fin 3, .fin 4] = .fin (5 / 2) ∧
    (∀ a b : ℚ, fl64 (a + b) = .fin (a + b) → fl64 ((a + b) / 2) = .fin ((a + b) / 2) →
      fdiv (fadd (.fin a) (.fin b)) (.fin 2) = .fin ((a + b) / 2)) := by
  have hs : qs.insertionSort (· ≤ ·) = sorted :=
    List.eq_of_perm_of_sorted ((List.perm_insertionSort _ qs).trans hperm.symm)
      (List.sorted_insertionSort _ qs) hsorted
  refine ⟨?_, ?_, ?_, by decide!, by decide!, ?_⟩
  rotate_right
  · intro a b h1 h2
    simp [fadd, fdiv, h1, h2]
  · intro hodd
    rw [calculateMedian_map_fin qs hne, hs]
    simp [hodd]
  · intro heven
    rw [calculateMedian_map_fin qs hne, hs]
    simp [heven]
  · intro ys hys
    have hne2 : ys ≠ [] := by
      intro h
      subst h
      exact hne (List.perm_nil.mp hys.symm)
    have hs2 : ys.insertionSort (· ≤ ·) = qs.insertionSort (· ≤ ·) :=
      List.eq_of_perm_of_sorted
        (((List.perm_insertionSort _ ys).trans hys).trans (List.perm_insertionSort _ qs).symm)
        (List.sorted_insertionSort _ ys) (List.sorted_insertionSort _ qs)
    rw [calculateMedian_map_fin qs hne, calculateMedian_map_fin ys hne2, hs2, hys.length_eq]

/-- C2 at the input `[3, 1, 2]`, whose ascending arrangement is `[1, 2, 3]`. -/
theorem C2_calculateMedian_spec_witness :
    calculateMedian ([3, 1, 2].map JSNum.fin) = .fin 2 :=
  (C2_calculateMedian_spec [3, 1, 2] [1, 2, 3] (by decide) (by decide!)
    (by norm_num [List.Sorted])).1 (by decide)

/-! ## Duplicate removal -/

/-- After scanning `pre`, the keys seen are exactly the identities of the rows of `pre`. -/
theorem dedup_seen_iff (pre : List Row) :
    ∀ k, k ∈ (pre.foldl dedupStep { uniqueData := [], seen := [] }).seen ↔
      k ∈ pre.map jsonKey := by
  induction pre using List.reverseRecOn with
  | nil => simp
  | append_singleton pre r ih =>
    intro k
    rw [List.foldl_append, List.foldl_cons, List.foldl_nil]
    by_cases h : jsonKey r ∈ (pre.foldl dedupStep { uniqueData := [], seen := [] }).seen
    · have hk : jsonKey r ∈ pre.map jsonKey := (ih (jsonKey r)).mp h
      simp only [dedupStep, h, if_true, ih, List.map_append, List.mem_append, List.map_cons,
        List.map_nil, List.mem_singleton]
      constructor
      · intro hh; exact Or.inl hh
      · rintro (hh | hh)
        · exact hh
        · rw [hh]; exact hk
    · simp only [dedupStep, h, if_false, List.mem_append, ih, List.map_append, List.map_cons,
        List.map_nil, List.mem_singleton]

/-- The scan keeps a row exactly when no earlier row has its identity, behind the rows kept
before it. -/
theorem removeDuplicates_append_singleton (pre : List Row) (r : Row) :
    removeDuplicates (pre ++ [r]) =
      removeDuplicates pre ++ (if jsonKey r ∈ pre.map jsonKey then [] else [r]) := by
  simp only [removeDuplicates]
  rw [List.foldl_append, List.foldl_cons, List.foldl_nil]
  by_cases h : jsonKey r ∈ pre.map jsonKey
  · have hs := (dedup_seen_iff pre (jsonKey r)).mpr h
    simp [dedupStep, hs, h]
  · have hs : ¬ jsonKey r ∈ (pre.foldl dedupStep { uniqueData := [], seen := [] }).seen :=
      fun hh => h ((dedup_seen_iff pre (jsonKey r)).mp hh)
    simp [dedupStep, hs, h]

/-- The rows kept are rows of the input, in their original relative order. -/
theorem removeDuplicates_sublist (data : List Row) : (removeDuplicates data).Sublist data := by
  induction data using List.reverseRecOn with
  | nil => simp [removeDuplicates]
  | append_singleton pre r ih =>
    rw [removeDuplicates_append_singleton]
    apply List.Sublist.append ih
    split
    · exact List.nil_sublist _
    · exact List.Sublist.refl _

/-- Every identity of the input is the identity of a kept row, and conversely. -/
theorem removeDuplicates_keys (data : List Row) :
    ∀ k, k ∈ (removeDuplicates data).map jsonKey ↔ k ∈ data.map jsonKey := by
  induction data using List.reverseRecOn with
  | nil => simp [removeDuplicates]
  | append_singleton pre r ih =>
    intro k
    rw [removeDuplicates_append_singleton]
    by_cases h : jsonKey r ∈ pre.map jsonKey
    · simp only [h, if_true, List.append_nil, ih, List.map_append, List.mem_append,
        List.map_cons, List.map_nil, List.mem_singleton]
      constructor
      · intro hh; exact Or.inl hh
      · rintro (hh | hh)
        · exact hh
        · rw [hh]; exact h
    · simp only [h, if_false, List.map_append, List.mem_append, ih]

/-- No two kept rows have the same identity. -/
theorem removeDuplicates_nodup (data : List Row) :
    ((removeDuplicates data).map jsonKey).Nodup := by
  induction data using List.reverseRecOn with
  | nil => simp [removeDuplicates]
  | append_singleton pre r ih =>
    rw [removeDuplicates_append_singleton]
    by_cases h : jsonKey r ∈ pre.map jsonKey
    · simpa [h] using ih
    · simp only [h, if_false, List.map_append, List.map_cons, List.map_nil]
      rw [List.nodup_append]
      refine ⟨ih, List.nodup_singleton _, ?_⟩
      intro a ha hb
      rw [List.mem_singleton] at hb
      subst hb
      exact h ((removeDuplicates_keys pre _).mp ha)

/-- The scan on the rows `{a:1,b:2}, {a:1,b:2}, {a:3,b:4}`. -/
theorem removeDuplicates_example :
    removeDuplicates duplicateRowsDataset =
      [[("a", .num (.fin 1)), ("b", .num (.fin 2))],
       [("a", .num (.fin 3)), ("b", .num (.fin 4))]] := by
  decide!

/-- C3. The `remove_duplicates` operation of `performDataCleaning` replaces the dataset by
`removeDuplicates data`, the rows kept by the scan of the source, and stores
`originalLength - resultLength` under `remove_duplicates`.  The scan keeps exactly the first
occurrence of each distinct row identity (`jsonKey`, the serialisation of the row): the row
behind `pre` is kept if and only if no row of `pre` has its identity, and it is put behind the
rows kept from `pre`; hence the kept rows are rows of the input in their original relative
order, no two of them share an identity, and every identity of the input is kept.  On
`[{a:1,b:2},{a:1,b:2},{a:3,b:4}]` the result is `[{a:1,b:2},{a:3,b:4}]`, with 1 removed. -/
theorem C3_remove_duplicates_keeps_first (analysis : Profile) (results : Obj Nat) :
    (∀ data : Dataset, ∃ st,
      applyOperation analysis { cleanedData := data, operationResults := results }
        .remove_duplicates = some st ∧
      st.cleanedData = removeDuplicates data ∧
      performDataCleaning data analysis { operations := [.remove_duplicates] }
        = some (removeDuplicates data) ∧
      objGet st.operationResults "remove_duplicates"
        = some (data.length - (removeDuplicates data).length)) ∧
    removeDuplicates [] = [] ∧
    (∀ (pre : Dataset) (row : Row),
      removeDuplicates (pre ++ [row]) =
        removeDuplicates pre ++ (if jsonKey row ∈ pre.map jsonKey then [] else [row])) ∧
    (∀ data : Dataset,
      (removeDuplicates data).Sublist data ∧
      ((removeDuplicates data).map jsonKey).Nodup ∧
      (∀ row ∈ data, jsonKey row ∈ (removeDuplicates data).map jsonKey)) ∧
    (∃ st,
      applyOperation analysis
        { cleanedData := duplicateRowsDataset, operationResults := results }
        .remove_duplicates = some st ∧
      st.cleanedData =
        [[("a", .num (.fin 1)), ("b", .num (.fin 2))],
         [("a", .num (.fin 3)), ("b", .num (.fin 4))]] ∧
      objGet st.operationResults "remove_duplicates" = some 1) := by
  refine ⟨?_, rfl, removeDuplicates_append_singleton, ?_, ?_⟩
  · intro data
    refine ⟨_, rfl, rfl, rfl, ?_⟩
    exact objGet_objSet_self _ _ _
  · intro data
    refine ⟨removeDuplicates_sublist data, removeDuplicates_nodup data, ?_⟩
    intro row hrow
    exact (removeDuplicates_keys data _).mpr (List.mem_map_of_mem _ hrow)
  · refine ⟨_, rfl, removeDuplicates_example, ?_⟩
    show objGet (objSet results "remove_duplicates"
      (duplicateRowsDataset.length - (removeDuplicates duplicateRowsDataset).length)) _ = _
    rw [objGet_objSet_self, removeDuplicates_example]
    rfl

/-! ## Cleaning planner -/

/-- An object with distinct keys holds one value per key. -/
theorem entry_unique {α : Type} (o : Obj α) (hnd : (objKeys o).Nodup) (k : String) (a b : α)
    (ha : (k, a) ∈ o) (hb : (k, b) ∈ o) : a = b := by
  induction o with
  | nil => simp at ha
  | cons e o ih =>
    simp only [objKeys, List.map_cons, List.nodup_cons, List.mem_map, not_exists, not_and] at hnd
    rcases List.mem_cons.mp ha with ha | ha <;> rcases List.mem_cons.mp hb with hb | hb
    · rw [← ha] at hb
      exact (Prod.mk.inj hb).2.symm
    · exact absurd (by rw [← ha]) (hnd.1 (k, b) hb)
    · exact absurd (by rw [← hb]) (hnd.1 (k, a) ha)
    · exact ih hnd.2 ha hb

/-- In an object with distinct keys, a test that only the entry of `k` can pass and that it
does pass selects that entry alone. -/
theorem filter_eq_singleton {α : Type} (o : Obj α) (hnd : (objKeys o).Nodup) (k : String)
    (a : α) (hmem : (k, a) ∈ o) (p : String × α → Bool) (hp : p (k, a) = true)
    (hkey : ∀ e ∈ o, p e = true → e.1 = k) : o.filter p = [(k, a)] := by
  induction o with
  | nil => simp at hmem
  | cons e o ih =>
    have hnd2 := hnd
    simp only [objKeys, List.map_cons, List.nodup_cons, List.mem_map, not_exists, not_and] at hnd
    rcases List.mem_cons.mp hmem with he | he
    · subst he
      have hrest : o.filter p = [] := by
        rw [List.filter_eq_nil_iff]
        intro e he hpe
        have := hkey e (List.mem_cons_of_mem _ he) hpe
        exact hnd.1 e he this
      simp [List.filter_cons, hp, hrest]
    · have hne : p e = false := by
        by_contra hc
        have hpe : p e = true := by simpa using hc
        have hk := hkey e (List.mem_cons_self _ _) hpe
        exact hnd.1 (k, a) he hk.symm
      rw [List.filter_cons, hne]
      exact ih hnd.2 he (fun e' he' => hkey e' (List.mem_cons_of_mem _ he'))

/-- The operation planned for a column works on that column and is a removal or a fill. -/
theorem planColumn_column (col : String) (info : ColumnProfile) :
    opColumn (planColumn col info) = some col ∧ isNullHandling (planColumn col info) = true := by
  simp only [planColumn]
  split
  · exact ⟨rfl, rfl⟩
  · split <;> exact ⟨rfl, rfl⟩

/-- Membership in the planned operations. -/
theorem mem_generateCleaningPlan (analysis : Profile) (op : Operation) :
    op ∈ (generateCleaningPlan analysis).operations ↔
      (∃ e ∈ analysis.columnAnalysis, 0 < e.2.nullCount ∧ op = planColumn e.1 e.2) ∨
      op = .remove_duplicates ∨
      (∃ col ∈ analysis.numericColumns, op = .clean_numeric col) := by
  simp only [generateCleaningPlan, List.mem_append, List.mem_map, List.mem_filter,
    decide_eq_true_eq, List.mem_singleton, or_assoc]
  constructor
  · rintro (⟨e, ⟨he, hn⟩, rfl⟩ | h | ⟨c, hc, rfl⟩)
    · exact Or.inl ⟨e, he, hn, rfl⟩
    · exact Or.inr (Or.inl h)
    · exact Or.inr (Or.inr ⟨c, hc, rfl⟩)
  · rintro (⟨e, he, hn, rfl⟩ | h | ⟨c, hc, rfl⟩)
    · exact Or.inl ⟨e, ⟨he, hn⟩, rfl⟩
    · exact Or.inr (Or.inl h)
    · exact Or.inr (Or.inr ⟨c, hc, rfl⟩)

/-- C4. For a profile and the entry `info` of a column `col` with `nullCount > 0` whose
`nullPercentage` reads as a number greater than 80, `generateCleaningPlan` emits
`remove_column` for `col` and emits no `fill_numeric` and no `fill_categorical` for it,
whatever the type of the column. -/
theorem C4_remove_column_above_eighty (analysis : Profile) (col : String)
    (info : ColumnProfile)
    (hkeys : (objKeys analysis.columnAnalysis).Nodup)
    (hinfo : (col, info) ∈ analysis.columnAnalysis)
    (hnull : 0 < info.nullCount)
    (h80 : (parseFloat info.nullPercentage).gt (.fin 80) = true) :
    Operation.remove_column col ∈ (generateCleaningPlan analysis).operations ∧
    (∀ strategy value,
      Operation.fill_numeric col strategy value ∉ (generateCleaningPlan analysis).operations) ∧
    (∀ value,
      Operation.fill_categorical col value ∉ (generateCleaningPlan analysis).operations) := by
  have hplan : planColumn col info = .remove_column col := by simp [planColumn, h80]
  have hother : ∀ e ∈ analysis.columnAnalysis, opColumn (planColumn e.1 e.2) = some col →
      planColumn e.1 e.2 = .remove_column col := by
    intro e he hcol
    have hk : e.1 = col := by
      have := (planColumn_column e.1 e.2).1
      rw [this] at hcol
      exact Option.some.inj hcol
    have : e.2 = info := entry_unique _ hkeys col e.2 info (by rw [← hk]; exact he) hinfo
    rw [hk, this, hplan]
  refine ⟨?_, ?_, ?_⟩
  · rw [mem_generateCleaningPlan]
    exact Or.inl ⟨(col, info), hinfo, hnull, hplan.symm⟩
  · intro strategy value hmem
    rw [mem_generateCleaningPlan] at hmem
    rcases hmem with ⟨e, he, _, heq⟩ | h | ⟨c, _, h⟩
    · have := hother e he (by rw [← heq]; rfl)
      rw [← heq] at this
      exact Operation.noConfusion this
    · exact Operation.noConfusion h
    · exact Operation.noConfusion h
  · intro value hmem
    rw [mem_generateCleaningPlan] at hmem
    rcases hmem with ⟨e, he, _, heq⟩ | h | ⟨c, _, h⟩
    · have := hother e he (by rw [← heq]; rfl)
      rw [← heq] at this
      exact Operation.noConfusion this
    · exact Operation.noConfusion h
    · exact Operation.noConfusion h

/-- C4 at a categorical column with `nullPercentage` 85. -/
theorem C4_remove_column_above_eighty_witness :
    Operation.remove_column "c" ∈ (generateCleaningPlan mostlyMissingProfile).operations ∧
    (∀ strategy value, Operation.fill_numeric "c" strategy value ∉
      (generateCleaningPlan mostlyMissingProfile).operations) ∧
    (∀ value, Operation.fill_categorical "c" value ∉
      (generateCleaningPlan mostlyMissingProfile).operations) :=
  C4_remove_column_above_eighty mostlyMissingProfile "c"
    { type := .categorical, totalCount := 20, nonNullCount := 3, nullCount := 17
      nullPercentage := "85.0", uniqueCount := 1, uniquePercentage := "33.3"
      min := .undefined, max := .undefined, mean := .undefined, median := .undefined
      topValues := some [("a", 3)] }
    (by decide) (by decide) (by decide) (by decide!)

/-- The operations of a plan that pass a test only operations planned for the entry of `col`
can pass, when that entry is planned. -/
theorem filter_generateCleaningPlan (analysis : Profile) (col : String) (info : ColumnProfile)
    (hkeys : (objKeys analysis.columnAnalysis).Nodup)
    (hinfo : (col, info) ∈ analysis.columnAnalysis)
    (hnull : 0 < info.nullCount)
    (p : Operation → Bool)
    (hp : p (planColumn col info) = true)
    (hcol : ∀ op, p op = true → opColumn op = some col ∧ isNullHandling op = true) :
    (generateCleaningPlan analysis).operations.filter p = [planColumn col info] := by
  have hfills : ((analysis.columnAnalysis.filter (fun e => decide (0 < e.2.nullCount))).map
      (fun e => planColumn e.1 e.2)).filter p = [planColumn col info] := by
    rw [List.filter_map, List.filter_filter]
    rw [filter_eq_singleton analysis.columnAnalysis hkeys col info hinfo]
    · rfl
    · simp [hp, hnull]
    · intro e _ he
      simp only [Function.comp, Bool.and_eq_true] at he
      have h1 := (hcol _ he.1).1
      rw [(planColumn_column e.1 e.2).1] at h1
      exact Option.some.inj h1
  have hdup : p .remove_duplicates = false := by
    by_contra hc
    have := (hcol _ (by simpa using hc)).2
    simp [isNullHandling] at this
  have hclean : (analysis.numericColumns.map (fun c => Operation.clean_numeric c)).filter p
      = [] := by
    rw [List.filter_eq_nil_iff]
    intro op hop hpop
    obtain ⟨c, _, rfl⟩ := List.mem_map.mp hop
    have := (hcol _ hpop).2
    simp [isNullHandling] at this
  simp only [generateCleaningPlan, List.filter_append, hfills, hclean, List.filter_cons,
    List.filter_nil, hdup]
  simp

/-- C5. For a profile and the entry `info` of a numeric column `col` with `nullCount > 0`
whose `nullPercentage` does not read as a number greater than 80, `generateCleaningPlan`
emits exactly one `fill_numeric` operation for `col`; its strategy is `median` when
`nullPercentage` reads greater than 30 and `mean` otherwise, and its value is the median,
respectively the mean, stored in the profile entry. -/
theorem C5_fill_numeric_strategy (analysis : Profile) (col : String) (info : ColumnProfile)
    (hkeys : (objKeys analysis.columnAnalysis).Nodup)
    (hinfo : (col, info) ∈ analysis.columnAnalysis)
    (hnull : 0 < info.nullCount)
    (htype : info.type = .numeric)
    (h80 : (parseFloat info.nullPercentage).gt (.fin 80) = false) :
    ((parseFloat info.nullPercentage).gt (.fin 30) = true →
      (generateCleaningPlan analysis).operations.filter (isFillNumericOn col)
        = [.fill_numeric col .median info.median]) ∧
    ((parseFloat info.nullPercentage).gt (.fin 30) = false →
      (generateCleaningPlan analysis).operations.filter (isFillNumericOn col)
        = [.fill_numeric col .mean info.mean]) := by
  have hcol : ∀ op, isFillNumericOn col op = true →
      opColumn op = some col ∧ isNullHandling op = true := by
    intro op hop
    cases op <;> simp_all [isFillNumericOn, opColumn, isNullHandling]
  constructor
  · intro h30
    have hplan : planColumn col info = .fill_numeric col .median info.median := by
      simp [planColumn, h80, htype, h30, strategyValue]
    rw [← hplan]
    exact filter_generateCleaningPlan analysis col info hkeys hinfo hnull _
      (by rw [hplan]; simp [isFillNumericOn]) hcol
  · intro h30
    have hplan : planColumn col info = .fill_numeric col .mean info.mean := by
      simp [planColumn, h80, htype, h30, strategyValue]
    rw [← hplan]
    exact filter_generateCleaningPlan analysis col info hkeys hinfo hnull _
      (by rw [hplan]; simp [isFillNumericOn]) hcol

/-- C5 at two numeric columns: `nullPercentage` 50 gives the median, 10 the mean. -/
theorem C5_fill_numeric_strategy_witness :
    (generateCleaningPlan numericGapsProfile).operations.filter (isFillNumericOn "u")
      = [.fill_numeric "u" .median (.num (.fin 3))] ∧
    (generateCleaningPlan numericGapsProfile).operations.filter (isFillNumericOn "w")
      = [.fill_numeric "w" .mean (.str "5.00")] :=
  ⟨(C5_fill_numeric_strategy numericGapsProfile "u"
      { type := .numeric, totalCount := 10, nonNullCount := 5, nullCount := 5
        nullPercentage := "50.0", uniqueCount := 5, uniquePercentage := "100.0"
        min := .num (.fin 1), max := .num (.fin 5), mean := .str "3.00"
        median := .num (.fin 3), topValues := none }
      (by decide) (by decide!) (by decide) rfl (by decide!)).1 (by decide!),
   (C5_fill_numeric_strategy numericGapsProfile "w"
      { type := .numeric, totalCount := 10, nonNullCount := 9, nullCount := 1
        nullPercentage := "10.0", uniqueCount := 9, uniquePercentage := "100.0"
        min := .num (.fin 1), max := .num (.fin 9), mean := .str "5.00"
        median := .num (.fin 5), topValues := none }
      (by decide) (by decide!) (by decide) rfl (by decide!)).2 (by decide!)⟩

/-- C6. For a profile and the entry `info` of a categorical column `col`
with `nullCount > 0` whose `nullPercentage` does not read as a number greater than 80,
`generateCleaningPlan` emits exactly one `fill_categorical` operation for `col`; its value is
the value of the first entry of `topValues` when that is a non-empty string, and the literal
`"Unknown"` when `topValues` is absent or empty or its first value is the empty string. -/
theorem C6_fill_categorical_value (analysis : Profile) (col : String) (info : ColumnProfile)
    (hkeys : (objKeys analysis.columnAnalysis).Nodup)
    (hinfo : (col, info) ∈ analysis.columnAnalysis)
    (hnull : 0 < info.nullCount)
    (htype : info.type = .categorical)
    (h80 : (parseFloat info.nullPercentage).gt (.fin 80) = false) :
    (∀ k n rest, info.topValues = some ((k, n) :: rest) → k ≠ "" →
      (generateCleaningPlan analysis).operations.filter (isFillCategoricalOn col)
        = [.fill_categorical col (.str k)]) ∧
    (∀ n rest, info.topValues = some (("", n) :: rest) →
      (generateCleaningPlan analysis).operations.filter (isFillCategoricalOn col)
        = [.fill_categorical col (.str "Unknown")]) ∧
    (info.topValues = some [] ∨ info.topValues = none →
      (generateCleaningPlan analysis).operations.filter (isFillCategoricalOn col)
        = [.fill_categorical col (.str "Unknown")]) := by
  have hcol : ∀ op, isFillCategoricalOn col op = true →
      opColumn op = some col ∧ isNullHandling op = true := by
    intro op hop
    cases op <;> simp_all [isFillCategoricalOn, opColumn, isNullHandling]
  have key : ∀ v, logicalOr (firstTopValue info) (.str "Unknown") = v →
      (generateCleaningPlan analysis).operations.filter (isFillCategoricalOn col)
        = [.fill_categorical col v] := by
    intro v hv
    have hplan : planColumn col info = .fill_categorical col v := by
      simp [planColumn, h80, htype, hv]
    rw [← hplan]
    exact filter_generateCleaningPlan analysis col info hkeys hinfo hnull _
      (by rw [hplan]; simp [isFillCategoricalOn]) hcol
  refine ⟨?_, ?_, ?_⟩
  · intro k n rest htop hk
    apply key
    simp [firstTopValue, htop, logicalOr, toBoolean, hk]
  · intro n rest htop
    apply key
    simp [firstTopValue, htop, logicalOr, toBoolean]
  · intro htop
    apply key
    rcases htop with htop | htop <;> simp [firstTopValue, htop, logicalOr, toBoolean]

/-- C6 at a categorical column whose most frequent value is `"a"`. -/
theorem C6_fill_categorical_value_witness :
    (generateCleaningPlan categoricalGapsProfile).operations.filter (isFillCategoricalOn "c")
      = [.fill_categorical "c" (.str "a")] :=
  (C6_fill_categorical_value categoricalGapsProfile "c"
      { type := .categorical, totalCount := 4, nonNullCount := 3, nullCount := 1
        nullPercentage := "25.0", uniqueCount := 2, uniquePercentage := "66.7"
        min := .undefined, max := .undefined, mean := .undefined, median := .undefined
        topValues := some [("a", 2), ("b", 1)] }
      (by decide) (by decide!) (by decide) rfl (by decide!)).1 "a" 2 [("b", 1)] rfl (by decide)

/-- The fallback also covers an empty first value: for a profile whose categorical column
lists the empty string first in `topValues`, the operation carries `"Unknown"`. -/
theorem generateCleaningPlan_empty_first_value :
    (generateCleaningPlan emptyTopValueProfile).operations
      = [.fill_categorical "c" (.str "Unknown"), .remove_duplicates] ∧
    (objGet emptyTopValueProfile.columnAnalysis "c").map (fun i => i.topValues)
      = some (some [("", 2), ("b", 1)]) ∧
    Operation.fill_categorical "c" (.str "") ∉
      (generateCleaningPlan emptyTopValueProfile).operations := by
  decide!

/-- A key that is absent reads as `undefined`. -/
theorem objGet_eq_none {α : Type} (o : Obj α) (k : String) (h : k ∉ objKeys o) :
    objGet o k = none := by
  induction o with
  | nil => rfl
  | cons e o ih =>
    simp only [objKeys, List.map_cons, List.mem_cons, not_or] at h
    simp only [objGet]
    rw [if_neg (fun hh => h.1 hh.symm)]
    exact ih h.2

/-- A new key that precedes no key of the object is created at the end. -/
theorem objInsertNew_append {α : Type} (o : Obj α) (k : String) (v : α)
    (h : ∀ k1 ∈ objKeys o, keyBefore k k1 = false) : objInsertNew o k v = o ++ [(k, v)] := by
  induction o with
  | nil => rfl
  | cons e o ih =>
    simp only [objKeys, List.map_cons, List.mem_cons, forall_eq_or_imp] at h
    simp only [objInsertNew, h.1, List.cons_append]
    rw [ih h.2]
    simp

/-- Writing distinct keys in enumeration order lists them in the order written. -/
theorem foldl_objSet_eq {α : Type} (f : String → α) (cols : List String) (acc : Obj α)
    (h : keysOrdered (objKeys acc ++ cols)) :
    cols.foldl (fun acc col => objSet acc col (f col)) acc
      = acc ++ cols.map (fun c => (c, f c)) := by
  induction cols generalizing acc with
  | nil => simp
  | cons col cols ih =>
    obtain ⟨hnd, hord⟩ := h
    have hnot : col ∉ objKeys acc := by
      intro hmem
      have := (List.nodup_append.mp hnd).2.2
      exact this hmem (List.mem_cons_self _ _)
    have hbefore : ∀ k1 ∈ objKeys acc, keyBefore col k1 = false := by
      intro k1 hk1
      exact (List.pairwise_append.mp hord).2.2 k1 hk1 col (List.mem_cons_self _ _)
    have hset : objSet acc col (f col) = acc ++ [(col, f col)] := by
      simp only [objSet, objGet_eq_none acc col hnot]
      exact objInsertNew_append acc col (f col) hbefore
    rw [List.foldl_cons, hset, ih]
    · simp
    · have hk : objKeys (acc ++ [(col, f col)]) ++ cols = objKeys acc ++ col :: cols := by
        simp [objKeys]
      rw [hk]
      exact ⟨hnd, hord⟩

/-- The `columnAnalysis` of a dataset whose first row has its keys in enumeration order
lists the columns in that order, each with the entry the loop body computes. -/
theorem performBasicAnalysis_entries (first : Row) (rest : Dataset)
    (hwf : keysOrdered (objKeys first)) :
    ∃ p, performBasicAnalysis (first :: rest) = some p ∧
      p.columns = objKeys first ∧
      p.columnAnalysis = (objKeys first).map (fun c => (c, analyzeColumn (first :: rest) c)) := by
  refine ⟨_, rfl, rfl, ?_⟩
  simp only []
  rw [foldl_objSet_eq (fun c => analyzeColumn (first :: rest) c) (objKeys first) []
    (by simpa [objKeys] using hwf)]
  simp

/-- C7. The operation list of `generateCleaningPlan` is: one removal or fill for each entry
of `columnAnalysis` with `nullCount > 0`, in the order of the entries (none for an entry with
`nullCount = 0`); then exactly one `remove_duplicates`; then one `clean_numeric` per numeric
column in the order of `numericColumns`.  Its length is the number of columns with nulls plus
one plus the number of numeric columns.  For the profile of a dataset the entries are the
columns of the first row in their order, so that the removals and fills follow the original
column order of the dataset. -/
theorem C7_plan_structure (analysis : Profile) (first : Row) (rest : Dataset)
    (hwf : keysOrdered (objKeys first)) :
    (∃ fills : List Operation,
      (generateCleaningPlan analysis).operations =
        fills ++ Operation.remove_duplicates ::
          analysis.numericColumns.map (fun c => Operation.clean_numeric c) ∧
      fills.map opColumn =
        (analysis.columnAnalysis.filter (fun e => decide (0 < e.2.nullCount))).map
          (fun e => some e.1) ∧
      (∀ op ∈ fills, isNullHandling op = true) ∧
      (generateCleaningPlan analysis).operations.length =
        (analysis.columnAnalysis.filter (fun e => decide (0 < e.2.nullCount))).length + 1
          + analysis.numericColumns.length ∧
      (generateCleaningPlan analysis).operations.count .remove_duplicates = 1) ∧
    (∃ p fills, performBasicAnalysis (first :: rest) = some p ∧
      (generateCleaningPlan p).operations =
        fills ++ Operation.remove_duplicates ::
          p.numericColumns.map (fun c => Operation.clean_numeric c) ∧
      fills.map opColumn =
        ((objKeys first).filter
          (fun c => decide (0 < (analyzeColumn (first :: rest) c).nullCount))).map some) := by
  have hgen : ∀ a : Profile, ∃ fills : List Operation,
      (generateCleaningPlan a).operations =
        fills ++ Operation.remove_duplicates ::
          a.numericColumns.map (fun c => Operation.clean_numeric c) ∧
      fills.map opColumn =
        (a.columnAnalysis.filter (fun e => decide (0 < e.2.nullCount))).map
          (fun e => some e.1) ∧
      (∀ op ∈ fills, isNullHandling op = true) ∧
      (generateCleaningPlan a).operations.length =
        (a.columnAnalysis.filter (fun e => decide (0 < e.2.nullCount))).length + 1
          + a.numericColumns.length ∧
      (generateCleaningPlan a).operations.count .remove_duplicates = 1 := by
    intro a
    refine ⟨(a.columnAnalysis.filter (fun e => decide (0 < e.2.nullCount))).map
      (fun e => planColumn e.1 e.2), ?_, ?_, ?_, ?_, ?_⟩
    · simp [generateCleaningPlan]
    · rw [List.map_map]
      apply List.map_congr_left
      intro e _
      exact (planColumn_column e.1 e.2).1
    · intro op hop
      obtain ⟨e, _, rfl⟩ := List.mem_map.mp hop
      exact (planColumn_column e.1 e.2).2
    · simp [generateCleaningPlan]
      omega
    · simp only [generateCleaningPlan, List.count_append, List.count_cons_self, List.count_nil]
      have h1 : List.count Operation.remove_duplicates
          ((a.columnAnalysis.filter (fun e => decide (0 < e.2.nullCount))).map
            (fun e => planColumn e.1 e.2)) = 0 := by
        rw [List.count_eq_zero]
        intro hmem
        obtain ⟨e, _, he⟩ := List.mem_map.mp hmem
        have := (planColumn_column e.1 e.2).2
        rw [he] at this
        simp [isNullHandling] at this
      have h2 : List.count Operation.remove_duplicates
          (a.numericColumns.map (fun c => Operation.clean_numeric c)) = 0 := by
        rw [List.count_eq_zero]
        intro hmem
        obtain ⟨c, _, hc⟩ := List.mem_map.mp hmem
        exact Operation.noConfusion hc
      rw [h1, h2]
  refine ⟨hgen analysis, ?_⟩
  obtain ⟨p, hp, _, hca⟩ := performBasicAnalysis_entries first rest hwf
  obtain ⟨fills, hops, hcols, _⟩ := hgen p
  refine ⟨p, fills, hp, hops, ?_⟩
  rw [hcols, hca, List.filter_map, List.map_map]
  rfl

/-- C7 for the profile of `[{x:"1",y:"a"}, {x:"",y:"a"}, {x:"3",y:null}]`. -/
theorem C7_plan_structure_witness :
    ∃ p fills, performBasicAnalysis pipelineDataset = some p ∧
      (generateCleaningPlan p).operations =
        fills ++ Operation.remove_duplicates ::
          p.numericColumns.map (fun c => Operation.clean_numeric c) ∧
      fills.map opColumn =
        ((objKeys ([("x", .str "1"), ("y", .str "a")] : Row)).filter
          (fun c => decide (0 < (analyzeColumn pipelineDataset c).nullCount))).map some :=
  (C7_plan_structure numericGapsProfile [("x", .str "1"), ("y", .str "a")]
    [[("x", .str ""), ("y", .str "a")], [("x", .str "3"), ("y", .null)]] (by decide)).2

/-! ## The pipeline on an example -/

/-- The profile of `[{x:"1",y:"a"}, {x:"",y:"a"}, {x:"3",y:null}]`. -/
theorem performBasicAnalysis_pipelineDataset :
    performBasicAnalysis pipelineDataset = some pipelineProfile := by
  decide!

/-- C8, as the code has it. On `[{x:"1",y:"a"}, {x:"",y:"a"}, {x:"3",y:null}]` the profiler
classifies `x` as numeric with `nullPercentage` `"33.3"`, mean `"2.00"` and median `2`; since
33.3 is greater than 30 the planner emits `fill_numeric` on `x` with strategy `median` and
value `2` (then `fill_categorical` on `y` with `"a"`, `remove_duplicates`, `clean_numeric` on
`x`); the executor returns `[{x:1,y:"a"}, {x:0,y:"a"}, {x:3,y:"a"}]`: the empty string of the
second row is neither `null` nor `undefined`, the fill leaves it, and `clean_numeric` turns it
into `0`. -/
theorem C8_pipeline_result :
    ∃ p info, performBasicAnalysis pipelineDataset = some p ∧
      objGet p.columnAnalysis "x" = some info ∧
      info.type = .numeric ∧ info.nullCount = 1 ∧ info.nullPercentage = "33.3" ∧
      info.mean = .str "2.00" ∧ info.median = .num (.fin 2) ∧
      (generateCleaningPlan p).operations =
        [.fill_numeric "x" .median (.num (.fin 2)), .fill_categorical "y" (.str "a"),
         .remove_duplicates, .clean_numeric "x"] ∧
      performDataCleaning pipelineDataset p
          { operations := [.fill_numeric "x" .median (.num (.fin 2))] } = some pipelineDataset ∧
      performDataCleaning pipelineDataset p (generateCleaningPlan p) =
        some [[("x", .num (.fin 1)), ("y", .str "a")],
              [("x", .num (.fin 0)), ("y", .str "a")],
              [("x", .num (.fin 3)), ("y", .str "a")]] := by
  refine ⟨pipelineProfile, _, performBasicAnalysis_pipelineDataset, rfl, rfl, rfl, rfl, rfl, rfl,
    ?_, ?_, ?_⟩
  · decide!
  · decide!
  · decide!

/-- C8 fails as stated: on `[{x:"1",y:"a"}, {x:"",y:"a"}, {x:"3",y:null}]` the plan holds no
`fill_numeric` on `x` with strategy `mean`, and the cleaned dataset does not have `2` at `x`
in its second row. -/
theorem C8_pipeline_counterexample :
    ¬ ∃ p cleaned, performBasicAnalysis pipelineDataset = some p ∧
      performDataCleaning pipelineDataset p (generateCleaningPlan p) = some cleaned ∧
      ((∃ value, Operation.fill_numeric "x" .mean value ∈ (generateCleaningPlan p).operations) ∨
        (cleaned.get? 1).map (fun row => rowGet row "x") = some (.num (.fin 2))) := by
  have hplan : (generateCleaningPlan pipelineProfile).operations =
      [.fill_numeric "x" .median (.num (.fin 2)), .fill_categorical "y" (.str "a"),
       .remove_duplicates, .clean_numeric "x"] := by
    decide!
  have hclean : performDataCleaning pipelineDataset pipelineProfile
      (generateCleaningPlan pipelineProfile) =
        some [[("x", .num (.fin 1)), ("y", .str "a")],
              [("x", .num (.fin 0)), ("y", .str "a")],
              [("x", .num (.fin 3)), ("y", .str "a")]] := by
    decide!
  rintro ⟨p, cleaned, hp, hc, hor⟩
  rw [performBasicAnalysis_pipelineDataset] at hp
  obtain rfl := Option.some.inj hp
  rcases hor with ⟨value, hv⟩ | hx
  · rw [hplan] at hv
    simp at hv
  · rw [hclean] at hc
    obtain rfl := Option.some.inj hc
    revert hx
    decide!

/-! ## Cleaning executor: fills -/

/-- Writing back the value a key already has leaves the object as it is. -/
theorem objSet_same {α : Type} (o : Obj α) (k : String) (v : α) (h : objGet o k = some v) :
    objSet o k v = o := by
  simp only [objSet, h, Option.isSome_some, if_true]
  induction o with
  | nil => rfl
  | cons e o ih =>
    obtain ⟨k1, v1⟩ := e
    by_cases hk : k1 = k
    · simp only [objGet, hk, if_true, Option.some.injEq] at h
      simp [objReplace, hk, h]
    · simp only [objGet, hk, if_false] at h
      simp [objReplace, hk, ih h]

/-- The cell read after a cell write. -/
theorem rowGet_objSet_self (row : Row) (c : String) (v : Value) :
    rowGet (objSet row c v) c = v := by
  simp [rowGet, objGet_objSet_self]

/-- A cell that is not `null` or `undefined` is an own property of the row. -/
theorem objGet_of_not_nullish (row : Row) (c : String) (h : isNullish (rowGet row c) = false) :
    objGet row c = some (rowGet row c) := by
  cases hg : objGet row c with
  | none => simp [rowGet, hg, isNullish] at h
  | some v => simp [rowGet, hg]

/-- The values `??` replaces are `null` and `undefined` only. -/
theorem isNullish_iff (v : Value) : isNullish v = true ↔ v = .null ∨ v = .undefined := by
  cases v <;> simp [isNullish]

/-- The values `||` replaces are the falsy ones: `null`, `undefined`, `false`, `0`, NaN and the
empty string. -/
theorem toBoolean_eq_false_iff (v : Value) :
    toBoolean v = false ↔
      v = .null ∨ v = .undefined ∨ v = .bool false ∨ v = .num (.fin 0) ∨ v = .num .nan ∨
        v = .str "" := by
  cases v with
  | null => simp [toBoolean]
  | undefined => simp [toBoolean]
  | bool b => cases b <;> simp [toBoolean]
  | num n => cases n <;> simp [toBoolean]
  | str s => simp [toBoolean]

/-- C9. For a `fill_numeric` operation on a column `c` that the profile has an entry for,
`performDataCleaning` keeps the number and order of the rows and, in every row, replaces the
value at `c` by the fill value (the stored mean or median of the entry, by the strategy of the
operation) exactly when that value is `null` or `undefined`; a row whose value at `c` is
anything else, `0`, `false` and the empty string included, is left as it is, and in every row
all fields other than `c` are unchanged. -/
theorem C9_fill_numeric_only_nullish (analysis : Profile) (st : CleaningState) (c : String)
    (strategy : Strategy) (value : Value) (info : ColumnProfile)
    (hinfo : objGet analysis.columnAnalysis c = some info) :
    ∃ st1, applyOperation analysis st (.fill_numeric c strategy value) = some st1 ∧
      performDataCleaning st.cleanedData analysis
        { operations := [.fill_numeric c strategy value] } = some st1.cleanedData ∧
      st1.cleanedData.length = st.cleanedData.length ∧
      (∀ i row, st.cleanedData.get? i = some row →
        ∃ row1, st1.cleanedData.get? i = some row1 ∧
          (isNullish (rowGet row c) = true → rowGet row1 c = strategyValue info strategy) ∧
          (isNullish (rowGet row c) = false → row1 = row) ∧
          (∀ k, k ≠ c → objGet row1 k = objGet row k)) ∧
      (∀ v : Value, isNullish v = true ↔ v = .null ∨ v = .undefined) ∧
      isNullish (.num (.fin 0)) = false ∧ isNullish (.bool false) = false ∧
      isNullish (.str "") = false := by
  have hfill : (if strategy = .mean then info.mean else info.median)
      = strategyValue info strategy := by
    cases strategy <;> simp [strategyValue]
  refine ⟨_, by simp only [applyOperation, hinfo]; rfl, ?_, ?_, ?_, isNullish_iff, rfl, rfl, rfl⟩
  · simp [performDataCleaning, runOperations, applyOperation, hinfo]
  · simp
  · intro i row hrow
    refine ⟨objSet row c (nullishCoalesce (rowGet row c)
      (if strategy = .mean then info.mean else info.median)), ?_, ?_, ?_, ?_⟩
    · simp only [List.get?_eq_getElem?, List.getElem?_map] at hrow ⊢
      rw [hrow]
      rfl
    · intro hnull
      rw [rowGet_objSet_self, ← hfill]
      simp [nullishCoalesce, hnull]
    · intro hnot
      simp only [nullishCoalesce, hnot]
      exact objSet_same row c _ (objGet_of_not_nullish row c hnot)
    · intro k hk
      exact objGet_objSet_ne row c k _ hk

/-- C9 at the dataset `[{x:"1",y:"a"}, {x:"",y:"a"}, {x:"3",y:null}]`, its profile and the
fill planned for column `x`. -/
theorem C9_fill_numeric_only_nullish_witness :
    ∃ st1, applyOperation pipelineProfile
        { cleanedData := pipelineDataset, operationResults := [] }
        (.fill_numeric "x" .median (.num (.fin 2))) = some st1 ∧
      st1.cleanedData.length = pipelineDataset.length := by
  obtain ⟨st1, h1, _, h3, _⟩ := C9_fill_numeric_only_nullish pipelineProfile
    { cleanedData := pipelineDataset, operationResults := [] } "x" .median (.num (.fin 2))
    { type := .numeric, totalCount := 3, nonNullCount := 2, nullCount := 1
      nullPercentage := "33.3", uniqueCount := 2, uniquePercentage := "100.0"
      min := .num (.fin 1), max := .num (.fin 3), mean := .str "2.00"
      median := .num (.fin 2), topValues := none } (by decide!)
  exact ⟨st1, h1, h3⟩

/-- C10. For a `fill_categorical` operation on column `c` with value `v`,
`performDataCleaning` keeps the number and order of the rows and, in every row, replaces the
value at `c` by `v` exactly when that value is falsy (`null`, `undefined`, `0`, `false`, the
empty string, NaN); a row whose value at `c` is truthy is left as it is, and in every row all
fields other than `c` are unchanged. -/
theorem C10_fill_categorical_only_falsy (analysis : Profile) (st : CleaningState) (c : String)
    (v : Value) :
    ∃ st1, applyOperation analysis st (.fill_categorical c v) = some st1 ∧
      performDataCleaning st.cleanedData analysis
        { operations := [.fill_categorical c v] } = some st1.cleanedData ∧
      st1.cleanedData.length = st.cleanedData.length ∧
      (∀ i row, st.cleanedData.get? i = some row →
        ∃ row1, st1.cleanedData.get? i = some row1 ∧
          (toBoolean (rowGet row c) = false → rowGet row1 c = v) ∧
          (toBoolean (rowGet row c) = true → row1 = row) ∧
          (∀ k, k ≠ c → objGet row1 k = objGet row k)) ∧
      (∀ x : Value, toBoolean x = false ↔
        x = .null ∨ x = .undefined ∨ x = .bool false ∨ x = .num (.fin 0) ∨ x = .num .nan ∨
          x = .str "") := by
  refine ⟨_, rfl, ?_, ?_, ?_, toBoolean_eq_false_iff⟩
  · simp [performDataCleaning, runOperations, applyOperation]
  · simp
  · intro i row hrow
    refine ⟨objSet row c (logicalOr (rowGet row c) v), ?_, ?_, ?_, ?_⟩
    · simp only [List.get?_eq_getElem?, List.getElem?_map] at hrow ⊢
      rw [hrow]
      rfl
    · intro hfalsy
      rw [rowGet_objSet_self]
      simp [logicalOr, hfalsy]
    · intro htruthy
      simp only [logicalOr, htruthy, if_true]
      apply objSet_same
      apply objGet_of_not_nullish
      cases hv : rowGet row c <;> simp_all [toBoolean, isNullish]
    · intro k hk
      exact objGet_objSet_ne row c k _ hk

/-- Removing a key leaves every other key as it was. -/
theorem objGet_objErase_ne {α : Type} (o : Obj α) (k k1 : String) (h : k1 ≠ k) :
    objGet (objErase o k) k1 = objGet o k1 := by
  induction o with
  | nil => rfl
  | cons e o ih =>
    obtain ⟨k2, v2⟩ := e
    have ih2 : objGet (List.filter (fun e => decide (e.1 ≠ k)) o) k1 = objGet o k1 := ih
    show objGet (List.filter (fun e => decide (e.1 ≠ k)) ((k2, v2) :: o)) k1
      = objGet ((k2, v2) :: o) k1
    rw [List.filter_cons]
    by_cases hk : k2 = k
    · have hd : decide ((k2, v2).1 ≠ k) = false := decide_eq_false (fun hh => hh hk)
      have hne : ¬ k2 = k1 := fun hh => h (hh ▸ hk)
      rw [hd, if_neg (by decide), ih2]
      simp only [objGet]
      rw [if_neg hne]
    · have hd : decide ((k2, v2).1 ≠ k) = true := decide_eq_true hk
      rw [hd, if_pos rfl]
      simp only [objGet]
      rw [ih2]

/-! ## Cleaning executor: numeric cleaning and column removal -/

/-- The dataset that `clean_numeric` leaves. -/
theorem applyOperation_clean_numeric (analysis : Profile) (st : CleaningState) (c : String) :
    applyOperation analysis st (.clean_numeric c) =
      some
        { cleanedData := st.cleanedData.map (fun row =>
            objSet row c (coerceNumeric (rowGet row c)))
          operationResults := bumpResult st.operationResults "clean_numeric" } := rfl

/-- A number that is not NaN coerces to itself and a value coercing to NaN stays, so that
coercing twice is coercing once. -/
theorem coerceNumeric_idem (v : Value) : coerceNumeric (coerceNumeric v) = coerceNumeric v := by
  by_cases h : (toNumber v).isNaN = true
  · have hv : coerceNumeric v = v := by simp [coerceNumeric, h]
    rw [hv, hv]
  · have hv : coerceNumeric v = .num (toNumber v) := by simp [coerceNumeric, h]
    have ht : toNumber (.num (toNumber v)) = toNumber v := rfl
    rw [hv]
    simp only [coerceNumeric, ht]
    rw [if_neg h]

/-- C11, as the code has it. For a `clean_numeric` operation on column `c`,
`performDataCleaning` keeps the number and order of the rows and, in every row, replaces the
value at `c` by its numeric coercion whenever that coercion is not NaN, so for every value that
coerces to a finite number and also for a value that coerces to an infinity, and leaves the
value untouched when the coercion is NaN; all fields other than `c` are unchanged. -/
theorem C11_clean_numeric_coerces (analysis : Profile) (st : CleaningState) (c : String) :
    ∃ st1, applyOperation analysis st (.clean_numeric c) = some st1 ∧
      performDataCleaning st.cleanedData analysis { operations := [.clean_numeric c] }
        = some st1.cleanedData ∧
      st1.cleanedData.length = st.cleanedData.length ∧
      (∀ i row, st.cleanedData.get? i = some row →
        ∃ row1, st1.cleanedData.get? i = some row1 ∧
          ((toNumber (rowGet row c)).isFinite = true →
            rowGet row1 c = .num (toNumber (rowGet row c))) ∧
          ((toNumber (rowGet row c)).isNaN = false →
            rowGet row1 c = .num (toNumber (rowGet row c))) ∧
          ((toNumber (rowGet row c)).isNaN = true → rowGet row1 c = rowGet row c) ∧
          (∀ k, k ≠ c → objGet row1 k = objGet row k)) := by
  refine ⟨_, rfl, ?_, ?_, ?_⟩
  · simp [performDataCleaning, runOperations, applyOperation]
  · simp
  · intro i row hrow
    refine ⟨objSet row c (coerceNumeric (rowGet row c)), ?_, ?_, ?_, ?_, ?_⟩
    · simp only [List.get?_eq_getElem?, List.getElem?_map] at hrow ⊢
      rw [hrow]
      rfl
    · intro hfin
      have hnan : (toNumber (rowGet row c)).isNaN = false := by
        cases h : toNumber (rowGet row c) <;> simp_all [JSNum.isFinite, JSNum.isNaN]
      rw [rowGet_objSet_self]
      simp [coerceNumeric, hnan]
    · intro hnan
      rw [rowGet_objSet_self]
      simp [coerceNumeric, hnan]
    · intro hnan
      rw [rowGet_objSet_self]
      simp [coerceNumeric, hnan]
    · intro k hk
      exact objGet_objSet_ne row c k _ hk

/-- C11 fails as stated: the string `"Infinity"` coerces to no finite number, yet
`clean_numeric` does not leave it untouched but stores the number `Infinity`. -/
theorem C11_infinity_counterexample :
    (toNumber (.str "Infinity")).isFinite = false ∧
    performDataCleaning [[("c", .str "Infinity")]] pipelineProfile
        { operations := [.clean_numeric "c"] } = some [[("c", .num .posInf)]] ∧
    Value.num .posInf ≠ Value.str "Infinity" := by
  decide!

/-- C12. Applying `clean_numeric` on a column twice in sequence gives the same dataset as
applying it once. -/
theorem C12_clean_numeric_idempotent (analysis : Profile) (st : CleaningState) (c : String) :
    (∃ st1 st2, applyOperation analysis st (.clean_numeric c) = some st1 ∧
      applyOperation analysis st1 (.clean_numeric c) = some st2 ∧
      st2.cleanedData = st1.cleanedData) ∧
    performDataCleaning st.cleanedData analysis
        { operations := [.clean_numeric c, .clean_numeric c] }
      = performDataCleaning st.cleanedData analysis { operations := [.clean_numeric c] } := by
  have hrow : ∀ row : Row,
      objSet (objSet row c (coerceNumeric (rowGet row c))) c
          (coerceNumeric (rowGet (objSet row c (coerceNumeric (rowGet row c))) c))
        = objSet row c (coerceNumeric (rowGet row c)) := by
    intro row
    rw [rowGet_objSet_self, coerceNumeric_idem]
    exact objSet_same _ _ _ (objGet_objSet_self _ _ _)
  have hmap : ∀ data : Dataset,
      (data.map (fun row => objSet row c (coerceNumeric (rowGet row c)))).map
          (fun row => objSet row c (coerceNumeric (rowGet row c)))
        = data.map (fun row => objSet row c (coerceNumeric (rowGet row c))) := by
    intro data
    rw [List.map_map]
    apply List.map_congr_left
    intro row _
    exact hrow row
  refine ⟨⟨_, _, rfl, rfl, ?_⟩, ?_⟩
  · exact hmap st.cleanedData
  · simp only [performDataCleaning, runOperations, applyOperation_clean_numeric, Option.map_some']
    rw [hmap]

/-- C13. For a `remove_column` operation on column `c`, `performDataCleaning` keeps the number
and order of the rows; every row of the result lacks the field `c` and consists of the other
fields of the corresponding input row, with the same values and in the same order. -/
theorem C13_remove_column_frame (analysis : Profile) (st : CleaningState) (c : String) :
    ∃ st1, applyOperation analysis st (.remove_column c) = some st1 ∧
      performDataCleaning st.cleanedData analysis { operations := [.remove_column c] }
        = some st1.cleanedData ∧
      st1.cleanedData.length = st.cleanedData.length ∧
      (∀ i row, st.cleanedData.get? i = some row →
        ∃ row1, st1.cleanedData.get? i = some row1 ∧
          c ∉ objKeys row1 ∧
          objGet row1 c = none ∧
          row1 = row.filter (fun e => decide (e.1 ≠ c)) ∧
          objKeys row1 = (objKeys row).filter (fun k => decide (k ≠ c)) ∧
          (∀ k, k ≠ c → objGet row1 k = objGet row k)) := by
  refine ⟨_, rfl, ?_, ?_, ?_⟩
  · simp [performDataCleaning, runOperations, applyOperation]
  · simp
  · intro i row hrow
    have hnot : c ∉ objKeys (objErase row c) := by
      simp [objKeys, objErase, List.mem_filter]
    refine ⟨objErase row c, ?_, hnot, objGet_eq_none _ _ hnot, rfl, ?_, ?_⟩
    · simp only [List.get?_eq_getElem?, List.getElem?_map] at hrow ⊢
      rw [hrow]
      rfl
    · simp only [objKeys, objErase, List.filter_map]
      rfl
    · intro k hk
      exact objGet_objErase_ne row c k hk

/-! ## Cleaning executor: where the fill value comes from -/

/-- An entry read from an object is an entry of the object. -/
theorem mem_of_objGet {α : Type} (o : Obj α) (k : String) (v : α) (h : objGet o k = some v) :
    (k, v) ∈ o := by
  induction o with
  | nil => simp [objGet] at h
  | cons e o ih =>
    obtain ⟨k1, v1⟩ := e
    by_cases hk : k1 = k
    · simp only [objGet, hk, if_true, Option.some.injEq] at h
      rw [hk, h]
      exact List.mem_cons_self _ _
    · simp only [objGet, hk, if_false] at h
      exact List.mem_cons_of_mem _ (ih h)

/-- The state that `fill_numeric` leaves when the profile has an entry for the column. -/
theorem applyOperation_fill_numeric (analysis : Profile) (st : CleaningState) (c : String)
    (strategy : Strategy) (value : Value) (info : ColumnProfile)
    (hinfo : objGet analysis.columnAnalysis c = some info) :
    applyOperation analysis st (.fill_numeric c strategy value) =
      some
        { cleanedData := st.cleanedData.map (fun row =>
            objSet row c (nullishCoalesce (rowGet row c) (strategyValue info strategy)))
          operationResults := bumpResult st.operationResults "fill_numeric" } := by
  have hfill : (if strategy = .mean then info.mean else info.median)
      = strategyValue info strategy := by
    cases strategy <;> simp [strategyValue]
  simp only [applyOperation, hinfo, hfill]

/-! ## Profiler: counts and percentages -/

/-- The counts and percentages that the loop body stores for a column. -/
theorem analyzeColumn_counts (data : Dataset) (col : String) :
    (analyzeColumn data col).totalCount = data.length ∧
    (analyzeColumn data col).nonNullCount = (presentValues data col).length ∧
    (analyzeColumn data col).nullCount = data.length - (presentValues data col).length ∧
    (analyzeColumn data col).uniqueCount = (uniqueValues (presentValues data col)).length ∧
    (analyzeColumn data col).nullPercentage =
      toFixed (fmul (fdiv (JSNum.ofNat (data.length - (presentValues data col).length))
        (JSNum.ofNat data.length)) (.fin 100)) 1 ∧
    (analyzeColumn data col).uniquePercentage =
      toFixed (fmul (fdiv (JSNum.ofNat (uniqueValues (presentValues data col)).length)
        (JSNum.ofNat (presentValues data col).length)) (.fin 100)) 1 := by
  simp only [analyzeColumn, presentValues]
  split <;> exact ⟨rfl, rfl, rfl, rfl, rfl, rfl⟩

/-- The non-missing values of a column are as many as the rows whose cell is present. -/
theorem presentValues_length (data : Dataset) (col : String) :
    (presentValues data col).length
      = (data.filter (fun row => isPresent (rowGet row col))).length := by
  simp only [presentValues]
  rw [List.filter_map, List.length_map]
  rfl

/-- A cell is present unless it is `null`, `undefined` or the empty string. -/
theorem isPresent_iff (v : Value) :
    isPresent v = true ↔ v ≠ .null ∧ v ≠ .undefined ∧ v ≠ .str "" := by
  cases v <;> simp [isPresent, isNullish]

/-- The division `0 / 0` of the percentage of a column without values, as `toFixed` prints
it. -/
theorem toFixed_zero_div_zero :
    toFixed (fmul (fdiv (JSNum.ofNat 0) (JSNum.ofNat 0)) (.fin 100)) 1 = "NaN" := by
  decide!

/-- C15, as the code has it. For a non-empty dataset and a column `col` of its first row,
`uniquePercentage` is `(uniqueCount / nonNullCount * 100).toFixed(1)` with no special case:
for a column with no non-missing value (`nonNullCount = 0`) the division is `0 / 0` and the
stored text is `"NaN"`. -/
theorem C15_uniquePercentage_unguarded (first : Row) (rest : Dataset) (col : String)
    (hcol : col ∈ objKeys first) :
    ∃ p info, performBasicAnalysis (first :: rest) = some p ∧
      objGet p.columnAnalysis col = some info ∧
      info.nonNullCount = (presentValues (first :: rest) col).length ∧
      info.uniqueCount = (uniqueValues (presentValues (first :: rest) col)).length ∧
      info.uniquePercentage =
        toFixed (fmul (fdiv (JSNum.ofNat info.uniqueCount) (JSNum.ofNat info.nonNullCount))
          (.fin 100)) 1 ∧
      (info.nonNullCount = 0 → info.uniquePercentage = "NaN") := by
  obtain ⟨p, hp, hget⟩ := performBasicAnalysis_columnAnalysis first rest col hcol
  obtain ⟨_, hnn, _, huc, _, hup⟩ := analyzeColumn_counts (first :: rest) col
  refine ⟨p, _, hp, hget, hnn, huc, ?_, ?_⟩
  · rw [hup, hnn, huc]
  · intro hzero
    rw [hnn] at hzero
    have hnil : presentValues (first :: rest) col = [] := List.length_eq_zero.mp hzero
    rw [hup, hnil]
    exact toFixed_zero_div_zero

/-- C15 at the dataset `[{c:null}]`. -/
theorem C15_uniquePercentage_unguarded_witness :
    ∃ p info, performBasicAnalysis allNullDataset = some p ∧
      objGet p.columnAnalysis "c" = some info ∧ info.uniquePercentage = "NaN" := by
  obtain ⟨p, info, hp, hget, hnn, _, _, hnan⟩ :=
    C15_uniquePercentage_unguarded [("c", .null)] [] "c" (by decide)
  exact ⟨p, info, hp, hget, hnan (by rw [hnn]; decide)⟩

/-- C15 fails as stated: for the dataset `[{c:null}]`, whose column `c` has no non-missing
value, the stored `uniquePercentage` is the text `"NaN"`, which is not a zero. -/
theorem C15_nan_counterexample :
    (analyzeColumn allNullDataset "c").nonNullCount = 0 ∧
    (performBasicAnalysis allNullDataset).bind
        (fun p => (objGet p.columnAnalysis "c").map (fun i => i.uniquePercentage))
      = some "NaN" ∧
    parseFloat "NaN" = .nan ∧ "NaN" ≠ "0.0" ∧ "NaN" ≠ "0" := by
  decide!

/-- C17. `performBasicAnalysis` returns `null` (here `none`) for an absent and for an empty
dataset, and a profile for every non-empty dataset. -/
theorem C17_null_only_for_empty :
    performBasicAnalysisOpt none = none ∧
    performBasicAnalysisOpt (some []) = none ∧
    performBasicAnalysis [] = none ∧
    (∀ (first : Row) (rest : Dataset),
      (performBasicAnalysis (first :: rest)).isSome = true ∧
      performBasicAnalysisOpt (some (first :: rest)) = performBasicAnalysis (first :: rest)) ∧
    (∀ data : Dataset, performBasicAnalysis data = none ↔ data = []) := by
  refine ⟨rfl, rfl, rfl, fun first rest => ⟨rfl, rfl⟩, ?_⟩
  intro data
  cases data with
  | nil => simp [performBasicAnalysis]
  | cons first rest => simp [performBasicAnalysis]

/-- C18. For a non-empty dataset the profile has `rowCount` equal to the number of rows,
`columnCount` equal to the number of keys of the first row, and `columns` equal to those keys
in their order. -/
theorem C18_row_and_column_counts (first : Row) (rest : Dataset) :
    ∃ p, performBasicAnalysis (first :: rest) = some p ∧
      p.rowCount = (first :: rest).length ∧
      p.columnCount = (objKeys first).length ∧
      p.columns = objKeys first := by
  refine ⟨_, rfl, ?_, ?_, ?_⟩
  · rfl
  · rfl
  · rfl

/-- C19. For a non-empty dataset and a column `col` of its first row, `nonNullCount` is the
number of rows whose value at `col` is not `null`, `undefined` or the empty string; it is at
most `totalCount`, so that `nullCount = totalCount - nonNullCount` is not negative, and
`nonNullCount + nullCount = totalCount = rowCount`, the number of rows. -/
theorem C19_null_accounting (first : Row) (rest : Dataset) (col : String)
    (hcol : col ∈ objKeys first) :
    ∃ p info, performBasicAnalysis (first :: rest) = some p ∧
      objGet p.columnAnalysis col = some info ∧
      info.nonNullCount
        = ((first :: rest).filter (fun row => isPresent (rowGet row col))).length ∧
      (∀ v : Value, isPresent v = true ↔ v ≠ .null ∧ v ≠ .undefined ∧ v ≠ .str "") ∧
      info.nonNullCount ≤ info.totalCount ∧
      (info.nullCount : Int) = (info.totalCount : Int) - (info.nonNullCount : Int) ∧
      info.nonNullCount + info.nullCount = info.totalCount ∧
      info.totalCount = p.rowCount ∧
      p.rowCount = (first :: rest).length := by
  obtain ⟨p, hp, hget⟩ := performBasicAnalysis_columnAnalysis first rest col hcol
  obtain ⟨htot, hnn, hnull, _⟩ := analyzeColumn_counts (first :: rest) col
  have hle : (presentValues (first :: rest) col).length ≤ (first :: rest).length := by
    rw [presentValues_length]
    exact List.length_filter_le _ _
  have hrow : p.rowCount = (first :: rest).length := by
    have := Option.some.inj hp
    rw [← this]
  refine ⟨p, _, hp, hget, ?_, isPresent_iff, ?_, ?_, ?_, ?_, hrow⟩
  · rw [hnn, presentValues_length]
  · rw [hnn, htot]
    exact hle
  · rw [hnull, htot, hnn]
    omega
  · rw [hnull, htot, hnn]
    omega
  · rw [htot, hrow]

/-- C19 at column `y` of the dataset `[{x:"1",y:"a"}, {x:"",y:"a"}, {x:"3",y:null}]`. -/
theorem C19_null_accounting_witness :
    ∃ p info, performBasicAnalysis pipelineDataset = some p ∧
      objGet p.columnAnalysis "y" = some info ∧
      info.nonNullCount + info.nullCount = info.totalCount ∧ info.totalCount = p.rowCount := by
  obtain ⟨p, info, hp, hget, _, _, _, _, hsum, htot, _⟩ :=
    C19_null_accounting [("x", .str "1"), ("y", .str "a")]
      [[("x", .str ""), ("y", .str "a")], [("x", .str "3"), ("y", .null)]] "y" (by decide)
  exact ⟨p, info, hp, hget, hsum, htot⟩

/-- The empty string coerces to the number zero. -/
theorem stringToNumber_empty : stringToNumber "" = .fin 0 := by
  decide!

/-- C20. For a non-empty dataset (an array, so of fewer than `2^32` rows) and a column `col`
of its first row: if every value of the column is a non-empty string that coerces to a finite
number, the column is classified `numeric`; if every value is a string that does not coerce
to a finite number, it is classified `categorical`. -/
theorem C20_all_numeric_or_all_text (first : Row) (rest : Dataset) (col : String)
    (hcol : col ∈ objKeys first) (hlen : (first :: rest).length < 2 ^ 32) :
    ∃ p info, performBasicAnalysis (first :: rest) = some p ∧
      objGet p.columnAnalysis col = some info ∧
      ((∀ row ∈ first :: rest, ∃ s, rowGet row col = .str s ∧ s ≠ "" ∧
          (stringToNumber s).isFinite = true) → info.type = .numeric) ∧
      ((∀ row ∈ first :: rest, ∃ s, rowGet row col = .str s ∧
          (stringToNumber s).isFinite = false) → info.type = .categorical) := by
  obtain ⟨p, hp, hget⟩ := performBasicAnalysis_columnAnalysis first rest col hcol
  have hpos : 1 ≤ (first :: rest).length := by simp
  have hpresent : (∀ row ∈ first :: rest, ∃ s, rowGet row col = .str s ∧ s ≠ "") →
      presentValues (first :: rest) col = (first :: rest).map (fun row => rowGet row col) := by
    intro h
    simp only [presentValues]
    apply List.filter_eq_self.mpr
    intro v hv
    obtain ⟨row, hrow, rfl⟩ := List.mem_map.mp hv
    obtain ⟨s, hs, hne⟩ := h row hrow
    rw [hs]
    simp [isPresent, isNullish, hne]
  refine ⟨p, _, hp, hget, ?_, ?_⟩
  · intro hall
    have hpv := hpresent (fun row hrow => by
      obtain ⟨s, hs, hne, _⟩ := hall row hrow
      exact ⟨s, hs, hne⟩)
    have hfin : (presentValues (first :: rest) col).filter (fun v => (toNumber v).isFinite)
        = presentValues (first :: rest) col := by
      apply List.filter_eq_self.mpr
      intro v hv
      rw [hpv] at hv
      obtain ⟨row, hrow, rfl⟩ := List.mem_map.mp hv
      obtain ⟨s, hs, _, hf⟩ := hall row hrow
      rw [hs]
      exact hf
    have hn : (presentValues (first :: rest) col).length = (first :: rest).length := by
      rw [hpv, List.length_map]
    rw [analyzeColumn_type, hfin,
      (gt_seven_tenths (presentValues (first :: rest) col).length
        (presentValues (first :: rest) col).length (by rw [hn]; exact hlen)).1
        (by rw [hn]; omega)]
    rfl
  · intro hall
    have hpv := hpresent (fun row hrow => by
      obtain ⟨s, hs, hf⟩ := hall row hrow
      refine ⟨s, hs, ?_⟩
      intro he
      rw [he, stringToNumber_empty] at hf
      exact Bool.noConfusion hf)
    have hfin : (presentValues (first :: rest) col).filter (fun v => (toNumber v).isFinite)
        = [] := by
      rw [List.filter_eq_nil_iff]
      intro v hv
      rw [hpv] at hv
      obtain ⟨row, hrow, rfl⟩ := List.mem_map.mp hv
      obtain ⟨s, hs, hf⟩ := hall row hrow
      rw [hs]
      simp [toNumber, hf]
    have hn : (presentValues (first :: rest) col).length = (first :: rest).length := by
      rw [hpv, List.length_map]
    rw [analyzeColumn_type, hfin, List.length_nil,
      (gt_seven_tenths (presentValues (first :: rest) col).length 0
        (by rw [hn]; exact hlen)).2 (by rw [hn]; omega)]
    rfl

/-- C20 at the dataset `[{a:"1",b:"u"}, {a:"2.5",b:"v"}]`: column `a` holds numeric strings
only and is `numeric`, column `b` holds other strings only and is `categorical`. -/
theorem C20_all_numeric_or_all_text_witness :
    (∃ p info, performBasicAnalysis numericAndTextDataset = some p ∧
      objGet p.columnAnalysis "a" = some info ∧ info.type = .numeric) ∧
    (∃ p info, performBasicAnalysis numericAndTextDataset = some p ∧
      objGet p.columnAnalysis "b" = some info ∧ info.type = .categorical) := by
  constructor
  · obtain ⟨p, info, hp, hget, hnum, _⟩ :=
      C20_all_numeric_or_all_text [("a", .str "1"), ("b", .str "u")]
        [[("a", .str "2.5"), ("b", .str "v")]] "a" (by decide) (by decide)
    refine ⟨p, info, hp, hget, hnum ?_⟩
    intro row hrow
    simp only [List.mem_cons, List.mem_singleton, List.not_mem_nil, or_false] at hrow
    rcases hrow with rfl | rfl
    · exact ⟨"1", by decide, by decide, by decide!⟩
    · exact ⟨"2.5", by decide, by decide, by decide!⟩
  · obtain ⟨p, info, hp, hget, _, hcat⟩ :=
      C20_all_numeric_or_all_text [("a", .str "1"), ("b", .str "u")]
        [[("a", .str "2.5"), ("b", .str "v")]] "b" (by decide) (by decide)
    refine ⟨p, info, hp, hget, hcat ?_⟩
    intro row hrow
    simp only [List.mem_cons, List.mem_singleton, List.not_mem_nil, or_false] at hrow
    rcases hrow with rfl | rfl
    · exact ⟨"u", by decide, by decide!⟩
    · exact ⟨"v", by decide, by decide!⟩

/-! ## Cleaning executor: the whole run -/

/-- The loop over two lists of operations in a row. -/
theorem runOperations_append (analysis : Profile) (ops1 ops2 : List Operation) :
    ∀ st, runOperations analysis st (ops1 ++ ops2)
      = (runOperations analysis st ops1).bind (fun st1 => runOperations analysis st1 ops2) := by
  induction ops1 with
  | nil => intro st; rfl
  | cons op ops1 ih =>
    intro st
    simp only [List.cons_append, runOperations]
    cases h : applyOperation analysis st op with
    | none => rfl
    | some st1 => exact ih st1

/-- The key of an entry of an object reads as some value. -/
theorem objGet_isSome_of_mem {α : Type} (o : Obj α) (e : String × α) (h : e ∈ o) :
    (objGet o e.1).isSome = true := by
  induction o with
  | nil => simp at h
  | cons e1 o ih =>
    obtain ⟨k1, v1⟩ := e1
    by_cases hk : k1 = e.1
    · simp [objGet, hk]
    · rcases List.mem_cons.mp h with he | he
      · rw [he] at hk
        exact absurd rfl hk
      · simp only [objGet, hk, if_false]
        exact ih he

/-- One iteration either throws, on a `fill_numeric` whose column the profile has no entry
for, or changes the rows by the row map of the operation, `remove_duplicates` dropping rows
besides. -/
theorem applyOperation_rows (analysis : Profile) (st : CleaningState) (op : Operation) :
    (fillsProfiled analysis [op] → (applyOperation analysis st op).isSome = true) ∧
    (∀ st1, applyOperation analysis st op = some st1 →
      ∃ sub : Dataset, sub.Sublist st.cleanedData ∧
        st1.cleanedData = sub.map (opRowMap analysis op) ∧
        (op ≠ .remove_duplicates → sub = st.cleanedData)) := by
  cases op with
  | remove_column column =>
    refine ⟨fun _ => rfl, ?_⟩
    intro st1 h
    obtain rfl := Option.some.inj h
    exact ⟨st.cleanedData, List.Sublist.refl _, rfl, fun _ => rfl⟩
  | fill_numeric column strategy value =>
    constructor
    · intro hp
      have := hp column strategy value (List.mem_singleton.mpr rfl)
      cases hg : objGet analysis.columnAnalysis column with
      | none => rw [hg] at this; exact Bool.noConfusion this
      | some info => rw [applyOperation_fill_numeric analysis st column strategy value info hg]; rfl
    · intro st1 h
      cases hg : objGet analysis.columnAnalysis column with
      | none => simp [applyOperation, hg] at h
      | some info =>
        rw [applyOperation_fill_numeric analysis st column strategy value info hg] at h
        obtain rfl := Option.some.inj h
        refine ⟨st.cleanedData, List.Sublist.refl _, ?_, fun _ => rfl⟩
        simp only [opRowMap, hg]
  | fill_categorical column value =>
    refine ⟨fun _ => rfl, ?_⟩
    intro st1 h
    obtain rfl := Option.some.inj h
    exact ⟨st.cleanedData, List.Sublist.refl _, rfl, fun _ => rfl⟩
  | remove_duplicates =>
    refine ⟨fun _ => rfl, ?_⟩
    intro st1 h
    obtain rfl := Option.some.inj h
    exact ⟨removeDuplicates st.cleanedData, removeDuplicates_sublist _,
      (List.map_id _).symm, fun hne => absurd rfl hne⟩
  | clean_numeric column =>
    refine ⟨fun _ => rfl, ?_⟩
    intro st1 h
    obtain rfl := Option.some.inj h
    exact ⟨st.cleanedData, List.Sublist.refl _, rfl, fun _ => rfl⟩

/-- A run whose `fill_numeric` operations are all profiled does not throw. -/
theorem runOperations_isSome (analysis : Profile) (ops : List Operation)
    (h : fillsProfiled analysis ops) :
    ∀ st, (runOperations analysis st ops).isSome = true := by
  induction ops with
  | nil => intro st; rfl
  | cons op ops ih =>
    intro st
    have h1 : fillsProfiled analysis [op] := by
      intro c s v hmem
      rw [List.mem_singleton] at hmem
      exact h c s v (by rw [hmem]; exact List.mem_cons_self _ _)
    have h2 : fillsProfiled analysis ops := fun c s v hmem =>
      h c s v (List.mem_cons_of_mem _ hmem)
    have hsome := (applyOperation_rows analysis st op).1 h1
    simp only [runOperations]
    cases hop : applyOperation analysis st op with
    | none => rw [hop] at hsome; exact Bool.noConfusion hsome
    | some st1 => exact ih h2 st1

/-- The rows a run leaves are the rows of a subsequence of the rows it started from, each
changed by the row maps of the operations; without `remove_duplicates` it is all rows. -/
theorem runOperations_rows (analysis : Profile) (ops : List Operation) :
    ∀ st st1, runOperations analysis st ops = some st1 →
      ∃ sub : Dataset, sub.Sublist st.cleanedData ∧
        st1.cleanedData = sub.map (planRowMap analysis ops) ∧
        (Operation.remove_duplicates ∉ ops → sub = st.cleanedData) := by
  induction ops with
  | nil =>
    intro st st1 h
    obtain rfl := Option.some.inj h
    have hid : planRowMap analysis [] = id := rfl
    exact ⟨st.cleanedData, List.Sublist.refl _, by rw [hid, List.map_id], fun _ => rfl⟩
  | cons op ops ih =>
    intro st st1 h
    simp only [runOperations] at h
    cases hop : applyOperation analysis st op with
    | none => rw [hop] at h; exact Option.noConfusion h
    | some st2 =>
      rw [hop] at h
      obtain ⟨sub1, hsub1, hmap1, hall1⟩ := (applyOperation_rows analysis st op).2 st2 hop
      obtain ⟨sub2, hsub2, hmap2, hall2⟩ := ih st2 st1 h
      rw [hmap1] at hsub2
      obtain ⟨sub3, hsub3, hsub3eq⟩ := List.sublist_map_iff.mp hsub2
      refine ⟨sub3, hsub3.trans hsub1, ?_, ?_⟩
      · rw [hmap2, hsub3eq, List.map_map]
        rfl
      · intro hno
        have hne : op ≠ .remove_duplicates :=
          fun he => hno (by rw [he]; exact List.mem_cons_self _ _)
        have hno2 : Operation.remove_duplicates ∉ ops := fun hm => hno (List.mem_cons_of_mem _ hm)
        have e1 := hall1 hne
        have e2 := hall2 hno2
        rw [hmap1, e1] at e2
        rw [e2] at hsub3eq
        have hlen : sub3.length = st.cleanedData.length := by
          have := congrArg List.length hsub3eq
          simp only [List.length_map] at this
          exact this.symm
        rw [← e1]
        exact (hsub3.eq_of_length (by rw [hlen, e1]))

/-- The plan generated from a profile only fills columns that the profile has an entry
for. -/
theorem generateCleaningPlan_fillsProfiled (analysis : Profile) :
    fillsProfiled analysis (generateCleaningPlan analysis).operations := by
  intro c s v hmem
  rw [mem_generateCleaningPlan] at hmem
  rcases hmem with ⟨e, he, _, heq⟩ | h | ⟨col, _, h⟩
  · have hcol : e.1 = c := by
      have h1 := (planColumn_column e.1 e.2).1
      rw [← heq] at h1
      exact (Option.some.inj h1).symm
    rw [← hcol]
    exact objGet_isSome_of_mem _ e he
  · exact Operation.noConfusion h
  · exact Operation.noConfusion h

/-! ## Profiler: statistics of a column -/

/-- Rounding a non-negative number to an integer gives a non-negative integer. -/
theorem roundHalfEven_nonneg (m : ℚ) (hm : 0 ≤ m) : 0 ≤ roundHalfEven m := by
  have hfl : Rat.floor m = ⌊m⌋ := rfl
  have h0 : 0 ≤ ⌊m⌋ := Int.floor_nonneg.mpr hm
  simp only [roundHalfEven, hfl]
  split_ifs <;> omega

/-- Zero is not greater than the binary64 value of a non-negative rational. -/
theorem not_zero_gt_fl64 (q : ℚ) (hq : 0 ≤ q) : (JSNum.fin 0).gt (fl64 q) = false := by
  rcases eq_or_lt_of_le hq with h0 | hpos
  · rw [← h0]
    simp [fl64, JSNum.gt]
  · have hpow : (0 : ℚ) < (2 : ℚ) ^ (max (ilog2 q) (-1022) - 52) := by positivity
    have hr : (0 : ℚ) ≤ ((roundHalfEven (q / (2 : ℚ) ^ (max (ilog2 q) (-1022) - 52)) : Int) : ℚ) := by
      have := roundHalfEven_nonneg (q / (2 : ℚ) ^ (max (ilog2 q) (-1022) - 52))
        (div_nonneg hq hpow.le)
      exact_mod_cast this
    have hv : (0 : ℚ) ≤ ((roundHalfEven (q / (2 : ℚ) ^ (max (ilog2 q) (-1022) - 52)) : Int) : ℚ)
        * (2 : ℚ) ^ (max (ilog2 q) (-1022) - 52) := mul_nonneg hr hpow.le
    simp only [fl64, ne_of_gt hpos, if_false, abs_of_pos hpos, not_lt.mpr hpos.le]
    split
    · rfl
    · simp [JSNum.gt, not_lt.mpr hv]

/-- A count that is greater than the product `n * 0.7` is positive. -/
theorem pos_of_gt_seven_tenths (n k : Nat)
    (h : (JSNum.ofNat k).gt (fmul (JSNum.ofNat n) (.fin lit07)) = true) : 0 < k := by
  rcases Nat.eq_zero_or_pos k with hk | hk
  · subst hk
    have hq : (0 : ℚ) ≤ (n : ℚ) * lit07 := by
      have h1 : (0 : ℚ) ≤ (n : ℚ) := Nat.cast_nonneg n
      have h2 : (0 : ℚ) ≤ lit07 := by norm_num [lit07]
      exact mul_nonneg h1 h2
    have := not_zero_gt_fl64 _ hq
    simp only [JSNum.ofNat, fmul, Nat.cast_zero] at h
    rw [this] at h
    exact Bool.noConfusion h
  · exact hk

/-- The statistics the loop body stores: a `numeric` column has at least one numeric value
and gets `min`, `max`, `mean` and `median` and no `topValues`; a `categorical` column gets
`topValues` and no numeric statistics. -/
theorem analyzeColumn_stats (data : Dataset) (col : String) :
    ((analyzeColumn data col).type = .numeric →
      0 < (((presentValues data col).map toNumber).filter
          (fun val => !val.isNaN && val.isFinite)).length ∧
      (analyzeColumn data col).min = .num (mathMin (((presentValues data col).map toNumber).filter
          (fun val => !val.isNaN && val.isFinite))) ∧
      (analyzeColumn data col).max = .num (mathMax (((presentValues data col).map toNumber).filter
          (fun val => !val.isNaN && val.isFinite))) ∧
      (analyzeColumn data col).mean = .str (toFixed
        (fdiv ((((presentValues data col).map toNumber).filter
            (fun val => !val.isNaN && val.isFinite)).foldl fadd (.fin 0))
          (JSNum.ofNat (((presentValues data col).map toNumber).filter
            (fun val => !val.isNaN && val.isFinite)).length)) 2) ∧
      (analyzeColumn data col).median = .num (calculateMedian
        (((presentValues data col).map toNumber).filter
          (fun val => !val.isNaN && val.isFinite))) ∧
      (analyzeColumn data col).topValues = none) ∧
    ((analyzeColumn data col).type = .categorical →
      (analyzeColumn data col).topValues = some (topValuesOf (presentValues data col)) ∧
      (analyzeColumn data col).min = .undefined ∧ (analyzeColumn data col).max = .undefined ∧
      (analyzeColumn data col).mean = .undefined ∧
      (analyzeColumn data col).median = .undefined) := by
  have htype := analyzeColumn_type data col
  by_cases hnum : (JSNum.ofNat (((presentValues data col).map toNumber).filter
      (fun val => !val.isNaN && val.isFinite)).length).gt
      (fmul (JSNum.ofNat (presentValues data col).length) (.fin lit07)) = true
  · have hk := pos_of_gt_seven_tenths _ _ hnum
    have ht : (analyzeColumn data col).type = .numeric := by
      rw [htype, ← numericValues_length, hnum]
      rfl
    constructor
    · intro _
      refine ⟨hk, ?_⟩
      simp only [analyzeColumn, presentValues] at hnum hk ⊢
      simp only [hnum, hk, decide_True, Bool.and_self, if_true]
      trivial
    · intro hc
      rw [ht] at hc
      exact ColType.noConfusion hc
  · have hfalse : (JSNum.ofNat (((presentValues data col).map toNumber).filter
        (fun val => !val.isNaN && val.isFinite)).length).gt
        (fmul (JSNum.ofNat (presentValues data col).length) (.fin lit07)) = false := by
      simpa using hnum
    have ht : (analyzeColumn data col).type = .categorical := by
      rw [htype, ← numericValues_length, hfalse]
      rfl
    constructor
    · intro hc
      rw [ht] at hc
      exact ColType.noConfusion hc
    · intro _
      simp only [analyzeColumn, presentValues] at hfalse ⊢
      simp only [hfalse, Bool.false_and, Bool.false_eq_true, if_false]
      trivial

/-- An entry of an object after a write is the written entry or an entry from before. -/
theorem mem_objSet {α : Type} (o : Obj α) (k : String) (v : α) (e : String × α)
    (h : e ∈ objSet o k v) : e = (k, v) ∨ e ∈ o := by
  have hrep : ∀ o : Obj α, e ∈ objReplace o k v → e = (k, v) ∨ e ∈ o := by
    intro o
    induction o with
    | nil => intro h; simp [objReplace] at h
    | cons e1 o ih =>
      obtain ⟨k1, v1⟩ := e1
      intro h
      by_cases hk : k1 = k
      · simp only [objReplace, hk, if_true] at h
        rcases List.mem_cons.mp h with h | h
        · exact Or.inl h
        · exact Or.inr (List.mem_cons_of_mem _ h)
      · simp only [objReplace, hk, if_false] at h
        rcases List.mem_cons.mp h with h | h
        · exact Or.inr (by rw [h]; exact List.mem_cons_self _ _)
        · rcases ih h with h | h
          · exact Or.inl h
          · exact Or.inr (List.mem_cons_of_mem _ h)
  have hins : ∀ o : Obj α, e ∈ objInsertNew o k v → e = (k, v) ∨ e ∈ o := by
    intro o
    induction o with
    | nil =>
      intro h
      simp only [objInsertNew, List.mem_singleton] at h
      exact Or.inl h
    | cons e1 o ih =>
      obtain ⟨k1, v1⟩ := e1
      intro h
      by_cases hb : keyBefore k k1 = true
      · simp only [objInsertNew, hb, if_true] at h
        rcases List.mem_cons.mp h with h | h
        · exact Or.inl h
        · exact Or.inr h
      · simp only [objInsertNew, hb, if_false] at h
        rcases List.mem_cons.mp h with h | h
        · exact Or.inr (by rw [h]; exact List.mem_cons_self _ _)
        · rcases ih h with h | h
          · exact Or.inl h
          · exact Or.inr (List.mem_cons_of_mem _ h)
  unfold objSet at h
  split at h
  · exact hrep o h
  · exact hins o h

/-- Every entry of the `columnAnalysis` of a dataset is the entry the loop body computes for
a column of the first row. -/
theorem performBasicAnalysis_entry (first : Row) (rest : Dataset) (p : Profile)
    (hp : performBasicAnalysis (first :: rest) = some p) :
    ∀ e ∈ p.columnAnalysis, e.1 ∈ objKeys first ∧ e.2 = analyzeColumn (first :: rest) e.1 := by
  have hfold : ∀ (cols : List String) (acc : Obj ColumnProfile),
      (∀ e ∈ acc, e.1 ∈ objKeys first ∧ e.2 = analyzeColumn (first :: rest) e.1) →
      (∀ c ∈ cols, c ∈ objKeys first) →
      ∀ e ∈ cols.foldl (fun acc col => objSet acc col (analyzeColumn (first :: rest) col)) acc,
        e.1 ∈ objKeys first ∧ e.2 = analyzeColumn (first :: rest) e.1 := by
    intro cols
    induction cols with
    | nil => intro acc hacc _ e he; exact hacc e he
    | cons col cols ih =>
      intro acc hacc hcols e he
      rw [List.foldl_cons] at he
      refine ih _ ?_ (fun c hc => hcols c (List.mem_cons_of_mem _ hc)) e he
      intro e1 he1
      rcases mem_objSet _ _ _ _ he1 with h | h
      · rw [h]
        exact ⟨hcols col (List.mem_cons_self _ _), rfl⟩
      · exact hacc e1 h
  have hca : p.columnAnalysis = (objKeys first).foldl
      (fun acc col => objSet acc col (analyzeColumn (first :: rest) col)) [] := by
    have := Option.some.inj hp
    rw [← this]
  rw [hca]
  exact hfold (objKeys first) [] (fun e he => absurd he (List.not_mem_nil e)) (fun c hc => hc)

/-- The column of a dataset whose every cell is missing has no non-missing value. -/
theorem presentValues_eq_nil (data : Dataset) (col : String)
    (h : ∀ row ∈ data, isPresent (rowGet row col) = false) : presentValues data col = [] := by
  simp only [presentValues]
  rw [List.filter_eq_nil_iff]
  intro v hv
  obtain ⟨row, hrow, rfl⟩ := List.mem_map.mp hv
  rw [h row hrow]
  exact Bool.noConfusion

/-- No count is greater than the product `0 * 0.7`. -/
theorem not_gt_of_no_values :
    (JSNum.ofNat 0).gt (fmul (JSNum.ofNat 0) (.fin lit07)) = false := by
  decide!

/-- C21. For a non-empty dataset and a column `col` of its first row in which every value is
`null`, `undefined` or the empty string, the profile entry has `nonNullCount = 0`, type
`categorical`, and the empty list as `topValues`. -/
theorem C21_all_missing_column (first : Row) (rest : Dataset) (col : String)
    (hcol : col ∈ objKeys first)
    (hall : ∀ row ∈ first :: rest, isPresent (rowGet row col) = false) :
    ∃ p info, performBasicAnalysis (first :: rest) = some p ∧
      objGet p.columnAnalysis col = some info ∧
      info.nonNullCount = 0 ∧ info.type = .categorical ∧ info.topValues = some [] := by
  obtain ⟨p, hp, hget⟩ := performBasicAnalysis_columnAnalysis first rest col hcol
  have hnil := presentValues_eq_nil (first :: rest) col hall
  have hcat : (analyzeColumn (first :: rest) col).type = .categorical := by
    rw [analyzeColumn_type, hnil]
    simp [not_gt_of_no_values]
  refine ⟨p, _, hp, hget, ?_, hcat, ?_⟩
  · rw [(analyzeColumn_counts (first :: rest) col).2.1, hnil]
    rfl
  · rw [((analyzeColumn_stats (first :: rest) col).2 hcat).1, hnil]
    rfl

/-- C21 at the dataset `[{c:null}]`. -/
theorem C21_all_missing_column_witness :
    ∃ p info, performBasicAnalysis allNullDataset = some p ∧
      objGet p.columnAnalysis "c" = some info ∧
      info.nonNullCount = 0 ∧ info.type = .categorical ∧ info.topValues = some [] :=
  C21_all_missing_column [("c", .null)] [] "c" (by decide) (by decide)

/-- C22. For every profile, so for the profile of every non-empty dataset,
`generateCleaningPlan` yields a plan and `performDataCleaning` with that profile and its plan
returns a dataset (it does not throw), for every dataset it is applied to; so it does on a
dataset whose rows lack the columns of the profile. -/
theorem C22_plan_and_run_never_raise (analysis : Profile) (data : Dataset) :
    (∃ cleaned, performDataCleaning data analysis (generateCleaningPlan analysis)
      = some cleaned) ∧
    (∀ (first : Row) (rest : Dataset), ∃ p, performBasicAnalysis (first :: rest) = some p ∧
      ∃ cleaned, performDataCleaning data p (generateCleaningPlan p) = some cleaned) ∧
    performDataCleaning otherColumnsDataset pipelineProfile
        (generateCleaningPlan pipelineProfile)
      = some [[("z", .num (.fin 1)), ("x", .num (.fin 2)), ("y", .str "a")]] := by
  have hrun : ∀ a : Profile, ∃ cleaned,
      performDataCleaning data a (generateCleaningPlan a) = some cleaned := by
    intro a
    have h := runOperations_isSome a (generateCleaningPlan a).operations
      (generateCleaningPlan_fillsProfiled a) { cleanedData := data, operationResults := [] }
    cases hr : runOperations a { cleanedData := data, operationResults := [] }
        (generateCleaningPlan a).operations with
    | none => rw [hr] at h; exact Bool.noConfusion h
    | some st => exact ⟨st.cleanedData, by simp [performDataCleaning, hr]⟩
  refine ⟨hrun analysis, ?_, by decide!⟩
  intro first rest
  exact ⟨_, rfl, hrun _⟩

/-- A `fill_numeric` is planned for numeric columns only and carries the stored mean or the
stored median. -/
theorem planColumn_fill_numeric_value (col : String) (info : ColumnProfile) (c : String)
    (s : Strategy) (v : Value) (h : planColumn col info = .fill_numeric c s v) :
    info.type = .numeric ∧ (v = info.mean ∨ v = info.median) := by
  by_cases h80 : (parseFloat info.nullPercentage).gt (.fin 80) = true
  · simp [planColumn, h80] at h
  · by_cases htype : info.type = .numeric
    · by_cases h30 : (parseFloat info.nullPercentage).gt (.fin 30) = true
      · simp only [planColumn, h80, htype, h30, if_true, if_false, strategyValue] at h
        injection h with _ _ hv
        exact ⟨htype, Or.inr hv.symm⟩
      · simp only [planColumn, h80, htype, h30, if_true, if_false, strategyValue] at h
        injection h with _ _ hv
        exact ⟨htype, Or.inl hv.symm⟩
    · simp [planColumn, h80, htype] at h

/-- C28. For a non-empty dataset and a column `col` of its first row: if the column is
classified `numeric`, at least one of its non-missing values coerces to a finite number, its
`min`, `max`, `mean` and `median` are defined and it has no `topValues`; if it is classified
`categorical`, its `topValues` are defined.  Every `fill_numeric` operation of the plan
generated from the profile carries a defined value. -/
theorem C28_statistics_defined (first : Row) (rest : Dataset) (col : String)
    (hcol : col ∈ objKeys first) :
    ∃ p info, performBasicAnalysis (first :: rest) = some p ∧
      objGet p.columnAnalysis col = some info ∧
      (info.type = .numeric →
        0 < ((presentValues (first :: rest) col).filter
          (fun v => (toNumber v).isFinite)).length ∧
        info.min ≠ .undefined ∧ info.max ≠ .undefined ∧ info.mean ≠ .undefined ∧
        info.median ≠ .undefined ∧ info.topValues = none) ∧
      (info.type = .categorical → info.topValues.isSome = true) ∧
      (∀ c s v, Operation.fill_numeric c s v ∈ (generateCleaningPlan p).operations →
        v ≠ .undefined) := by
  obtain ⟨p, hp, hget⟩ := performBasicAnalysis_columnAnalysis first rest col hcol
  have hdef : ∀ c, (analyzeColumn (first :: rest) c).type = .numeric →
      (analyzeColumn (first :: rest) c).min ≠ .undefined ∧
      (analyzeColumn (first :: rest) c).max ≠ .undefined ∧
      (analyzeColumn (first :: rest) c).mean ≠ .undefined ∧
      (analyzeColumn (first :: rest) c).median ≠ .undefined := by
    intro c hc
    obtain ⟨_, h1, h2, h3, h4, _⟩ := (analyzeColumn_stats (first :: rest) c).1 hc
    rw [h1, h2, h3, h4]
    exact ⟨Value.noConfusion, Value.noConfusion, Value.noConfusion, Value.noConfusion⟩
  refine ⟨p, _, hp, hget, ?_, ?_, ?_⟩
  · intro hnum
    obtain ⟨hk, _, _, _, _, htop⟩ := (analyzeColumn_stats (first :: rest) col).1 hnum
    rw [numericValues_length] at hk
    obtain ⟨h1, h2, h3, h4⟩ := hdef col hnum
    exact ⟨hk, h1, h2, h3, h4, htop⟩
  · intro hcat
    rw [((analyzeColumn_stats (first :: rest) col).2 hcat).1]
    rfl
  · intro c s v hmem
    rw [mem_generateCleaningPlan] at hmem
    rcases hmem with ⟨e, he, _, heq⟩ | h | ⟨c1, _, h⟩
    · obtain ⟨_, he2⟩ := performBasicAnalysis_entry first rest p hp e he
      obtain ⟨htype, hval⟩ := planColumn_fill_numeric_value e.1 e.2 c s v heq.symm
      have htype2 : (analyzeColumn (first :: rest) e.1).type = .numeric := by
        rw [← he2]
        exact htype
      obtain ⟨_, _, h3, h4⟩ := hdef e.1 htype2
      rcases hval with hval | hval
      · rw [hval, he2]
        exact h3
      · rw [hval, he2]
        exact h4
    · exact Operation.noConfusion h
    · exact Operation.noConfusion h

/-- C28 at column `x` of the dataset `[{x:"1",y:"a"}, {x:"",y:"a"}, {x:"3",y:null}]`. -/
theorem C28_statistics_defined_witness :
    ∃ p info, performBasicAnalysis pipelineDataset = some p ∧
      objGet p.columnAnalysis "x" = some info ∧
      (info.type = .numeric → info.median ≠ .undefined ∧ info.topValues = none) := by
  obtain ⟨p, info, hp, hget, hnum, _, _⟩ :=
    C28_statistics_defined [("x", .str "1"), ("y", .str "a")]
      [[("x", .str ""), ("y", .str "a")], [("x", .str "3"), ("y", .null)]] "x" (by decide)
  exact ⟨p, info, hp, hget, fun h => ⟨(hnum h).2.2.2.2.1, (hnum h).2.2.2.2.2⟩⟩

/-- C29. The dataset that `performDataCleaning` returns has at most as many rows as the
input; its rows are the rows of a subsequence of the input, in the original order, each
changed by the row maps of the operations of the plan; if the plan has no `remove_duplicates`
operation, it is all rows and the row count is unchanged. -/
theorem C29_rows_are_subsequence (data : Dataset) (analysis : Profile) (plan : CleaningPlan)
    (cleaned : Dataset) (h : performDataCleaning data analysis plan = some cleaned) :
    cleaned.length ≤ data.length ∧
    (∃ sub : Dataset, sub.Sublist data ∧
      cleaned = sub.map (planRowMap analysis plan.operations)) ∧
    (Operation.remove_duplicates ∉ plan.operations →
      cleaned.length = data.length ∧
      cleaned = data.map (planRowMap analysis plan.operations)) := by
  simp only [performDataCleaning] at h
  cases hr : runOperations analysis { cleanedData := data, operationResults := [] }
      plan.operations with
  | none => rw [hr] at h; exact Option.noConfusion h
  | some st1 =>
    rw [hr] at h
    obtain rfl := Option.some.inj h
    obtain ⟨sub, hsub, hmap, hall⟩ := runOperations_rows analysis plan.operations _ st1 hr
    refine ⟨?_, ⟨sub, hsub, hmap⟩, ?_⟩
    · show st1.cleanedData.length ≤ data.length
      rw [hmap, List.length_map]
      exact hsub.length_le
    · intro hno
      have hs : sub = data := hall hno
      show st1.cleanedData.length = data.length ∧ st1.cleanedData = _
      rw [hmap, hs, List.length_map]
      exact ⟨rfl, rfl⟩

/-- C29 at the run of the example pipeline. -/
theorem C29_rows_are_subsequence_witness :
    ([[("x", .num (.fin 1)), ("y", .str "a")], [("x", .num (.fin 0)), ("y", .str "a")],
      [("x", .num (.fin 3)), ("y", .str "a")]] : Dataset).length ≤ pipelineDataset.length :=
  (C29_rows_are_subsequence pipelineDataset pipelineProfile
    (generateCleaningPlan pipelineProfile) _ (by decide!)).1

/-! ## Profiler: the most frequent values -/

/-- The counting object of a column counts the string forms of its values. -/
theorem tally_append_singleton (ks : List String) (k : String) :
    tally (ks ++ [k]) = objSet (tally ks) k ((objGet (tally ks) k).getD 0 + 1) := by
  simp only [tally, List.foldl_append, List.foldl_cons, List.foldl_nil]

/-- The counting object holds, for each key that occurs, the number of its occurrences. -/
theorem objGet_tally (ks : List String) :
    ∀ k, objGet (tally ks) k = if k ∈ ks then some (ks.count k) else none := by
  induction ks using List.reverseRecOn with
  | nil => intro k; rfl
  | append_singleton ks k1 ih =>
    intro k
    rw [tally_append_singleton]
    by_cases hk : k = k1
    · subst hk
      rw [objGet_objSet_self, ih k]
      by_cases hmem : k ∈ ks
      · simp [hmem, List.count_append]
      · simp [hmem, List.count_append, List.count_eq_zero_of_not_mem hmem]
    · rw [objGet_objSet_ne _ _ _ _ hk, ih k]
      have hne : ¬ k1 = k := fun h => hk h.symm
      by_cases hmem : k ∈ ks
      · simp [hmem, List.count_append, hk, hne]
      · simp [hmem, hk]

/-- An entry of the counting object is a key that occurs, with the number of its
occurrences, which is positive. -/
theorem mem_tally (ks : List String) (e : String × Nat) (h : e ∈ tally ks) :
    e.1 ∈ ks ∧ 0 < ks.count e.1 := by
  have hsome := objGet_isSome_of_mem _ e h
  rw [objGet_tally] at hsome
  by_cases hmem : e.1 ∈ ks
  · exact ⟨hmem, List.count_pos_iff.mpr hmem⟩
  · simp [hmem] at hsome

/-- The counting object of a non-empty list of keys has an entry. -/
theorem tally_ne_nil (ks : List String) (h : ks ≠ []) : tally ks ≠ [] := by
  cases ks with
  | nil => exact absurd rfl h
  | cons k ks =>
    intro hnil
    have := objGet_tally (k :: ks) k
    rw [hnil] at this
    simp [objGet] at this

/-- The digits of a natural number are at least one. -/
theorem natRepr_ne_nil (n : Nat) : natRepr n ≠ [] := by
  have h : ∀ (fuel n : Nat) (ds : List Char), Nat.toDigitsCore 10 fuel n ds = [] → ds = [] := by
    intro fuel
    induction fuel with
    | zero => intro n ds h; simpa [Nat.toDigitsCore] using h
    | succ fuel ih =>
      intro n ds h
      simp only [Nat.toDigitsCore] at h
      split at h
      · exact absurd h (List.cons_ne_nil _ _)
      · exact absurd (ih _ _ h) (List.cons_ne_nil _ _)
  intro hnil
  simp only [natRepr, Nat.toDigits, Nat.toDigitsCore] at hnil
  split at hnil
  · exact absurd hnil (List.cons_ne_nil _ _)
  · exact absurd (h _ _ _ hnil) (List.cons_ne_nil _ _)

/-- The layout of at least one digit is not empty. -/
theorem layoutDigits_ne_nil (ds : List Char) (n : Int) (h : ds ≠ []) :
    layoutDigits ds n ≠ [] := by
  simp only [layoutDigits]
  split_ifs
  · exact List.append_ne_nil_of_left_ne_nil h _
  · exact List.append_ne_nil_of_right_ne_nil _ (List.cons_ne_nil _ _)
  · exact List.cons_ne_nil _ _
  · cases ds with
    | nil => exact absurd rfl h
    | cons d rest =>
      cases rest with
      | nil => exact List.cons_ne_nil _ _
      | cons r rest => exact List.cons_ne_nil _ _
  · cases ds with
    | nil => exact absurd rfl h
    | cons d rest =>
      cases rest with
      | nil => exact List.cons_ne_nil _ _
      | cons r rest => exact List.cons_ne_nil _ _

/-- The string form of a number is not the empty string. -/
theorem numToString_ne_empty (x : JSNum) : numToString x ≠ "" := by
  have hmk : ∀ l : List Char, l ≠ [] → String.mk l ≠ "" := by
    intro l hl h
    exact hl (congrArg String.data h)
  cases x with
  | nan => decide
  | posInf => decide
  | negInf => decide
  | fin q =>
    simp only [numToString]
    split_ifs
    · decide
    · exact hmk _ (List.cons_ne_nil _ _)
    · exact hmk _ (layoutDigits_ne_nil _ _ (natRepr_ne_nil _))

/-- The string form of a non-missing value is not the empty string. -/
theorem toStr_ne_empty (v : Value) (h : isPresent v = true) : toStr v ≠ "" := by
  cases v with
  | null => simp [isPresent, isNullish] at h
  | undefined => simp [isPresent, isNullish] at h
  | bool b => cases b <;> decide
  | num n => exact numToString_ne_empty n
  | str s =>
    simp only [isPresent, isNullish, Bool.not_false, Bool.true_and, decide_eq_true_eq] at h
    intro hs
    exact h (by rw [show toStr (Value.str s) = s from rfl] at hs; rw [hs])

/-- The non-missing values of a column are present values of cells of the column. -/
theorem mem_presentValues (data : Dataset) (col : String) (x : Value)
    (h : x ∈ presentValues data col) :
    isPresent x = true ∧ ∃ row ∈ data, rowGet row col = x := by
  simp only [presentValues, List.mem_filter, List.mem_map] at h
  obtain ⟨⟨row, hrow, hx⟩, hp⟩ := h
  exact ⟨hp, row, hrow, hx⟩

/-- The percentage text of a column that is missing in all rows. -/
theorem toFixed_all_missing :
    toFixed (fmul (fl64 1) (.fin 100)) 1 = "100.0" ∧
    (parseFloat "100.0").gt (.fin 80) = true := by
  decide!

/-- A column without non-missing values has `nullPercentage` `"100.0"`. -/
theorem nullPercentage_all_missing (first : Row) (rest : Dataset) (col : String)
    (h : presentValues (first :: rest) col = []) :
    (analyzeColumn (first :: rest) col).nullPercentage = "100.0" ∧
    0 < (analyzeColumn (first :: rest) col).nullCount := by
  obtain ⟨_, _, hnull, _, hnp, _⟩ := analyzeColumn_counts (first :: rest) col
  rw [hnp, hnull, h]
  have hlen : ((first :: rest).length : ℚ) ≠ 0 := by
    have hn : (first :: rest).length ≠ 0 := by simp
    exact_mod_cast hn
  have hdiv : fdiv (JSNum.ofNat ((first :: rest).length - ([] : List Value).length))
      (JSNum.ofNat (first :: rest).length) = fl64 1 := by
    simp only [List.length_nil, Nat.sub_zero, JSNum.ofNat, fdiv, hlen, if_false]
    rw [div_self hlen]
  rw [hdiv]
  exact ⟨toFixed_all_missing.1, by simp⟩

/-- A `fill_categorical` is planned for columns that are not numeric and not mostly missing,
and carries the first of the most frequent values or `"Unknown"`. -/
theorem planColumn_fill_categorical_value (col : String) (info : ColumnProfile) (c : String)
    (v : Value) (h : planColumn col info = .fill_categorical c v) :
    c = col ∧ info.type = .categorical ∧
    (parseFloat info.nullPercentage).gt (.fin 80) = false ∧
    v = logicalOr (firstTopValue info) (.str "Unknown") := by
  by_cases h80 : (parseFloat info.nullPercentage).gt (.fin 80) = true
  · simp [planColumn, h80] at h
  · by_cases htype : info.type = .numeric
    · simp [planColumn, h80, htype] at h
    · simp only [planColumn, h80, htype, if_false] at h
      injection h with hc hv
      refine ⟨hc.symm, ?_, by simpa using h80, hv.symm⟩
      cases ht : info.type with
      | numeric => exact absurd ht htype
      | categorical => rfl


/-- Reading a key of an object whose values have been mapped. -/
theorem objGet_map {α β : Type} (f : α → β) (o : Obj α) (k : String) :
    objGet (o.map (fun e => (e.1, f e.2))) k = (objGet o k).map f := by
  induction o with
  | nil => rfl
  | cons e o ih =>
    obtain ⟨k1, v1⟩ := e
    by_cases hk : k1 = k
    · simp [objGet, hk]
    · simp only [List.map_cons, objGet, hk, if_false]
      exact ih

/-- Overwriting a key commutes with mapping the values. -/
theorem objReplace_map {α β : Type} (f : α → β) (o : Obj α) (k : String) (v : α) :
    objReplace (o.map (fun e => (e.1, f e.2))) k (f v)
      = (objReplace o k v).map (fun e => (e.1, f e.2)) := by
  induction o with
  | nil => rfl
  | cons e o ih =>
    obtain ⟨k1, v1⟩ := e
    by_cases hk : k1 = k
    · simp [objReplace, hk]
    · simp only [List.map_cons, objReplace, hk, if_false]
      rw [ih]

/-- Creating a key commutes with mapping the values. -/
theorem objInsertNew_map {α β : Type} (f : α → β) (o : Obj α) (k : String) (v : α) :
    objInsertNew (o.map (fun e => (e.1, f e.2))) k (f v)
      = (objInsertNew o k v).map (fun e => (e.1, f e.2)) := by
  induction o with
  | nil => rfl
  | cons e o ih =>
    obtain ⟨k1, v1⟩ := e
    by_cases hb : keyBefore k k1 = true
    · simp [objInsertNew, hb]
    · have hbf : keyBefore k k1 = false := by simpa using hb
      simp only [List.map_cons, objInsertNew, hbf, Bool.false_eq_true, if_false]
      rw [ih]

/-- Writing a key commutes with mapping the values. -/
theorem objSet_map {α β : Type} (f : α → β) (o : Obj α) (k : String) (v : α) :
    objSet (o.map (fun e => (e.1, f e.2))) k (f v)
      = (objSet o k v).map (fun e => (e.1, f e.2)) := by
  simp only [objSet, objGet_map, Option.isSome_map']
  split
  · exact objReplace_map f o k v
  · exact objInsertNew_map f o k v

/-- The counting object of the values is that of their property keys. -/
theorem valueCounts_eq_countKeys (values : List Value) :
    valueCounts values = countKeys (values.map toStr) := by
  simp only [valueCounts, countKeys, List.foldl_map]

/-- Counting one more key. -/
theorem countKeys_append_singleton (ks : List String) (k : String) :
    countKeys (ks ++ [k]) = countStep (countKeys ks) k := by
  simp only [countKeys, List.foldl_append, List.foldl_cons, List.foldl_nil]

/-- One step of the count either leaves the object, which happens for the key `__proto__`
only, or writes the key. -/
theorem countStep_cases (acc : Obj Count) (k : String) :
    (countStep acc k = acc ∧ k = "__proto__" ∧ objGet acc k = none) ∨
    (∃ v, countStep acc k = objSet acc k v ∧ (k ≠ "__proto__" ∨ (objGet acc k).isSome = true)) := by
  cases hg : objGet acc k with
  | some c =>
    right
    exact ⟨c.succ, by simp only [countStep, hg], Or.inr rfl⟩
  | none =>
    by_cases hp : k = "__proto__"
    · left
      refine ⟨?_, hp, rfl⟩
      simp only [countStep, hg]
      rw [if_pos hp]
    · right
      by_cases hf : k ∈ objectPrototypeFunctions
      · exact ⟨.text k 1, by simp only [countStep, hg, hp, hf, if_true, if_false], Or.inl hp⟩
      · exact ⟨.number 1, by simp only [countStep, hg, hp, hf, if_false], Or.inl hp⟩

/-- The keys of the counting object are the keys counted, but for `__proto__`, which never
becomes a key. -/
theorem objGet_countKeys_isSome (ks : List String) :
    ∀ k, (objGet (countKeys ks) k).isSome = true ↔ k ∈ ks ∧ k ≠ "__proto__" := by
  induction ks using List.reverseRecOn with
  | nil =>
    intro k
    simp [countKeys, objGet]
  | append_singleton ks k1 ih =>
    intro k
    rw [countKeys_append_singleton, List.mem_append, List.mem_singleton]
    rcases countStep_cases (countKeys ks) k1 with ⟨hsame, hp, _⟩ | ⟨v, hset, hor⟩
    · rw [hsame, ih k]
      constructor
      · rintro ⟨hk, hne⟩
        exact ⟨Or.inl hk, hne⟩
      · rintro ⟨hk | hk, hne⟩
        · exact ⟨hk, hne⟩
        · exact absurd (hk.trans hp) hne
    · have hk1 : k1 ≠ "__proto__" := by
        rcases hor with h | h
        · exact h
        · exact ((ih k1).mp h).2
      rw [hset]
      by_cases hk : k = k1
      · subst hk
        rw [objGet_objSet_self]
        simp [hk1]
      · rw [objGet_objSet_ne _ _ _ _ hk, ih k]
        constructor
        · rintro ⟨hm, hne⟩
          exact ⟨Or.inl hm, hne⟩
        · rintro ⟨hm | hm, hne⟩
          · exact ⟨hm, hne⟩
          · exact absurd hm hk

/-- A key of the counting object is the string form of one of the values. -/
theorem mem_valueCounts (values : List Value) (e : String × Count)
    (h : e ∈ valueCounts values) : ∃ x ∈ values, toStr x = e.1 := by
  rw [valueCounts_eq_countKeys] at h
  have hsome := objGet_isSome_of_mem _ e h
  have hk := ((objGet_countKeys_isSome _ e.1).mp hsome).1
  exact List.mem_map.mp hk

/-- The counting object is not empty when a value has another string form than
`__proto__`. -/
theorem valueCounts_ne_nil (values : List Value)
    (h : ∃ x ∈ values, toStr x ≠ "__proto__") : valueCounts values ≠ [] := by
  obtain ⟨x, hx, hne⟩ := h
  rw [valueCounts_eq_countKeys]
  intro hnil
  have hsome := (objGet_countKeys_isSome (values.map toStr) (toStr x)).mpr
    ⟨List.mem_map_of_mem _ hx, hne⟩
  rw [hnil] at hsome
  exact Bool.noConfusion hsome

/-- When no key counted is inherited from `Object.prototype`, the counting object is the plain
tally of the keys, every count a number. -/
theorem countKeys_eq_tally (ks : List String) (h : ∀ k ∈ ks, inheritedKey k = false) :
    countKeys ks = (tally ks).map (fun e => (e.1, Count.number e.2)) := by
  induction ks using List.reverseRecOn with
  | nil => rfl
  | append_singleton ks k1 ih =>
    have hks : ∀ k ∈ ks, inheritedKey k = false := fun k hk =>
      h k (List.mem_append_left _ hk)
    have hk1 := h k1 (List.mem_append_right _ (List.mem_singleton_self _))
    simp only [inheritedKey, Bool.or_eq_false_iff, decide_eq_false_iff_not] at hk1
    rw [countKeys_append_singleton, ih hks, tally_append_singleton]
    cases hg : objGet (tally ks) k1 with
    | none =>
      have hstep : countStep ((tally ks).map (fun e => (e.1, Count.number e.2))) k1
          = objSet ((tally ks).map (fun e => (e.1, Count.number e.2))) k1 (Count.number 1) := by
        simp only [countStep, objGet_map, hg, Option.map_none', hk1.1, hk1.2, if_false]
      rw [hstep]
      exact objSet_map Count.number (tally ks) k1 1
    | some n =>
      have hstep : countStep ((tally ks).map (fun e => (e.1, Count.number e.2))) k1
          = objSet ((tally ks).map (fun e => (e.1, Count.number e.2))) k1
              (Count.number (n + 1)) := by
        simp only [countStep, objGet_map, hg, Option.map_some', Count.succ]
      rw [hstep]
      exact objSet_map Count.number (tally ks) k1 (n + 1)

/-- The most frequent values start with the string form of one of the values, when a value
has another string form than `__proto__`. -/
theorem topValuesOf_head (values : List Value) (h : ∃ x ∈ values, toStr x ≠ "__proto__") :
    ∃ k n more, topValuesOf values = (k, n) :: more ∧ ∃ x ∈ values, toStr x = k := by
  have hne := valueCounts_ne_nil values h
  have hperm := List.perm_insertionSort (fun x y : String × Count => y.2.subNotPos x.2 = true)
    (valueCounts values)
  cases hs : (valueCounts values).insertionSort (fun x y => y.2.subNotPos x.2 = true) with
  | nil =>
    rw [hs] at hperm
    exact absurd (List.perm_nil.mp hperm.symm) hne
  | cons e more =>
    have hmem : e ∈ valueCounts values := by
      apply hperm.mem_iff.mp
      rw [hs]
      exact List.mem_cons_self _ _
    obtain ⟨x, hx, hxe⟩ := mem_valueCounts values e hmem
    refine ⟨e.1, e.2, more.take 4, ?_, x, hx, hxe⟩
    simp only [topValuesOf, hs]
    rfl

/-- C27. At the dataset `[{c:"__proto__"},{c:null}]` the counting of the column `c` creates
no key: the read `acc["__proto__"]` finds the prototype and the write goes to the inherited
setter. So `topValues` is empty although the column has a value and is half missing, and the
plan fills with the fallback `"Unknown"`, which the cleaned dataset then holds. For every
non-empty dataset, a `fill_categorical` operation of the plan whose column has a non-missing
value with another string form than `__proto__` carries the key of the first entry of the
column's `topValues`, which is the string form of a non-missing value of a cell of that
column, and is truthy; and a column without non-missing values has `nullPercentage` `"100.0"`
and gets a `remove_column` operation. -/
theorem C27_unknown_for_proto_values :
    (performBasicAnalysis protoValueDataset).bind
        (fun p => (objGet p.columnAnalysis "c").map
          (fun info => (info.type, info.nullPercentage, info.topValues)))
      = some (ColType.categorical, "50.0", some []) ∧
    (performBasicAnalysis protoValueDataset).map
        (fun p => (generateCleaningPlan p).operations)
      = some [.fill_categorical "c" (.str "Unknown"), .remove_duplicates] ∧
    (performBasicAnalysis protoValueDataset).bind
        (fun p => performDataCleaning protoValueDataset p (generateCleaningPlan p))
      = some [[("c", .str "__proto__")], [("c", .str "Unknown")]] ∧
    (∀ (first : Row) (rest : Dataset),
      ∃ p, performBasicAnalysis (first :: rest) = some p ∧
        (∀ c v, Operation.fill_categorical c v ∈ (generateCleaningPlan p).operations →
          (∃ x ∈ presentValues (first :: rest) c, toStr x ≠ "__proto__") →
          ∃ info k n more x row,
            (c, info) ∈ p.columnAnalysis ∧
            info.topValues = some ((k, n) :: more) ∧
            v = .str k ∧ firstTopValue info = .str k ∧
            toBoolean (firstTopValue info) = true ∧
            row ∈ first :: rest ∧ rowGet row c = x ∧ isPresent x = true ∧ toStr x = k) ∧
        (∀ e ∈ p.columnAnalysis, presentValues (first :: rest) e.1 = [] →
          e.2.nullPercentage = "100.0" ∧
          planColumn e.1 e.2 = .remove_column e.1 ∧
          Operation.remove_column e.1 ∈ (generateCleaningPlan p).operations)) := by
  refine ⟨by decide!, by decide!, by decide!, ?_⟩
  intro first rest
  refine ⟨_, rfl, ?_, ?_⟩
  · intro c v hmem hval
    rcases (mem_generateCleaningPlan _ _).mp hmem with ⟨e, he, _, hop⟩ | hop | ⟨col, _, hop⟩
    · obtain ⟨hc, hcat, _, hv⟩ := planColumn_fill_categorical_value e.1 e.2 c v hop.symm
      obtain ⟨_, hinfo⟩ := performBasicAnalysis_entry first rest _ rfl e he
      have htop : e.2.topValues = some (topValuesOf (presentValues (first :: rest) e.1)) := by
        rw [hinfo] at hcat ⊢
        exact ((analyzeColumn_stats (first :: rest) e.1).2 hcat).1
      rw [hc] at hval
      obtain ⟨k, n, more, hhead, x, hx, hxk⟩ := topValuesOf_head _ hval
      obtain ⟨hpres, row, hrow, hget⟩ := mem_presentValues _ _ _ hx
      rw [hhead] at htop
      have hfirst : firstTopValue e.2 = .str k := by
        simp only [firstTopValue, htop]
      have hk : k ≠ "" := by
        rw [← hxk]
        exact toStr_ne_empty x hpres
      have htruthy : toBoolean (Value.str k) = true := by
        simpa [toBoolean] using hk
      refine ⟨e.2, k, n, more, x, row, ?_, htop, ?_, hfirst, ?_, hrow, ?_, hpres, hxk⟩
      · rw [hc]
        exact he
      · rw [hv, hfirst]
        simp only [logicalOr, htruthy, if_true]
      · rw [hfirst]
        exact htruthy
      · rw [hc]
        exact hget
    · exact Operation.noConfusion hop
    · exact Operation.noConfusion hop
  · intro e he hnil
    obtain ⟨_, hinfo⟩ := performBasicAnalysis_entry first rest _ rfl e he
    obtain ⟨hnp, hnc⟩ := nullPercentage_all_missing first rest e.1 hnil
    rw [← hinfo] at hnp hnc
    have hplan : planColumn e.1 e.2 = .remove_column e.1 := by
      simp only [planColumn, hnp, toFixed_all_missing.2, if_true]
    refine ⟨hnp, hplan, ?_⟩
    apply (mem_generateCleaningPlan _ _).mpr
    exact Or.inl ⟨e, he, hnc, hplan.symm⟩
/-! ## Objects: enumeration order -/

/-- Overwriting a key keeps the keys and their order. -/
theorem objKeys_objReplace {α : Type} (o : Obj α) (k : String) (v : α) :
    objKeys (objReplace o k v) = objKeys o := by
  induction o with
  | nil => rfl
  | cons e o ih =>
    obtain ⟨k1, v1⟩ := e
    by_cases hk : k1 = k
    · simp [objReplace, objKeys, hk]
    · simp only [objReplace, hk, if_false, objKeys, List.map_cons] at ih ⊢
      rw [ih]

/-- A key that precedes another is not preceded by it. -/
theorem keyBefore_asymm (a b : String) (h : keyBefore a b = true) : keyBefore b a = false := by
  simp only [keyBefore] at h ⊢
  cases ha : arrayIndex a with
  | none => cases hb : arrayIndex b <;> simp [ha, hb] at h ⊢
  | some i =>
    cases hb : arrayIndex b with
    | none => simp
    | some j =>
      simp only [ha, hb, decide_eq_true_eq] at h
      simp only [decide_eq_false_iff_not]
      omega

/-- A key that does not precede `b` does not precede a key that precedes `b`. -/
theorem keyBefore_trans (k b c : String) (hk : keyBefore k b = true)
    (hc : keyBefore c b = false) : keyBefore c k = false := by
  simp only [keyBefore] at hk hc ⊢
  cases hci : arrayIndex c with
  | none => simp
  | some m =>
    cases hki : arrayIndex k with
    | none => simp [hki] at hk
    | some i =>
      cases hbi : arrayIndex b with
      | none => simp [hci, hbi] at hc
      | some j =>
        simp only [hki, hbi, hci, decide_eq_true_eq, decide_eq_false_iff_not] at hk hc ⊢
        omega

/-- Creating a new key keeps the keys distinct and in enumeration order. -/
theorem keysOrdered_objInsertNew {α : Type} (k : String) (v : α) :
    ∀ o : Obj α, keysOrdered (objKeys o) → k ∉ objKeys o →
      keysOrdered (objKeys (objInsertNew o k v)) ∧
      ∀ a, a ∈ objKeys (objInsertNew o k v) ↔ a = k ∨ a ∈ objKeys o := by
  intro o
  induction o with
  | nil =>
    intro _ _
    refine ⟨?_, ?_⟩
    · simp [keysOrdered, objInsertNew, objKeys]
    · intro a
      simp [objInsertNew, objKeys]
  | cons e o ih =>
    obtain ⟨k1, v1⟩ := e
    intro hord hk
    have hk1 : k ≠ k1 := by
      intro h
      apply hk
      simp [objKeys, h]
    have hko : k ∉ objKeys o := by
      intro h
      apply hk
      simp only [objKeys, List.map_cons, List.mem_cons]
      exact Or.inr h
    obtain ⟨hnd, hpw⟩ := hord
    simp only [objKeys, List.map_cons, List.nodup_cons, List.pairwise_cons] at hnd hpw
    by_cases hb : keyBefore k k1 = true
    · have hkeys : objKeys (objInsertNew ((k1, v1) :: o) k v) = k :: k1 :: objKeys o := by
        simp [objInsertNew, hb, objKeys]
      rw [hkeys]
      refine ⟨⟨?_, ?_⟩, ?_⟩
      · simp only [List.nodup_cons, List.mem_cons, not_or]
        exact ⟨⟨hk1, hko⟩, hnd.1, hnd.2⟩
      · simp only [List.pairwise_cons, List.mem_cons, forall_eq_or_imp]
        refine ⟨⟨keyBefore_asymm _ _ hb, ?_⟩, hpw.1, hpw.2⟩
        intro c hc
        exact keyBefore_trans k k1 c hb (hpw.1 c hc)
      · intro a
        simp [objKeys]
    · have hbf : keyBefore k k1 = false := by simpa using hb
      have hkeys : objKeys (objInsertNew ((k1, v1) :: o) k v)
          = k1 :: objKeys (objInsertNew o k v) := by
        simp [objInsertNew, hbf, objKeys]
      rw [hkeys]
      obtain ⟨⟨ihnd, ihpw⟩, ihmem⟩ := ih ⟨hnd.2, hpw.2⟩ hko
      refine ⟨⟨?_, ?_⟩, ?_⟩
      · simp only [List.nodup_cons]
        refine ⟨?_, ihnd⟩
        intro hmem
        rcases (ihmem k1).mp hmem with h | h
        · exact hk1 h.symm
        · exact hnd.1 h
      · simp only [List.pairwise_cons]
        refine ⟨?_, ihpw⟩
        intro c hc
        rcases (ihmem c).mp hc with h | h
        · rw [h]; exact hbf
        · exact hpw.1 c h
      · intro a
        rw [List.mem_cons, ihmem a]
        simp only [objKeys, List.map_cons, List.mem_cons]
        tauto

/-- Creating an array-index key leaves the other keys in their order; creating another key
puts it behind them. -/
theorem plainKeys_objInsertNew {α : Type} (k : String) (v : α) (o : Obj α) :
    (objKeys (objInsertNew o k v)).filter plainKey =
      if plainKey k then (objKeys o).filter plainKey ++ [k] else (objKeys o).filter plainKey := by
  by_cases hp : plainKey k = true
  · have hnone : arrayIndex k = none := by
      simpa [plainKey] using hp
    have hb : ∀ k1 ∈ objKeys o, keyBefore k k1 = false := by
      intro k1 _
      simp [keyBefore, hnone]
    rw [objInsertNew_append o k v hb]
    simp [objKeys, hp]
  · have key : ∀ o : Obj α,
        (objKeys (objInsertNew o k v)).filter plainKey = (objKeys o).filter plainKey := by
      intro o
      induction o with
      | nil => simp [objInsertNew, objKeys, hp]
      | cons e o ih =>
        obtain ⟨k1, v1⟩ := e
        by_cases hb : keyBefore k k1 = true
        · simp [objInsertNew, hb, objKeys, hp]
        · have hbf : keyBefore k k1 = false := by simpa using hb
          have hkeys : objKeys (objInsertNew ((k1, v1) :: o) k v)
              = k1 :: objKeys (objInsertNew o k v) := by
            simp [objInsertNew, hbf, objKeys]
          have hkeys2 : objKeys ((k1, v1) :: o) = k1 :: objKeys o := rfl
          rw [hkeys, hkeys2, List.filter_cons, List.filter_cons, ih]
    rw [key o]
    simp [hp]

/-- Writing a key that the object has overwrites it. -/
theorem objSet_old {α : Type} (o : Obj α) (k : String) (v : α)
    (h : (objGet o k).isSome = true) : objSet o k v = objReplace o k v := by
  simp only [objSet, h, if_true]

/-- Writing a key that the object does not have creates it. -/
theorem objSet_new {α : Type} (o : Obj α) (k : String) (v : α)
    (h : objGet o k = none) : objSet o k v = objInsertNew o k v := by
  simp [objSet, h]

/-- A key without a value is not a key of the object. -/
theorem not_mem_objKeys {α : Type} (o : Obj α) (k : String) (h : objGet o k = none) :
    k ∉ objKeys o := by
  intro hmem
  simp only [objKeys, List.mem_map] at hmem
  obtain ⟨e, he, hek⟩ := hmem
  have hsome := objGet_isSome_of_mem o e he
  rw [hek, h] at hsome
  exact Bool.noConfusion hsome

/-- The entries of an object with distinct keys are what reading its keys gives. -/
theorem objGet_of_mem_nodup {α : Type} (o : Obj α) (hnd : (objKeys o).Nodup) :
    ∀ e ∈ o, objGet o e.1 = some e.2 := by
  induction o with
  | nil => intro e he; simp at he
  | cons e1 o ih =>
    obtain ⟨k1, v1⟩ := e1
    simp only [objKeys, List.map_cons, List.nodup_cons] at hnd
    intro e he
    rcases List.mem_cons.mp he with h | h
    · rw [h]
      simp [objGet]
    · have hne : k1 ≠ e.1 := by
        intro hk
        apply hnd.1
        rw [hk]
        exact List.mem_map_of_mem _ h
      simp only [objGet, hne, if_false]
      exact ih hnd.2 e h

/-! ## Profiler: order of the most frequent values -/

/-- The first occurrences of a list with one more element. -/
theorem firstOccurrences_append_singleton (ks : List String) (k : String) :
    firstOccurrences (ks ++ [k]) =
      if k ∈ firstOccurrences ks then firstOccurrences ks else firstOccurrences ks ++ [k] := by
  simp only [firstOccurrences, List.foldl_append, List.foldl_cons, List.foldl_nil]

/-- The first occurrences of a list are its elements. -/
theorem mem_firstOccurrences (ks : List String) : ∀ k, k ∈ firstOccurrences ks ↔ k ∈ ks := by
  induction ks using List.reverseRecOn with
  | nil => intro k; simp [firstOccurrences]
  | append_singleton ks k1 ih =>
    intro k
    rw [firstOccurrences_append_singleton]
    by_cases h1 : k1 ∈ firstOccurrences ks
    · simp only [h1, if_true, List.mem_append, List.mem_singleton, ih k]
      constructor
      · exact Or.inl
      · rintro (h | h)
        · exact h
        · rw [h]; exact (ih k1).mp h1
    · simp only [h1, if_false, List.mem_append, List.mem_singleton, ih k]

/-- The keys of the counting object are distinct and in enumeration order, and they are the
keys counted. -/
theorem keysOrdered_tally (ks : List String) :
    keysOrdered (objKeys (tally ks)) ∧ ∀ k, k ∈ objKeys (tally ks) ↔ k ∈ ks := by
  induction ks using List.reverseRecOn with
  | nil =>
    refine ⟨?_, ?_⟩
    · simp [keysOrdered, tally, objKeys]
    · intro k
      simp [tally, objKeys]
  | append_singleton ks k1 ih =>
    rw [tally_append_singleton]
    obtain ⟨hord, hmem⟩ := ih
    by_cases hsome : (objGet (tally ks) k1).isSome = true
    · have hk1 : k1 ∈ ks := by
        rw [objGet_tally] at hsome
        by_contra hn
        simp [hn] at hsome
      rw [objSet_old _ _ _ hsome, objKeys_objReplace]
      refine ⟨hord, ?_⟩
      intro k
      rw [hmem k, List.mem_append, List.mem_singleton]
      constructor
      · exact Or.inl
      · rintro (h | h)
        · exact h
        · rw [h]; exact hk1
    · have hnone : objGet (tally ks) k1 = none := by
        cases hg : objGet (tally ks) k1 with
        | none => rfl
        | some n => rw [hg] at hsome; exact absurd rfl hsome
      rw [objSet_new _ _ _ hnone]
      obtain ⟨hord2, hmem2⟩ := keysOrdered_objInsertNew k1
        ((objGet (tally ks) k1).getD 0 + 1) (tally ks) hord (not_mem_objKeys _ _ hnone)
      refine ⟨hord2, ?_⟩
      intro k
      rw [hmem2 k, hmem k, List.mem_append, List.mem_singleton]
      tauto

/-- The keys of the counting object that are no array indices stand in the order of their
first occurrence. -/
theorem plainKeys_tally (ks : List String) :
    (objKeys (tally ks)).filter plainKey = (firstOccurrences ks).filter plainKey := by
  induction ks using List.reverseRecOn with
  | nil => rfl
  | append_singleton ks k1 ih =>
    rw [tally_append_singleton, firstOccurrences_append_singleton]
    by_cases hk1 : k1 ∈ ks
    · have hsome : (objGet (tally ks) k1).isSome = true := by
        rw [objGet_tally]
        simp [hk1]
      rw [objSet_old _ _ _ hsome, objKeys_objReplace]
      simp only [(mem_firstOccurrences ks k1).mpr hk1, if_true]
      exact ih
    · have hnone : objGet (tally ks) k1 = none := by
        rw [objGet_tally]
        simp [hk1]
      have hfo : ¬ k1 ∈ firstOccurrences ks := fun h => hk1 ((mem_firstOccurrences ks k1).mp h)
      rw [objSet_new _ _ _ hnone]
      simp only [hfo, if_false]
      rw [plainKeys_objInsertNew, ih]
      by_cases hp : plainKey k1 = true
      · simp [hp]
      · simp [hp]

/-- When no key counted is an array index, the counting object lists each key once with its
number of occurrences, in the order of first occurrence. -/
theorem tally_eq_firstOccurrences (ks : List String) (h : ∀ k ∈ ks, plainKey k = true) :
    tally ks = (firstOccurrences ks).map (fun k => (k, ks.count k)) := by
  obtain ⟨⟨hnd, _⟩, hmem⟩ := keysOrdered_tally ks
  have hkeys : objKeys (tally ks) = firstOccurrences ks := by
    have h1 : (objKeys (tally ks)).filter plainKey = objKeys (tally ks) := by
      apply List.filter_eq_self.mpr
      intro k hk
      exact h k ((hmem k).mp hk)
    have h2 : (firstOccurrences ks).filter plainKey = firstOccurrences ks := by
      apply List.filter_eq_self.mpr
      intro k hk
      exact h k ((mem_firstOccurrences ks k).mp hk)
    rw [← h1, ← h2]
    exact plainKeys_tally ks
  rw [← hkeys]
  simp only [objKeys, List.map_map]
  have hent : ∀ e ∈ tally ks, e = ((fun k => (k, ks.count k)) ∘ fun e => e.1) e := by
    intro e he
    have hget := objGet_of_mem_nodup (tally ks) hnd e he
    rw [objGet_tally] at hget
    have hk : e.1 ∈ ks := (mem_tally ks e he).1
    simp only [hk, if_true, Option.some.injEq] at hget
    simp only [Function.comp]
    rw [hget]
  conv_lhs => rw [← List.map_id (tally ks)]
  exact List.map_congr_left hent

/-- The stable sort by descending count: it permutes the entries, sorts them, and keeps
entries of equal count in their order. -/
theorem sortByCount_spec (l : List (String × Nat)) :
    (l.insertionSort (fun x y => y.2 ≤ x.2)).Perm l ∧
    (l.insertionSort (fun x y => y.2 ≤ x.2)).Sorted (fun x y => y.2 ≤ x.2) ∧
    ∀ n, (l.insertionSort (fun x y => y.2 ≤ x.2)).filter (fun e => decide (e.2 = n))
      = l.filter (fun e => decide (e.2 = n)) := by
  have htotal : IsTotal (String × Nat) (fun x y => y.2 ≤ x.2) := ⟨fun a b => Nat.le_total b.2 a.2⟩
  have htrans : IsTrans (String × Nat) (fun x y => y.2 ≤ x.2) :=
    ⟨fun a b c hab hbc => Nat.le_trans hbc hab⟩
  refine ⟨List.perm_insertionSort _ l, List.sorted_insertionSort _ l, ?_⟩
  intro n
  have hpw : (l.filter (fun e => decide (e.2 = n))).Pairwise (fun x y => y.2 ≤ x.2) := by
    apply List.pairwise_of_forall_mem_list
    intro a ha b hb
    simp only [List.mem_filter, decide_eq_true_eq] at ha hb
    rw [ha.2, hb.2]
  have hsub : (l.filter (fun e => decide (e.2 = n))).Sublist
      (l.insertionSort (fun x y => y.2 ≤ x.2)) :=
    List.sublist_insertionSort hpw (List.filter_sublist l)
  have hsub2 : (l.filter (fun e => decide (e.2 = n))).Sublist
      ((l.insertionSort (fun x y => y.2 ≤ x.2)).filter (fun e => decide (e.2 = n))) := by
    have := hsub.filter (fun e => decide (e.2 = n))
    rwa [List.filter_filter, List.filter_congr (fun x _ => Bool.and_self _)] at this
  have hlen : ((l.insertionSort (fun x y => y.2 ≤ x.2)).filter (fun e => decide (e.2 = n))).length
      = (l.filter (fun e => decide (e.2 = n))).length :=
    ((List.perm_insertionSort _ l).filter _).length_eq
  exact (hsub2.eq_of_length hlen.symm).symm

/-- When no string form of a value is inherited from `Object.prototype`, the most frequent
values are the first five entries of the stable sort of the plain tally by descending
count. -/
theorem topValuesOf_eq_tally (values : List Value)
    (h : ∀ k ∈ values.map toStr, inheritedKey k = false) :
    valueCounts values = numberCounts (tally (values.map toStr)) ∧
    topValuesOf values = numberCounts
      (((tally (values.map toStr)).insertionSort (fun x y => y.2 ≤ x.2)).take 5) := by
  have hcounts : valueCounts values = numberCounts (tally (values.map toStr)) := by
    rw [valueCounts_eq_countKeys, countKeys_eq_tally _ h]
    rfl
  refine ⟨hcounts, ?_⟩
  simp only [topValuesOf, hcounts, numberCounts]
  rw [List.map_take]
  congr 1
  symm
  apply List.map_insertionSort
  intro a _ b _
  simp [Count.subNotPos]

/-- C16. For every dataset and every column that the profiler classifies categorical and in
which no non-missing value has a string form that is a property name of `Object.prototype`
(`__proto__`, `constructor`, `toString` and the like), the counting object is the plain tally
of the string forms, each with the number of its occurrences, and `topValues` is the first
five entries of its stable sort by descending count: the sort permutes the entries, orders
them by descending count and keeps entries of equal count in the enumeration order of the
object. In that order the keys that are array indices come first in ascending order, and the
other keys follow in the order in which they were first encountered; when no string form is an
array index, `topValues` is the list of pairs in first-encounter order, sorted stably by
descending count and cut to five. -/
theorem C16_topValues_order (data : Dataset) (col : String)
    (hcat : (analyzeColumn data col).type = .categorical)
    (hown : ∀ k ∈ columnKeys data col, inheritedKey k = false) :
    valueCounts (presentValues data col) = numberCounts (tally (columnKeys data col)) ∧
    (analyzeColumn data col).topValues
      = some (numberCounts (((tally (columnKeys data col)).insertionSort
          (fun x y => y.2 ≤ x.2)).take 5)) ∧
    (∀ k, objGet (tally (columnKeys data col)) k
      = if k ∈ columnKeys data col then some ((columnKeys data col).count k) else none) ∧
    ((tally (columnKeys data col)).insertionSort (fun x y => y.2 ≤ x.2)).Perm
      (tally (columnKeys data col)) ∧
    ((tally (columnKeys data col)).insertionSort (fun x y => y.2 ≤ x.2)).Sorted
      (fun x y => y.2 ≤ x.2) ∧
    (∀ n, ((tally (columnKeys data col)).insertionSort
        (fun x y => y.2 ≤ x.2)).filter (fun e => decide (e.2 = n))
      = (tally (columnKeys data col)).filter (fun e => decide (e.2 = n))) ∧
    keysOrdered (objKeys (tally (columnKeys data col))) ∧
    (objKeys (tally (columnKeys data col))).filter plainKey
      = (firstOccurrences (columnKeys data col)).filter plainKey ∧
    ((∀ k ∈ columnKeys data col, plainKey k = true) →
      (analyzeColumn data col).topValues
        = some (numberCounts (topValuesByEncounter (presentValues data col)))) := by
  have htop := ((analyzeColumn_stats data col).2 hcat).1
  have hsort := sortByCount_spec (tally (columnKeys data col))
  obtain ⟨hcounts, htopeq⟩ := topValuesOf_eq_tally (presentValues data col) hown
  have htop2 : (analyzeColumn data col).topValues
      = some (numberCounts (((tally (columnKeys data col)).insertionSort
          (fun x y => y.2 ≤ x.2)).take 5)) := by
    rw [htop, htopeq]
    rfl
  refine ⟨hcounts, htop2, objGet_tally _, hsort.1, hsort.2.1, hsort.2.2,
    (keysOrdered_tally _).1, plainKeys_tally _, ?_⟩
  intro hplain
  rw [htop2]
  have hfo := tally_eq_firstOccurrences (columnKeys data col) hplain
  simp only [columnKeys] at hfo ⊢
  simp only [topValuesByEncounter]
  rw [← hfo]

/-- C16 at the dataset `[{c:"b"},{c:"a"},{c:"b"},{c:"c"}]`. -/
theorem C16_topValues_order_witness :
    (analyzeColumn plainKeysDataset "c").type = .categorical ∧
    (analyzeColumn plainKeysDataset "c").topValues
      = some (numberCounts (topValuesByEncounter (presentValues plainKeysDataset "c"))) ∧
    numberCounts (topValuesByEncounter (presentValues plainKeysDataset "c"))
      = [("b", 2), ("a", 1), ("c", 1)] :=
  ⟨by decide!,
    (C16_topValues_order plainKeysDataset "c" (by decide!) (by decide!)).2.2.2.2.2.2.2.2
      (by decide!),
    by decide!⟩

/-- In the column `c` of `[{c:"x"},{c:7}]` both values occur once and `"x"` is encountered
first, but `topValues` lists `"7"` first: the key `"7"` is an array index and the counting
object enumerates it in front of `"x"`. -/
theorem C16_first_encounter_counterexample :
    (analyzeColumn mixedKeysDataset "c").type = .categorical ∧
    (analyzeColumn mixedKeysDataset "c").topValues = some [("7", 1), ("x", 1)] ∧
    topValuesByEncounter (presentValues mixedKeysDataset "c") = [("x", 1), ("7", 1)] ∧
    firstOccurrences (columnKeys mixedKeysDataset "c") = ["x", "7"] := by
  decide!

/-! ## The pipeline: removed columns and duplicate rows -/

/-- C24. At the dataset `sparseNumericDataset` the plan removes the column `b`, which is
numeric and missing in more than 80% of the rows, and ends with `clean_numeric` for the same
column; that last operation writes the key `b` again, with the value `undefined`, so that every
cleaned row has the two keys of the original rows. -/
theorem C24_removed_numeric_column_is_rewritten :
    (performBasicAnalysis sparseNumericDataset).map
        (fun p => (generateCleaningPlan p).operations)
      = some [.remove_column "b", .remove_duplicates, .clean_numeric "b"] ∧
    (performBasicAnalysis sparseNumericDataset).bind
        (fun p => performDataCleaning sparseNumericDataset p (generateCleaningPlan p))
      = some
          [[("a", .str "p"), ("b", .undefined)], [("a", .str "q"), ("b", .undefined)],
           [("a", .str "r"), ("b", .undefined)], [("a", .str "s"), ("b", .undefined)],
           [("a", .str "t"), ("b", .undefined)], [("a", .str "u"), ("b", .undefined)]] ∧
    (performBasicAnalysis sparseNumericDataset).bind
        (fun p => (performDataCleaning sparseNumericDataset p (generateCleaningPlan p)).bind
          (fun cleaned => cleaned.head?.map (fun row => (objKeys row).length)))
      = some 2 := by
  decide!

/-- C25. At the dataset `meanFillDataset` the plan fills the missing `x` with the mean, which
the profile holds as the text `"2.00"`, removes duplicates while the filled row still differs
from the row with the number 2, and then coerces the column to numbers: the cleaned dataset
has the row `{x:2}` twice. -/
theorem C25_duplicates_after_numeric_cleaning :
    (performBasicAnalysis meanFillDataset).map (fun p => (generateCleaningPlan p).operations)
      = some [.fill_numeric "x" .mean (.str "2.00"), .remove_duplicates, .clean_numeric "x"] ∧
    (performBasicAnalysis meanFillDataset).bind
        (fun p => (runOperations p { cleanedData := meanFillDataset, operationResults := [] }
          ((generateCleaningPlan p).operations.take 2)).map (fun st => st.cleanedData))
      = some [[("x", .num (.fin 1))], [("x", .num (.fin 3))], [("x", .str "2.00")],
          [("x", .num (.fin 2))]] ∧
    (performBasicAnalysis meanFillDataset).bind
        (fun p => performDataCleaning meanFillDataset p (generateCleaningPlan p))
      = some [[("x", .num (.fin 1))], [("x", .num (.fin 3))], [("x", .num (.fin 2))],
          [("x", .num (.fin 2))]] ∧
    ¬ duplicateFree [[("x", .num (.fin 1))], [("x", .num (.fin 3))], [("x", .num (.fin 2))],
          [("x", .num (.fin 2))]] := by
  decide!

/-! ## Cleaning report -/

/-- Appending one line per element is appending the mapped list. -/
theorem foldl_append_singleton {α β : Type} (f : α → β) (xs : List α) :
    ∀ init : List β, xs.foldl (fun acc x => acc ++ [f x]) init = init ++ xs.map f := by
  induction xs with
  | nil => intro init; simp
  | cons x xs ih =>
    intro init
    simp only [List.foldl_cons, ih, List.map_cons, List.append_assoc, List.singleton_append]

/-- The report: two count lines, the optional lines on removed rows and columns, and one line
per operation. -/
theorem generateCleaningReport_eq (originalData cleanedData : Dataset) (plan : CleaningPlan) :
    generateCleaningReport originalData cleanedData plan =
      [.resultsHeader, .originalRows originalData.length, .cleanedRows cleanedData.length]
      ++ (if originalData.length ≠ cleanedData.length then
            [ReportLine.rowsRemoved ((originalData.length : Int) - (cleanedData.length : Int))
              (toFixed (fmul (fdiv (.fin (((originalData.length : Int)
                - (cleanedData.length : Int) : Int) : ℚ))
                (JSNum.ofNat originalData.length)) (.fin 100)) 1)]
          else [])
      ++ (if firstRowKeyCount originalData ≠ firstRowKeyCount cleanedData then
            [ReportLine.columnsRemoved
              ((firstRowKeyCount originalData : Int) - (firstRowKeyCount cleanedData : Int))]
          else [])
      ++ [.operationsHeader]
      ++ plan.operations.map operationLine := by
  simp only [generateCleaningReport, foldl_append_singleton]
  by_cases h1 : originalData.length = cleanedData.length <;>
    by_cases h2 : firstRowKeyCount originalData = firstRowKeyCount cleanedData <;>
    simp [h1, h2]

/-- The line of an operation is no line on removed rows or columns. -/
theorem operationLine_ne (op : Operation) :
    (∀ removed pct, operationLine op ≠ .rowsRemoved removed pct) ∧
    (∀ n, operationLine op ≠ .columnsRemoved n) := by
  cases op <;> exact ⟨fun _ _ h => ReportLine.noConfusion h, fun _ h => ReportLine.noConfusion h⟩

/-- The line on removed rows is in the report exactly when the row counts differ. -/
theorem rowsRemoved_mem_iff (originalData cleanedData : Dataset) (plan : CleaningPlan) :
    (∃ removed pct, ReportLine.rowsRemoved removed pct
        ∈ generateCleaningReport originalData cleanedData plan)
      ↔ originalData.length ≠ cleanedData.length := by
  rw [generateCleaningReport_eq]
  constructor
  · rintro ⟨removed, pct, hmem⟩
    intro heq
    simp only [heq, ne_eq, not_true_eq_false, if_false, List.append_nil, List.mem_append,
      List.mem_cons, List.mem_singleton, List.mem_map, List.not_mem_nil, or_false] at hmem
    rcases hmem with ((((h | h | h) | h) | h) | ⟨op, _, h⟩)
    · exact ReportLine.noConfusion h
    · exact ReportLine.noConfusion h
    · exact ReportLine.noConfusion h
    · split at h
      · simp only [List.mem_singleton] at h
        exact ReportLine.noConfusion h
      · simp at h
    · exact ReportLine.noConfusion h
    · exact (operationLine_ne op).1 removed pct h
  · intro hne
    refine ⟨(originalData.length : Int) - (cleanedData.length : Int),
      toFixed (fmul (fdiv (.fin (((originalData.length : Int)
        - (cleanedData.length : Int) : Int) : ℚ))
        (JSNum.ofNat originalData.length)) (.fin 100)) 1, ?_⟩
    simp [hne]

/-- The line on removed rows carries the difference of the row counts and the percentage
that the division by the original row count gives. -/
theorem mem_rowsRemoved (originalData cleanedData : Dataset) (plan : CleaningPlan)
    (removed : Int) (pct : String)
    (h : ReportLine.rowsRemoved removed pct
      ∈ generateCleaningReport originalData cleanedData plan) :
    removed = (originalData.length : Int) - (cleanedData.length : Int) ∧
    pct = toFixed (fmul (fdiv (.fin (removed : ℚ)) (JSNum.ofNat originalData.length))
      (.fin 100)) 1 := by
  rw [generateCleaningReport_eq] at h
  simp only [List.mem_append, List.mem_cons, List.mem_singleton, List.mem_map,
    List.not_mem_nil, or_false] at h
  rcases h with ((((h | h | h) | h) | h) | h) | ⟨op, _, h⟩
  · exact ReportLine.noConfusion h
  · exact ReportLine.noConfusion h
  · exact ReportLine.noConfusion h
  · split at h
    · simp only [List.mem_singleton] at h
      injection h with h1 h2
      rw [h2, h1]
      exact ⟨rfl, rfl⟩
    · simp at h
  · split at h
    · simp only [List.mem_singleton] at h
      exact ReportLine.noConfusion h
    · simp at h
  · exact ReportLine.noConfusion h
  · exact absurd h.symm ((operationLine_ne op).1 removed pct).symm

/-- C23. For every original dataset, profile and plan, and the cleaned dataset that
`performDataCleaning` returns for them: the report has the line on removed rows exactly when
the two datasets differ in their number of rows; the cleaned dataset has no more rows than the
original one, so a line that is written has a positive original row count as the divisor of
its percentage. When the original dataset is empty, the cleaned dataset is empty too and the
report has neither the line on removed rows nor the line on removed columns, and so no
percentage. The column count of an empty dataset is 0. -/
theorem C23_rows_removed_percentage (originalData cleanedData : Dataset) (plan : CleaningPlan)
    (analysis : Profile)
    (hrun : performDataCleaning originalData analysis plan = some cleanedData) :
    ((∃ removed pct, ReportLine.rowsRemoved removed pct
        ∈ generateCleaningReport originalData cleanedData plan)
      ↔ originalData.length ≠ cleanedData.length) ∧
    cleanedData.length ≤ originalData.length ∧
    (∀ removed pct, ReportLine.rowsRemoved removed pct
        ∈ generateCleaningReport originalData cleanedData plan →
      0 < originalData.length ∧
      removed = (originalData.length : Int) - (cleanedData.length : Int) ∧
      pct = toFixed (fmul (fdiv (.fin (removed : ℚ)) (JSNum.ofNat originalData.length))
        (.fin 100)) 1) ∧
    (originalData = [] →
      cleanedData = [] ∧
      (∀ removed pct, ReportLine.rowsRemoved removed pct
        ∉ generateCleaningReport originalData cleanedData plan) ∧
      (∀ n, ReportLine.columnsRemoved n
        ∉ generateCleaningReport originalData cleanedData plan)) ∧
    firstRowKeyCount [] = 0 := by
  have hlen : cleanedData.length ≤ originalData.length := by
    simp only [performDataCleaning, Option.map_eq_some'] at hrun
    obtain ⟨st1, hrun1, hst⟩ := hrun
    obtain ⟨sub, hsub, hrows, _⟩ := runOperations_rows analysis plan.operations _ st1 hrun1
    rw [← hst, hrows, List.length_map]
    exact hsub.length_le
  refine ⟨rowsRemoved_mem_iff _ _ _, hlen, ?_, ?_, rfl⟩
  · intro removed pct hline
    have hne := (rowsRemoved_mem_iff _ _ _).mp ⟨removed, pct, hline⟩
    exact ⟨by omega, mem_rowsRemoved _ _ _ _ _ hline⟩
  · intro hnil
    have hcl : cleanedData = [] := by
      rw [hnil] at hlen
      exact List.length_eq_zero.mp (Nat.le_zero.mp hlen)
    rw [hnil, hcl]
    refine ⟨rfl, ?_, ?_⟩
    · intro removed pct hmem
      exact (rowsRemoved_mem_iff [] [] plan).mp ⟨removed, pct, hmem⟩ rfl
    · intro n hmem
      rw [generateCleaningReport_eq] at hmem
      simp only [ne_eq, not_true_eq_false, if_false, List.append_nil, List.mem_append,
        List.mem_cons, List.mem_singleton, List.mem_map, List.not_mem_nil, or_false] at hmem
      rcases hmem with (((h | h | h) | h) | ⟨op, _, h⟩)
      · exact ReportLine.noConfusion h
      · exact ReportLine.noConfusion h
      · exact ReportLine.noConfusion h
      · exact ReportLine.noConfusion h
      · exact (operationLine_ne op).2 n h

/-- C23 at the empty dataset, cleaned with the profile and the plan of the dataset
`[{x:"1",y:"a"}, {x:"",y:"a"}, {x:"3",y:null}]`: the run returns the empty dataset and the
report has the two count lines and the lines of the operations. -/
theorem C23_rows_removed_percentage_witness :
    performDataCleaning [] pipelineProfile (generateCleaningPlan pipelineProfile) = some [] ∧
    generateCleaningReport [] [] (generateCleaningPlan pipelineProfile)
      = [.resultsHeader, .originalRows 0, .cleanedRows 0, .operationsHeader,
         .filledNumeric "x" .median, .filledCategorical "y" "a", .removedDuplicates,
         .cleanedNumeric "x"] ∧
    (∀ removed pct, ReportLine.rowsRemoved removed pct
      ∉ generateCleaningReport [] [] (generateCleaningPlan pipelineProfile)) :=
  ⟨by decide!, by decide!,
    ((C23_rows_removed_percentage [] [] (generateCleaningPlan pipelineProfile) pipelineProfile
      (by decide!)).2.2.2.1 rfl).2.1⟩

/-! ## Column type detection of the uploader -/

/-- C26. `detectDataType` throws for the booleans `true` and `false`: they are no numbers for
`parseFloat`, they are times for `new Date`, and `value.match` is then called on a value that
has no such method. On `null`, `undefined` and every string it returns one of the five type
names, and a string such as `"True"` is a `boolean`. -/
theorem C26_detectDataType_throws_on_booleans (dateParses : String → Bool) :
    detectDataType dateParses (.bool true) = none ∧
    detectDataType dateParses (.bool false) = none ∧
    detectDataType dateParses .null = some "null" ∧
    detectDataType dateParses .undefined = some "null" ∧
    detectDataType dateParses (.num (.fin 7)) = some "number" ∧
    detectDataType dateParses (.str "True") = some "boolean" ∧
    (∀ s, ∃ t ∈ dataTypeNames, detectDataType dateParses (.str s) = some t) := by
  refine ⟨?_, ?_, ?_, ?_, ?_, ?_, ?_⟩
  · have h : (parseFloat (toStr (.bool true))).isNaN = true := by decide!
    simp [detectDataType, h, dateIsValid]
  · have h : (parseFloat (toStr (.bool false))).isNaN = true := by decide!
    simp [detectDataType, h, dateIsValid]
  · simp [detectDataType]
  · simp [detectDataType]
  · have h1 : (toNumber (.num (.fin 7))).isNaN = false := by decide!
    have h2 : (parseFloat (toStr (.num (.fin 7)))).isNaN = false := by decide!
    simp [detectDataType, h1, h2]
  · have h1 : (toNumber (.str "True")).isNaN = true := by decide!
    have h2 : matchIsoDatePrefix "True".data = false := by decide!
    have h3 : matchSlashDate "True".data = false := by decide!
    have h4 : "True".toLower = "true" := by decide!
    simp [detectDataType, h1, h2, h3, h4]
  · intro s
    simp only [detectDataType, dataTypeNames]
    split_ifs <;> simp

/-! ## Chart data -/

/-- Pushing the points of the rows in turn gives the points of the rows that have one, in
row order. -/
theorem foldl_chartPoint (xAxis yAxis : String) (rows : List Row) :
    ∀ init : List Row,
      rows.foldl (fun result item =>
        match chartPoint xAxis yAxis item with
        | some point => result ++ [point]
        | none => result) init
      = init ++ (rows.filter (fun item =>
            !isNullish (rowGet item xAxis) && (toNumber (rowGet item yAxis)).isFinite)).map
          (fun item => objSet (objSet [] xAxis (rowGet item xAxis)) yAxis
            (.num (toNumber (rowGet item yAxis)))) := by
  induction rows with
  | nil => intro init; simp
  | cons item rows ih =>
    intro init
    rw [List.foldl_cons, ih]
    have hnan : ∀ n : JSNum, (!n.isNaN && n.isFinite) = n.isFinite := by
      intro n
      cases n <;> rfl
    by_cases hc : (!isNullish (rowGet item xAxis)
        && (toNumber (rowGet item yAxis)).isFinite) = true
    · have hp : chartPoint xAxis yAxis item
          = some (objSet (objSet [] xAxis (rowGet item xAxis)) yAxis
              (.num (toNumber (rowGet item yAxis)))) := by
        simp only [chartPoint, Bool.and_assoc, hnan, hc, if_true]
      rw [hp, List.filter_cons, if_pos hc]
      simp
    · have hp : chartPoint xAxis yAxis item = none := by
        simp only [chartPoint, Bool.and_assoc, hnan, hc, if_false]
        rfl
      rw [hp, List.filter_cons, if_neg hc]

/-- C30. At the dataset `[{"":0,"a":"x"}]` with the x-axis field `a`, the y-axis field named
by the empty string and the chart type `bar`, the chart data is empty although the row has an
x value that is not `null` or `undefined` and a y value, 0, that is a finite number: the test
`!yAxis` takes the empty name for "no axis chosen". For every dataset, every x-axis and y-axis
field whose name is not the empty string and every chart type other than `pie`, the chart data
is the list of the points of those among the first 1000 rows whose x value is not `null` or
`undefined` and whose y value coerces to a finite number, in row order, one point per such
row, made of the x value and of the number that the y value coerces to; it has at most 1000
points and the y of each point is a finite number. So it is for the axes `x` and `y` of the
dataset `[{x:"a",y:"1"},{x:null,y:2},{x:"b",y:"n/a"},{x:"c",y:3}]`. -/
theorem C30_no_points_for_empty_axis_name :
    chartData emptyHeaderDataset "a" "" "bar" = [] ∧
    chartData emptyHeaderDataset "" "a" "bar" = [] ∧
    (emptyHeaderDataset.take 1000).filter (fun item =>
        !isNullish (rowGet item "a") && (toNumber (rowGet item "")).isFinite)
      = emptyHeaderDataset ∧
    ((emptyHeaderDataset.take 1000).filter (fun item =>
        !isNullish (rowGet item "a") && (toNumber (rowGet item "")).isFinite)).map
      (fun item => objSet (objSet [] "a" (rowGet item "a")) ""
        (.num (toNumber (rowGet item ""))))
      = [[("a", .str "x"), ("", .num (.fin 0))]] ∧
    chartData chartDataset "x" "y" "bar"
      = [[("x", .str "a"), ("y", .num (.fin 1))], [("x", .str "c"), ("y", .num (.fin 3))]] ∧
    (∀ (csvdata : Dataset) (xAxis yAxis selectedChart : String),
      xAxis ≠ "" → yAxis ≠ "" → selectedChart ≠ "pie" →
      chartData csvdata xAxis yAxis selectedChart
        = ((csvdata.take 1000).filter (fun item =>
              !isNullish (rowGet item xAxis) && (toNumber (rowGet item yAxis)).isFinite)).map
            (fun item => objSet (objSet [] xAxis (rowGet item xAxis)) yAxis
              (.num (toNumber (rowGet item yAxis)))) ∧
      (chartData csvdata xAxis yAxis selectedChart).length ≤ 1000 ∧
      (∀ point ∈ chartData csvdata xAxis yAxis selectedChart,
        ∃ q : ℚ, rowGet point yAxis = .num (.fin q))) := by
  refine ⟨by decide!, by decide!, by decide!, by decide!, by decide!, ?_⟩
  intro csvdata xAxis yAxis selectedChart hx hy hchart
  have heq : chartData csvdata xAxis yAxis selectedChart
      = ((csvdata.take 1000).filter (fun item =>
            !isNullish (rowGet item xAxis) && (toNumber (rowGet item yAxis)).isFinite)).map
          (fun item => objSet (objSet [] xAxis (rowGet item xAxis)) yAxis
            (.num (toNumber (rowGet item yAxis)))) := by
    by_cases hlen : csvdata.length = 0
    · have hnil : csvdata = [] := List.length_eq_zero.mp hlen
      simp [chartData, hnil]
    · simp only [chartData, hx, hy, hlen, hchart, or_self, if_false]
      rw [foldl_chartPoint]
      rfl
  refine ⟨heq, ?_, ?_⟩
  · rw [heq, List.length_map]
    exact le_trans (List.length_filter_le _ _) (List.length_take_le _ _)
  · intro point hpoint
    rw [heq] at hpoint
    obtain ⟨item, hitem, rfl⟩ := List.mem_map.mp hpoint
    have hfin := (List.mem_filter.mp hitem).2
    simp only [Bool.and_eq_true] at hfin
    rw [rowGet_objSet_self]
    cases hn : toNumber (rowGet item yAxis) with
    | fin q => exact ⟨q, rfl⟩
    | nan => rw [hn] at hfin; exact absurd hfin.2 (by decide)
    | posInf => rw [hn] at hfin; exact absurd hfin.2 (by decide)
    | negInf => rw [hn] at hfin; exact absurd hfin.2 (by decide)

/-! ## Cleaning executor: the fill value of a planned operation -/

/-- C14. For every profile and every `fill_numeric` operation of the plan generated from it,
the value that `performDataCleaning`, run with that profile, writes into the missing cells of
the column is the value that the operation carries, whatever the rows are at the time the
operation runs: every row gets `row[column] ?? value`. The executor reads the mean or median
of the column from the profile, and the operation carries that same stored statistic since
the plan was generated. -/
theorem C14_fill_value_is_operation_value (analysis : Profile) (c : String)
    (strategy : Strategy) (value : Value)
    (hkeys : (objKeys analysis.columnAnalysis).Nodup)
    (hmem : Operation.fill_numeric c strategy value
      ∈ (generateCleaningPlan analysis).operations) :
    (∃ info, objGet analysis.columnAnalysis c = some info ∧
      value = strategyValue info strategy) ∧
    ∀ st : CleaningState, ∃ st1,
      applyOperation analysis st (.fill_numeric c strategy value) = some st1 ∧
      st1.cleanedData = st.cleanedData.map (fun row =>
        objSet row c (nullishCoalesce (rowGet row c) value)) ∧
      ∀ i row, st.cleanedData.get? i = some row → isNullish (rowGet row c) = true →
        ∃ row1, st1.cleanedData.get? i = some row1 ∧ rowGet row1 c = value := by
  have hinfo : ∃ info, objGet analysis.columnAnalysis c = some info ∧
      value = strategyValue info strategy := by
    rcases (mem_generateCleaningPlan _ _).mp hmem with ⟨e, he, _, heq⟩ | h | ⟨col, _, h⟩
    · have hcol : e.1 = c := by
        have h1 := (planColumn_column e.1 e.2).1
        rw [← heq] at h1
        exact (Option.some.inj h1).symm
      refine ⟨e.2, ?_, ?_⟩
      · rw [← hcol]
        exact objGet_of_mem_nodup _ hkeys e he
      · simp only [planColumn] at heq
        split at heq
        · exact Operation.noConfusion heq
        · split at heq
          · injection heq with _ hs hv
            rw [hv, hs]
          · exact Operation.noConfusion heq
    · exact Operation.noConfusion h
    · exact Operation.noConfusion h
  refine ⟨hinfo, ?_⟩
  obtain ⟨info, hget, hval⟩ := hinfo
  intro st
  refine ⟨_, applyOperation_fill_numeric analysis st c strategy value info hget, ?_, ?_⟩
  · simp only [hval]
  · intro i row hrow hnull
    refine ⟨objSet row c (nullishCoalesce (rowGet row c) (strategyValue info strategy)), ?_, ?_⟩
    · simp only [List.get?_eq_getElem?, List.getElem?_map] at hrow ⊢
      rw [hrow]
      rfl
    · rw [rowGet_objSet_self, hval]
      simp [nullishCoalesce, hnull]

/-- C14 at the profile of `[{x:"1",y:"a"}, {x:"",y:"a"}, {x:"3",y:null}]`: the planned
`fill_numeric` on `x` carries the median 2, and that is what a missing cell gets. -/
theorem C14_fill_value_is_operation_value_witness :
    Operation.fill_numeric "x" .median (.num (.fin 2))
      ∈ (generateCleaningPlan pipelineProfile).operations ∧
    ∃ st1, applyOperation pipelineProfile
        { cleanedData := [[("x", .null)], [("x", .num (.fin 5))]], operationResults := [] }
        (.fill_numeric "x" .median (.num (.fin 2))) = some st1 ∧
      st1.cleanedData = [[("x", .num (.fin 2))], [("x", .num (.fin 5))]] := by
  refine ⟨by decide!, ?_⟩
  obtain ⟨st1, h1, h2, _⟩ :=
    (C14_fill_value_is_operation_value pipelineProfile "x" .median (.num (.fin 2))
      (by decide) (by decide!)).2
      { cleanedData := [[("x", .null)], [("x", .num (.fin 5))]], operationResults := [] }
  exact ⟨st1, h1, h2.trans (by decide!)⟩

end DataAnalysis
